import Mathlib

/-!
# HDF5Tables: a columnar, append-only time-series table over HDF5

A verification development for `src/src/hdf5_wrapper.hpp` and `src/src/hdf5_wrapper.cpp`.

The C++ classes `H5TimeSeriesWriter` and `H5TimeSeriesReader` are embedded as pure
functions that pass the writer or reader object and the state of the storage backend
explicitly.  A function that can throw returns the state reached at the throw together
with the exception.

Conventions of the embedding.
* `std::string` is a list of characters; `c_str()` cuts a string at its first NUL.
* `hsize_t` and `size_t` counters are natural numbers.  Wraparound at `2 ^ 64` is not
  modelled: it needs a table of `2 ^ 64` rows.  The one subtraction that can go below
  zero on an input the code can meet (`currsize - index` in `readColumn`) has its own
  branch; `mNumCols - 1` is evaluated on writers that are open for writing, where
  `mNumCols` is at least 1.
* The storage library (HDF5) is not part of the sources.  It is modelled after the
  interface of section 6 of the spec: files hold attributes and one-dimensional
  extensible datasets, by name; a call the library refuses throws `H5Exception` and
  changes nothing.
* `int64_t` times and `double` measurements are only stored and copied, never computed
  with.  Both are represented by the integer their 64-bit pattern denotes.
-/

namespace rgr

/-! ## Strings and constants -/

/-- A `std::string`. -/
abbrev Str := List Char

/-- An element of a column: an `int64_t` time or a `double` measurement, as the integer
denoted by its bit pattern. -/
abbrev Scalar := Int

/-- The NUL character. -/
def NUL : Char := Char.ofNat 0

/-- The C string seen through `s.c_str()`: the characters before the first NUL. -/
def cstr (s : Str) : Str := s.takeWhile (fun c => c != NUL)

/-- Read window capacity, `kBufferSize` (hdf5_wrapper.hpp:16). -/
def kBufferSize : Nat := 4096

/-- Chunk capacity, `kChunkSize` (hdf5_wrapper.hpp:17). -/
def kChunkSize : Nat := 1024

/-- Attribute key of the table name (hdf5_wrapper.cpp:19). -/
def kTableNameStr : Str := "TABLE_NAME".toList

/-- Name of the time column (hdf5_wrapper.cpp:20). -/
def kTimeStr : Str := "time".toList

/-- Attribute key of the row count (hdf5_wrapper.cpp:21). -/
def NROWS_STR : Str := "NROWS".toList

/-- Attribute key of the column count (hdf5_wrapper.cpp:22). -/
def kNcolumnsStr : Str := "NCOLUMNS".toList

/-- First half of a field-name key (hdf5_wrapper.cpp:23). -/
def kFieldNameStr1 : Str := "FIELD_".toList

/-- Second half of a field-name key (hdf5_wrapper.cpp:24). -/
def kFieldNameStr2 : Str := "_NAME".toList

/-- Maximal string length of a column or table name, `kMaxStr` (hdf5_wrapper.cpp:26). -/
def kMaxStr : Nat := 1024

/-- The metadata key of the column at ordinal `index` (hdf5_wrapper.cpp:367-372):
`out << kFieldNameStr1 << index << kFieldNameStr2`. -/
def getFieldName (index : Nat) : Str :=
  kFieldNameStr1 ++ Nat.toDigits 10 index ++ kFieldNameStr2

/-- The exceptions of the library (hdf5_wrapper.hpp:134-172), the exception of the
storage library (`H5::Exception`), a failed `assert`, and undefined behaviour
(an access outside a buffer). -/
inductive Exn where
  | DuplicateColumn
  | BadSubscription
  | BadWrite
  | BadRead
  | H5Exception
  | AssertionFailure
  | Undefined
  deriving DecidableEq, Repr

/-! ## The storage backend -/

/-- The element type given to `createDataSet`. -/
inductive PredType where
  | NATIVE_INT64
  | NATIVE_DOUBLE
  deriving DecidableEq, Repr

/-- Modelled from the spec: a backend array (section 6, `createArray`): one-dimensional,
unbounded, extensible; its extent is the length of `data`. -/
structure DataSet where
  dtype : PredType
  data : List Scalar
  deriving DecidableEq, Repr

/-- Modelled from the spec: a scalar attribute (section 6, `setScalarAttribute`): a
fixed-length string of `kMaxStr` characters or a count. -/
inductive Attr where
  | str (buf : List Char)
  | hsize (value : Nat)
  deriving DecidableEq, Repr

/-- Modelled from the spec: the contents of one storage file: its root attributes and its
datasets, by name. -/
structure H5File where
  attrs : Str → Option Attr
  dsets : Str → Option DataSet

/-- A file as `H5F_ACC_TRUNC` leaves it: no attribute, no dataset. -/
def H5File.empty : H5File := ⟨fun _ => none, fun _ => none⟩

/-- Modelled from the spec: the storage backend: the files, by name. -/
abbrev FileSystem := Str → Option H5File

/-- A handle of an open dataset (`H5::DataSet`): the file and the name in the file. -/
structure DataSetId where
  file : Str
  name : Str
  deriving DecidableEq, Repr

/-- The dataset a handle refers to, when there is one. -/
def FileSystem.dset (fs : FileSystem) (h : DataSetId) : Option DataSet :=
  (fs h.file).bind (fun f => f.dsets h.name)

/-- Replace the dataset a handle refers to. -/
def FileSystem.setDset (fs : FileSystem) (h : DataSetId) (ds : DataSet) : FileSystem :=
  match fs h.file with
  | none => fs
  | some f => Function.update fs h.file (some { f with dsets := Function.update f.dsets h.name (some ds) })

/-- The attribute stored under `key` in the file `file`, when there is one. -/
def FileSystem.attr (fs : FileSystem) (file key : Str) : Option Attr :=
  (fs file).bind (fun f => f.attrs key)

/-- Modelled from the spec: `H5File(fileName, H5F_ACC_TRUNC, ...)` (section 6,
`openFile`): the file is created, or emptied when it exists.  The path is taken to be
one the process can write: the creation of the file itself goes through. -/
def FileSystem.createFile (fs : FileSystem) (fileName : Str) : FileSystem :=
  Function.update fs fileName (some H5File.empty)

/-- Modelled from the spec: `createAttribute` followed by `Attribute::write` on the root
group of an open file (section 6, `setScalarAttribute`).  The storage library refuses to
create an attribute under a key in use. -/
def FileSystem.createAttribute (fs : FileSystem) (locId : Option Str) (attrib : Str) (v : Attr) :
    FileSystem × Option Exn :=
  match locId with
  | none => (fs, some Exn.H5Exception)
  | some file =>
    match fs file with
    | none => (fs, some Exn.H5Exception)
    | some f =>
      match f.attrs attrib with
      | some _ => (fs, some Exn.H5Exception)
      | none => (Function.update fs file (some { f with attrs := Function.update f.attrs attrib (some v) }), none)

/-- Whether the storage library accepts `name` as the name of a new dataset in the root
group: it is not empty, has no path separator and is not the root group itself.  Paths
through groups are outside the model: a name with a separator counts as refused. -/
def validLinkName (name : Str) : Bool :=
  name != [] && !(name.contains (Char.ofNat 47)) && name != [Char.ofNat 46]

/-- Modelled from the spec: `createDataSet(name, type, space, plist)` (section 6,
`createArray`): a one-dimensional, unbounded, chunked array of initial length 0.  The
storage library refuses a name in use (or one that is no link name); the handle of the
new dataset is returned. -/
def FileSystem.createDataSet (fs : FileSystem) (locId : Option Str) (name : Str) (t : PredType) :
    FileSystem × Except Exn DataSetId :=
  match locId with
  | none => (fs, .error Exn.H5Exception)
  | some file =>
    match fs file with
    | none => (fs, .error Exn.H5Exception)
    | some f =>
      if validLinkName name = false then (fs, .error Exn.H5Exception)
      else
        match f.dsets name with
        | some _ => (fs, .error Exn.H5Exception)
        | none =>
          (Function.update fs file (some { f with dsets := Function.update f.dsets name (some ⟨t, []⟩) }),
            .ok ⟨file, name⟩)

/-- Modelled from the spec: `DataSet::extend` (section 6, `extendArray`): the extent
grows to `newLength`; the new elements hold the fill value 0. -/
def DataSet.extend (ds : DataSet) (newLength : Nat) : DataSet :=
  { ds with data := ds.data ++ List.replicate (newLength - ds.data.length) 0 }

/-- Modelled from the spec: the effect of `DataSet::write` with the hyperslab
`[start, start + count)` selected (section 6, `writeHyperslab`): `count` elements are
overwritten from the start of the buffer. -/
def DataSet.writeHyperslab (ds : DataSet) (start count : Nat) (ptr : List Scalar) : DataSet :=
  { ds with data := ds.data.take start ++ ptr.take count ++ ds.data.drop (start + count) }

/-- The lists of value-column names the storage library creates a table for: as C strings
the names are link names, pairwise distinct and different from the name of the time
column. -/
def creatable (names : List Str) : Prop :=
  (names.map cstr).Nodup ∧ kTimeStr ∉ names.map cstr ∧ ∀ n ∈ names, validLinkName (cstr n) = true

instance (names : List Str) : Decidable (creatable names) := by
  unfold creatable; infer_instance

/-! ## The writer -/

/-- The class `H5TimeSeriesWriter` (hdf5_wrapper.hpp:43-51).  A chunk buffer
(`std::array<_, kChunkSize>`) is a list of `kChunkSize` elements; `mFileId` is the name of
the open file, or `none` for a handle that is closed or was never opened. -/
structure H5TimeSeriesWriter where
  mDset : List DataSetId
  mData : List (List Scalar)
  mTimeData : List Scalar
  mChunkOffset : Nat
  mChunkBegin : Nat
  mNumRows : Nat
  mNumCols : Nat
  mFileId : Option Str
  mFlushFlag : Bool
  deriving DecidableEq, Repr

/-- What a member function of the writer leaves behind: the backend, the writer, and the
exception when one was thrown. -/
structure WriterResult where
  fs : FileSystem
  w : H5TimeSeriesWriter
  exn : Option Exn

/-- A chunk buffer with every slot zero.  The slots of `mTimeData` are indeterminate after
construction; a slot is always written before it is flushed, so they are fixed to zero. -/
def zeroChunk : List Scalar := List.replicate kChunkSize 0

/-- The default constructor (hdf5_wrapper.hpp:22): only `mFlushFlag` is initialised.  The
cursor fields are indeterminate; their values are the arguments. -/
def H5TimeSeriesWriter.defaultCtor (chunkOffset chunkBegin numRows numCols : Nat) :
    H5TimeSeriesWriter :=
  { mDset := [], mData := [], mTimeData := zeroChunk, mChunkOffset := chunkOffset,
    mChunkBegin := chunkBegin, mNumRows := numRows, mNumCols := numCols, mFileId := none,
    mFlushFlag := false }

/-- The buffer handed to `Attribute::write` by the string `writeAttrib`
(hdf5_wrapper.cpp:324-325): `strncpy(str, value.c_str(), kMaxStr)` copies at most `kMaxStr`
characters and pads with NUL. -/
def strncpy (value : Str) (n : Nat) : List Char :=
  (cstr value).take n ++ List.replicate (n - (cstr value).length) NUL

/-- The string `writeAttrib` (hdf5_wrapper.cpp:315-328).  The keys the library passes are
NUL-free literals, so `attrib.c_str()` is `attrib`. -/
def H5TimeSeriesWriter.writeAttribStr (fs : FileSystem) (attrib : Str) (value : Str)
    (locId : Option Str) : FileSystem × Option Exn :=
  fs.createAttribute locId attrib (Attr.str (strncpy value kMaxStr))

/-- The `hsize_t` `writeAttrib` (hdf5_wrapper.cpp:332-341). -/
def H5TimeSeriesWriter.writeAttribHsize (fs : FileSystem) (attrib : Str) (value : Nat)
    (locId : Option Str) : FileSystem × Option Exn :=
  fs.createAttribute locId attrib (Attr.hsize value)

/-- The loop `for i: writeAttrib(getFieldName(i + 1), nonTimeColumnNames[i], mFileId)`
(hdf5_wrapper.cpp:67-68), from ordinal `i + 1` on. -/
def H5TimeSeriesWriter.writeFieldNames (locId : Option Str) :
    FileSystem → Nat → List Str → FileSystem × Option Exn
  | fs, _, [] => (fs, none)
  | fs, i, name :: rest =>
    match H5TimeSeriesWriter.writeAttribStr fs (getFieldName (i + 1)) name locId with
    | (fs1, none) => H5TimeSeriesWriter.writeFieldNames locId fs1 (i + 1) rest
    | (fs1, some e) => (fs1, some e)

/-- The loop `for name: mDset.push_back(createDataSet(name.c_str(), NATIVE_DOUBLE, ...))`
(hdf5_wrapper.cpp:80-87): the backend it leaves, the handles pushed to `mDset`, in order,
and the exception when a creation was refused. -/
def H5TimeSeriesWriter.createValueDataSets (locId : Option Str) :
    FileSystem → List Str → FileSystem × List DataSetId × Option Exn
  | fs, [] => (fs, [], none)
  | fs, name :: rest =>
    match fs.createDataSet locId (cstr name) PredType.NATIVE_DOUBLE with
    | (fs1, .error e) => (fs1, [], some e)
    | (fs1, .ok dset) =>
      match H5TimeSeriesWriter.createValueDataSets locId fs1 rest with
      | (fs2, dsets, exn) => (fs2, dset :: dsets, exn)

/-- The backend calls of `openFile` (hdf5_wrapper.cpp:53-87), which do not depend on the
fields of the writer: the file is created first, then the names are checked for repeats
(the `unordered_set` of the names is smaller than the list), then the names are written
and the datasets created.  The result is the backend, the handles pushed to `mDset`, in
order, and the exception when one was thrown. -/
def H5TimeSeriesWriter.openFileCalls (fs : FileSystem) (fileName tableName : Str)
    (nonTimeColumnNames : List Str) : FileSystem × List DataSetId × Option Exn :=
  let locId := some (cstr fileName)
  let fs0 := fs.createFile (cstr fileName)
  if nonTimeColumnNames.dedup.length ≠ nonTimeColumnNames.length then
    (fs0, [], some Exn.DuplicateColumn)
  else
    match H5TimeSeriesWriter.writeAttribStr fs0 kTableNameStr tableName locId with
    | (fs1, some e) => (fs1, [], some e)
    | (fs1, none) =>
      match H5TimeSeriesWriter.writeAttribStr fs1 (getFieldName 0) kTimeStr locId with
      | (fs2, some e) => (fs2, [], some e)
      | (fs2, none) =>
        match H5TimeSeriesWriter.writeFieldNames locId fs2 0 nonTimeColumnNames with
        | (fs3, some e) => (fs3, [], some e)
        | (fs3, none) =>
          match fs3.createDataSet locId kTimeStr PredType.NATIVE_INT64 with
          | (fs4, .error e) => (fs4, [], some e)
          | (fs4, .ok dset) =>
            match H5TimeSeriesWriter.createValueDataSets locId fs4 nonTimeColumnNames with
            | (fs5, dsets, exn) => (fs5, dset :: dsets, exn)

/-- The member `openFile` (hdf5_wrapper.cpp:49-88): `mFileId` is assigned the new file and
each handle is pushed to the end of `mDset`. -/
def H5TimeSeriesWriter.openFile (fs : FileSystem) (w : H5TimeSeriesWriter)
    (fileName tableName : Str) (nonTimeColumnNames : List Str) : WriterResult :=
  match H5TimeSeriesWriter.openFileCalls fs fileName tableName nonTimeColumnNames with
  | (fs1, dsets, exn) =>
    ⟨fs1, { w with mFileId := some (cstr fileName), mDset := w.mDset ++ dsets }, exn⟩

/-- The three-argument constructor (hdf5_wrapper.cpp:39-47).  When `openFile` throws, no
writer comes into being. -/
def H5TimeSeriesWriter.ctor (fs : FileSystem) (fileName tableName : Str)
    (nonTimeColumnNames : List Str) : FileSystem × Except Exn H5TimeSeriesWriter :=
  let w : H5TimeSeriesWriter :=
    { mDset := [], mData := List.replicate nonTimeColumnNames.length zeroChunk,
      mTimeData := zeroChunk, mChunkOffset := 0, mChunkBegin := 0, mNumRows := 0,
      mNumCols := 1 + nonTimeColumnNames.length, mFileId := none, mFlushFlag := true }
  match H5TimeSeriesWriter.openFile fs w fileName tableName nonTimeColumnNames with
  | ⟨fs1, _, some e⟩ => (fs1, .error e)
  | ⟨fs1, w1, none⟩ => (fs1, .ok w1)

/-- The member `appendChunkToColumn` (hdf5_wrapper.cpp:268-292): the dataset is extended by
`ch_size` when its extent does not reach `row + ch_size - 1`, then the hyperslab
`[row, row + ch_size)` is written from `ptr`.  The write is refused by the storage library
when the hyperslab does not lie within the extent.  Every call the library makes has
`ch_size` at least 1, so `row + ch_size - 1` does not go below zero. -/
def H5TimeSeriesWriter.appendChunkToColumn (fs : FileSystem) (column : DataSetId) (row : Nat)
    (ptr : List Scalar) (ch_size : Nat) : FileSystem × Option Exn :=
  match fs.dset column with
  | none => (fs, some Exn.H5Exception)
  | some ds =>
    let currsize := ds.data.length
    if currsize ≤ row + ch_size - 1 then
      let ds1 := ds.extend (currsize + ch_size)
      let fs1 := fs.setDset column ds1
      if ds1.data.length > row + ch_size - 1 then
        (fs1.setDset column (ds1.writeHyperslab row ch_size ptr), none)
      else (fs1, some Exn.AssertionFailure)
    else if row + ch_size ≤ currsize then
      (fs.setDset column (ds.writeHyperslab row ch_size ptr), none)
    else (fs, some Exn.H5Exception)

/-- The loop `for i: mData[i][mChunkOffset] = nonTimeValues[i]` (hdf5_wrapper.cpp:209-210).
A value without a buffer is an access outside `mData`; the size check of `appendRow`
excludes it. -/
def H5TimeSeriesWriter.storeValues :
    List (List Scalar) → Nat → List Scalar → List (List Scalar)
  | buf :: bufs, off, v :: vs => buf.set off v :: H5TimeSeriesWriter.storeValues bufs off vs
  | bufs, _, [] => bufs
  | [], _, _ :: _ => []

/-- The loop `for i < n: appendChunkToColumn(mDset[i + 1], row, mData[i].data(), ...)`
(hdf5_wrapper.cpp:217-218 and 243-244); `dsets` is `mDset` without its first handle. -/
def H5TimeSeriesWriter.appendChunks (row ch_size : Nat) :
    FileSystem → List DataSetId → List (List Scalar) → Nat → FileSystem × Option Exn
  | fs, _, _, 0 => (fs, none)
  | fs, d :: ds, b :: bs, n + 1 =>
    match H5TimeSeriesWriter.appendChunkToColumn fs d row b ch_size with
    | (fs1, none) => H5TimeSeriesWriter.appendChunks row ch_size fs1 ds bs n
    | (fs1, some e) => (fs1, some e)
  | fs, _, _, _ + 1 => (fs, some Exn.Undefined)

/-- The flush of one chunk of `ch_size` rows: the time column through `mDset[0]`, then the
`n` value columns (hdf5_wrapper.cpp:216-218 and 242-244). -/
def H5TimeSeriesWriter.flushChunk (fs : FileSystem) (w : H5TimeSeriesWriter)
    (ch_size n : Nat) : FileSystem × Option Exn :=
  match w.mDset with
  | [] => (fs, some Exn.Undefined)
  | d0 :: ds =>
    match H5TimeSeriesWriter.appendChunkToColumn fs d0 w.mChunkBegin w.mTimeData ch_size with
    | (fs1, some e) => (fs1, some e)
    | (fs1, none) => H5TimeSeriesWriter.appendChunks w.mChunkBegin ch_size fs1 ds w.mData n

/-- The in-memory part of `appendRow` (hdf5_wrapper.cpp:206-214): the row is written to
the chunk buffers at `mChunkOffset`, then `mChunkOffset` and `mNumRows` are incremented. -/
def H5TimeSeriesWriter.storeRow (w : H5TimeSeriesWriter) (time : Scalar)
    (nonTimeValues : List Scalar) : H5TimeSeriesWriter :=
  { w with
    mTimeData := w.mTimeData.set w.mChunkOffset time
    mData := H5TimeSeriesWriter.storeValues w.mData w.mChunkOffset nonTimeValues
    mChunkOffset := w.mChunkOffset + 1
    mNumRows := w.mNumRows + 1 }

/-- The member `appendRow` (hdf5_wrapper.cpp:200-226). -/
def H5TimeSeriesWriter.appendRow (fs : FileSystem) (w : H5TimeSeriesWriter) (time : Scalar)
    (nonTimeValues : List Scalar) : WriterResult :=
  if w.mFlushFlag = false then ⟨fs, w, some Exn.BadWrite⟩
  else if nonTimeValues.length ≠ w.mNumCols - 1 then ⟨fs, w, some Exn.BadWrite⟩
  else
    let w1 := w.storeRow time nonTimeValues
    if w1.mChunkOffset = kChunkSize then
      match H5TimeSeriesWriter.flushChunk fs w1 kChunkSize nonTimeValues.length with
      | (fs1, some e) => ⟨fs1, w1, some e⟩
      | (fs1, none) => ⟨fs1, { w1 with mChunkOffset := 0, mChunkBegin := w1.mNumRows }, none⟩
    else ⟨fs, w1, none⟩

/-- The member `reset()` (hdf5_wrapper.cpp:230-258), the finalisation of a table: the row
and column counts are written, a chunk that is not full is flushed, the handles are
closed and the fields cleared. -/
def H5TimeSeriesWriter.reset (fs : FileSystem) (w : H5TimeSeriesWriter) : WriterResult :=
  if w.mFlushFlag = false then ⟨fs, w, none⟩
  else
    match H5TimeSeriesWriter.writeAttribHsize fs NROWS_STR w.mNumRows w.mFileId with
    | (fs1, some e) => ⟨fs1, w, some e⟩
    | (fs1, none) =>
      match H5TimeSeriesWriter.writeAttribHsize fs1 kNcolumnsStr w.mNumCols w.mFileId with
      | (fs2, some e) => ⟨fs2, w, some e⟩
      | (fs2, none) =>
        let cleared : H5TimeSeriesWriter := { w with
          mData := [], mDset := [], mChunkOffset := 0, mChunkBegin := 0, mNumRows := 0,
          mNumCols := 0, mFileId := none, mFlushFlag := false }
        if w.mChunkOffset ≠ 0 then
          match H5TimeSeriesWriter.flushChunk fs2 w w.mChunkOffset (w.mNumCols - 1) with
          | (fs3, some e) => ⟨fs3, w, some e⟩
          | (fs3, none) => ⟨fs3, cleared, none⟩
        else ⟨fs2, cleared, none⟩

/-- The effect of `mData.resize(n)` (hdf5_wrapper.cpp:95): the first `n` buffers are kept,
missing ones are added with every slot zero. -/
def resizeChunks (mData : List (List Scalar)) (n : Nat) : List (List Scalar) :=
  mData.take n ++ List.replicate (n - mData.length) zeroChunk

/-- The member `reset(fileName, tableName, nonTimeColumnNames)` (hdf5_wrapper.cpp:90-99). -/
def H5TimeSeriesWriter.resetFile (fs : FileSystem) (w : H5TimeSeriesWriter)
    (fileName tableName : Str) (nonTimeColumnNames : List Str) : WriterResult :=
  match H5TimeSeriesWriter.reset fs w with
  | ⟨fs1, w1, some e⟩ => ⟨fs1, w1, some e⟩
  | ⟨fs1, w1, none⟩ =>
    let w2 := { w1 with
      mData := resizeChunks w1.mData nonTimeColumnNames.length
      mNumCols := 1 + nonTimeColumnNames.length }
    match H5TimeSeriesWriter.openFile fs1 w2 fileName tableName nonTimeColumnNames with
    | ⟨fs2, w3, some e⟩ => ⟨fs2, w3, some e⟩
    | ⟨fs2, w3, none⟩ => ⟨fs2, { w3 with mFlushFlag := true }, none⟩

/-- The appends of a sequence of rows, one `appendRow` after the other; the sequence stops
at the first exception. -/
def H5TimeSeriesWriter.appendRows :
    FileSystem → H5TimeSeriesWriter → List (Scalar × List Scalar) → WriterResult
  | fs, w, [] => ⟨fs, w, none⟩
  | fs, w, row :: rest =>
    match H5TimeSeriesWriter.appendRow fs w row.1 row.2 with
    | ⟨fs1, w1, some e⟩ => ⟨fs1, w1, some e⟩
    | ⟨fs1, w1, none⟩ => H5TimeSeriesWriter.appendRows fs1 w1 rest

/-! ## What the writer has stored -/

/-- The handles of the value columns of a table in `file`, in declaration order. -/
def valueHandles (file : Str) (names : List Str) : List DataSetId :=
  names.map (fun n => ⟨file, cstr n⟩)

/-- The times of a sequence of appended rows. -/
def timesOf (rows : List (Scalar × List Scalar)) : List Scalar := rows.map Prod.fst

/-- The entries of the value column at position `j` in a sequence of appended rows. -/
def columnOf (rows : List (Scalar × List Scalar)) (j : Nat) : List Scalar :=
  rows.map (fun r => r.2.getD j 0)

/-- The file `file` holds the schema of a table: its name and, by ordinal, the names of its
columns, as `openFile` writes them. -/
structure HoldsSchema (fs : FileSystem) (file tableName : Str) (names : List Str) : Prop where
  isOpen : (fs file).isSome
  tableName : fs.attr file kTableNameStr = some (Attr.str (strncpy tableName kMaxStr))
  timeField : fs.attr file (getFieldName 0) = some (Attr.str (strncpy kTimeStr kMaxStr))
  fields : ∀ j, j < names.length →
    fs.attr file (getFieldName (j + 1)) = some (Attr.str (strncpy (names.getD j []) kMaxStr))

/-- The datasets of the table in `file` hold the first `k` entries of every column of
`rows`, and nothing else. -/
structure HoldsRows (fs : FileSystem) (file : Str) (names : List Str)
    (rows : List (Scalar × List Scalar)) (k : Nat) : Prop where
  time : fs.dset ⟨file, kTimeStr⟩ = some ⟨PredType.NATIVE_INT64, (timesOf rows).take k⟩
  value : ∀ j, j < names.length →
    fs.dset ⟨file, cstr (names.getD j [])⟩ = some ⟨PredType.NATIVE_DOUBLE, (columnOf rows j).take k⟩

/-- The state of a writer that was constructed for the table `names` in `file` and has
been given `rows` by `appendRow`: the rows before `mChunkBegin` are in the datasets, the
rows from `mChunkBegin` on are in the chunk buffers, and the counts are not written yet. -/
structure H5TimeSeriesWriter.Writing (fs : FileSystem) (w : H5TimeSeriesWriter) (file : Str)
    (names : List Str) (rows : List (Scalar × List Scalar)) : Prop where
  flag : w.mFlushFlag = true
  fileId : w.mFileId = some file
  dsets : w.mDset = ⟨file, kTimeStr⟩ :: valueHandles file names
  numCols : w.mNumCols = 1 + names.length
  numRows : w.mNumRows = rows.length
  cursor : w.mChunkBegin + w.mChunkOffset = rows.length
  offset : w.mChunkOffset < kChunkSize
  chunkBegin : kChunkSize ∣ w.mChunkBegin
  timeLen : w.mTimeData.length = kChunkSize
  timeBuf : w.mTimeData.take w.mChunkOffset = (timesOf rows).drop w.mChunkBegin
  dataLen : w.mData.length = names.length
  dataBuf : ∀ j b, w.mData.get? j = some b →
    b.length = kChunkSize ∧ b.take w.mChunkOffset = (columnOf rows j).drop w.mChunkBegin
  stored : HoldsRows fs file names rows w.mChunkBegin
  isOpen : (fs file).isSome
  noRows : fs.attr file NROWS_STR = none
  noCols : fs.attr file kNcolumnsStr = none

/-! ## The reader -/

/-- The class `Column<T, H5T>` with its base `ColumnB` (hdf5_wrapper.hpp:67-114): a read
window over one dataset.  A reader's file is not written while it is open (section 5 of
the spec), so the handle `mDset` of a dataset opened for reading is the dataset it refers
to; `none` is the handle that was never set.  `mData` is empty until the first
`getValue`. -/
structure Column where
  mDset : Option DataSet
  mName : Str
  mLastIndex : Nat
  mData : List Scalar
  deriving DecidableEq, Repr

/-- The constructor `Column(name)` (hdf5_wrapper.hpp:70 and 95). -/
def Column.ctor (name : Str) : Column :=
  { mDset := none, mName := name, mLastIndex := 0, mData := [] }

/-- The member `setDset` (hdf5_wrapper.hpp:72-75). -/
def Column.setDset (c : Column) (ds : DataSet) : Column := { c with mDset := some ds }

/-- The number of elements `readColumn` asks the backend for (hdf5_wrapper.cpp:302-304):
`size`, or what is left of the dataset from `index` on. -/
def readCount (currsize index size : Nat) : Nat :=
  if index + size > currsize then currsize - index else size

/-- The member `ColumnB::readColumn` (hdf5_wrapper.cpp:294-311): the hyperslab
`[index, index + count)` is read to the start of the buffer `ptr`; the rest of the buffer
keeps what it held.  Every dataset of the model has one dimension, so `BadRead` is not
thrown.  With `index` beyond the extent the count `currsize - index` wraps around and the
storage library refuses the selection.  With `index` at the extent the count is zero and
nothing is read. -/
def Column.readColumn (column : Option DataSet) (ptr : List Scalar) (index size : Nat) :
    Except Exn (List Scalar) :=
  match column with
  | none => .error Exn.H5Exception
  | some ds =>
    let currsize := ds.data.length
    if index > currsize then .error Exn.H5Exception
    else
      let count := readCount currsize index size
      .ok ((ds.data.drop index).take count ++ ptr.drop count)

/-- The member `updateBuffer` (hdf5_wrapper.hpp:108-111). -/
def Column.updateBuffer (c : Column) (index : Nat) : Column × Option Exn :=
  match Column.readColumn c.mDset c.mData index kBufferSize with
  | .error e => (c, some e)
  | .ok data => ({ c with mData := data, mLastIndex := index }, none)

/-- The element `mData[i]`; an index outside the vector is undefined behaviour. -/
def Column.elem (c : Column) (i : Nat) : Except Exn Scalar :=
  match c.mData.get? i with
  | none => .error Exn.Undefined
  | some v => .ok v

/-- The member `getValue` (hdf5_wrapper.hpp:97-106). -/
def Column.getValue (c : Column) (index : Nat) : Column × Except Exn Scalar :=
  let c1 := if c.mData.isEmpty then
      { c with mData := List.replicate kBufferSize 0, mLastIndex := index + 1 }
    else c
  if c1.mLastIndex + kBufferSize ≤ index ∨ index < c1.mLastIndex then
    match c1.updateBuffer index with
    | (c2, some e) => (c2, .error e)
    | (c2, none) => (c2, c2.elem (index - c2.mLastIndex))
  else (c1, c1.elem (index - c1.mLastIndex))

/-- The class `H5TimeSeriesReader` (hdf5_wrapper.hpp:122-129).  `mFileId` is the file as it
was when it was opened. -/
structure H5TimeSeriesReader where
  mTimeColumn : Column
  mColumn : List Column
  mTableName : Str
  mFileId : H5File
  mSubscrList : List Nat
  mNumRows : Nat
  mNumCols : Nat

/-- What a member function of the reader leaves behind: the reader, and the exception when
one was thrown. -/
structure ReaderResult where
  r : H5TimeSeriesReader
  exn : Option Exn

/-- The string `readAttrib` (hdf5_wrapper.cpp:345-355): `kMaxStr` characters are read to
`attr` and `value = attr` takes them up to the first NUL.  Without a NUL among them the
assignment reads past the end of `attr`. -/
def H5TimeSeriesReader.readAttribStr (attrib : Str) (locId : H5File) : Except Exn Str :=
  match locId.attrs attrib with
  | none => .error Exn.H5Exception
  | some (Attr.hsize _) => .error Exn.H5Exception
  | some (Attr.str buf) =>
    if (buf.take kMaxStr).contains NUL then .ok (cstr (buf.take kMaxStr)) else .error Exn.Undefined

/-- The `hsize_t` `readAttrib` (hdf5_wrapper.cpp:359-365). -/
def H5TimeSeriesReader.readAttribHsize (attrib : Str) (locId : H5File) : Except Exn Nat :=
  match locId.attrs attrib with
  | none => .error Exn.H5Exception
  | some (Attr.str _) => .error Exn.H5Exception
  | some (Attr.hsize v) => .ok v

/-- Modelled from the spec: `openDataSet(name)` (section 6, `openArray`): the dataset of
that name, or the exception of the storage library when there is none. -/
def H5File.openDataSet (f : H5File) (name : Str) : Except Exn DataSet :=
  match f.dsets (cstr name) with
  | none => .error Exn.H5Exception
  | some ds => .ok ds

/-- The loop `for (i = 1; i < mNumCols; i++)` of the constructor (hdf5_wrapper.cpp:125-128),
from ordinal `i` on with `n` ordinals to go. -/
def H5TimeSeriesReader.readColumns (locId : H5File) :
    Nat → Nat → List Column → Except Exn (List Column)
  | _, 0, cols => .ok cols
  | i, n + 1, cols =>
    match H5TimeSeriesReader.readAttribStr (getFieldName i) locId with
    | .error e => .error e
    | .ok name => H5TimeSeriesReader.readColumns locId (i + 1) n (cols ++ [Column.ctor name])

/-- The constructor `H5TimeSeriesReader(fileName)` (hdf5_wrapper.cpp:103-129). -/
def H5TimeSeriesReader.ctor (fs : FileSystem) (fileName : Str) :
    Except Exn H5TimeSeriesReader :=
  match fs (cstr fileName) with
  | none => .error Exn.H5Exception
  | some file =>
    match H5TimeSeriesReader.readAttribStr kTableNameStr file with
    | .error e => .error e
    | .ok tableName =>
      match H5TimeSeriesReader.readAttribHsize NROWS_STR file with
      | .error e => .error e
      | .ok numRows =>
        match H5TimeSeriesReader.readAttribHsize kNcolumnsStr file with
        | .error e => .error e
        | .ok numCols =>
          match H5TimeSeriesReader.readAttribStr (getFieldName 0) file with
          | .error e => .error e
          | .ok name =>
            if name ≠ kTimeStr then .error Exn.BadSubscription
            else
              match file.openDataSet name with
              | .error e => .error e
              | .ok ds =>
                match H5TimeSeriesReader.readColumns file 1 (numCols - 1) [] with
                | .error e => .error e
                | .ok cols =>
                  .ok { mTimeColumn := (Column.ctor kTimeStr).setDset ds, mColumn := cols,
                        mTableName := tableName, mFileId := file, mSubscrList := [],
                        mNumRows := numRows, mNumCols := numCols }

/-- The accessor `tableName` (hdf5_wrapper.cpp:133-135). -/
def H5TimeSeriesReader.tableName (r : H5TimeSeriesReader) : Str := r.mTableName

/-- The accessor `numRows` (hdf5_wrapper.cpp:262-264). -/
def H5TimeSeriesReader.numRows (r : H5TimeSeriesReader) : Nat := r.mNumRows

/-- The accessor `nonTimeColumnNames` (hdf5_wrapper.cpp:188-196). -/
def H5TimeSeriesReader.nonTimeColumnNames (r : H5TimeSeriesReader) : List Str :=
  r.mColumn.map (fun column => column.mName)

/-- The member `doSubscr` (hdf5_wrapper.cpp:179-184).  An ordinal outside `mColumn` is an
access outside the vector. -/
def H5TimeSeriesReader.doSubscr (r : H5TimeSeriesReader) (i : Nat) : ReaderResult :=
  if i ∈ r.mSubscrList then ⟨r, none⟩
  else
    match r.mColumn.get? i with
    | none => ⟨r, some Exn.Undefined⟩
    | some c =>
      match r.mFileId.openDataSet c.mName with
      | .error e => ⟨r, some e⟩
      | .ok ds =>
        ⟨{ r with mColumn := r.mColumn.set i (c.setDset ds), mSubscrList := r.mSubscrList ++ [i] },
          none⟩

/-- The member `subscribe` (hdf5_wrapper.cpp:154-168).  The inner loop stops at the first
column of that name, or at `mColumn.size()` when there is none. -/
def H5TimeSeriesReader.subscribe :
    H5TimeSeriesReader → List Str → ReaderResult
  | r, [] => ⟨r, none⟩
  | r, columnName :: rest =>
    if columnName = kTimeStr then ⟨r, some Exn.BadSubscription⟩
    else
      let i := r.mColumn.findIdx (fun c => decide (columnName = c.mName))
      if i = r.mColumn.length then ⟨r, some Exn.BadSubscription⟩
      else
        match r.doSubscr i with
        | ⟨r1, some e⟩ => ⟨r1, some e⟩
        | ⟨r1, none⟩ => H5TimeSeriesReader.subscribe r1 rest

/-- The loop of `subscribeAll` from ordinal `i` on with `n` ordinals to go. -/
def H5TimeSeriesReader.subscribeFrom :
    H5TimeSeriesReader → Nat → Nat → ReaderResult
  | r, _, 0 => ⟨r, none⟩
  | r, i, n + 1 =>
    match r.doSubscr i with
    | ⟨r1, some e⟩ => ⟨r1, some e⟩
    | ⟨r1, none⟩ => H5TimeSeriesReader.subscribeFrom r1 (i + 1) n

/-- The member `subscribeAll` (hdf5_wrapper.cpp:172-175). -/
def H5TimeSeriesReader.subscribeAll (r : H5TimeSeriesReader) : ReaderResult :=
  H5TimeSeriesReader.subscribeFrom r 0 r.mColumn.length

/-- What `readRow` leaves behind: the reader, the two output arguments, and the value
returned or the exception thrown. -/
structure ReadRowResult where
  r : H5TimeSeriesReader
  time : Scalar
  nonTimeValues : List Scalar
  ret : Except Exn Bool

/-- The loop `for fieldIdx : mSubscrList` of `readRow` (hdf5_wrapper.cpp:147-148). -/
def H5TimeSeriesReader.readValues (index : Nat) :
    List Column → List Nat → List Scalar → (List Column × List Scalar) × Option Exn
  | cols, [], vals => ((cols, vals), none)
  | cols, fieldIdx :: rest, vals =>
    match cols.get? fieldIdx with
    | none => ((cols, vals), some Exn.Undefined)
    | some c =>
      match c.getValue index with
      | (c1, .error e) => ((cols.set fieldIdx c1, vals), some e)
      | (c1, .ok v) => H5TimeSeriesReader.readValues index (cols.set fieldIdx c1) rest (vals ++ [v])

/-- The member `readRow` (hdf5_wrapper.cpp:137-150); `time` and `nonTimeValues` are the
output arguments as the caller passes them. -/
def H5TimeSeriesReader.readRow (r : H5TimeSeriesReader) (index : Nat) (time : Scalar)
    (nonTimeValues : List Scalar) : ReadRowResult :=
  if index ≥ r.mNumRows then ⟨r, time, nonTimeValues, .ok false⟩
  else
    match r.mTimeColumn.getValue index with
    | (tc, .error e) => ⟨{ r with mTimeColumn := tc }, time, nonTimeValues, .error e⟩
    | (tc, .ok t) =>
      match H5TimeSeriesReader.readValues index r.mColumn r.mSubscrList [] with
      | ((cols, vals), some e) => ⟨{ r with mTimeColumn := tc, mColumn := cols }, t, vals, .error e⟩
      | ((cols, vals), none) => ⟨{ r with mTimeColumn := tc, mColumn := cols }, t, vals, .ok true⟩

/-- The reads `readRow(index, time, values)` for the indices of a list, in the order of the
list, each with the output arguments as the read before left them (example.cpp:78-80):
for each read the value returned and the two outputs. -/
def H5TimeSeriesReader.readRows :
    H5TimeSeriesReader → List Nat → Scalar → List Scalar →
      List (Except Exn Bool × Scalar × List Scalar)
  | _, [], _, _ => []
  | r, index :: rest, time, nonTimeValues =>
    ((r.readRow index time nonTimeValues).ret, (r.readRow index time nonTimeValues).time,
        (r.readRow index time nonTimeValues).nonTimeValues) ::
      H5TimeSeriesReader.readRows (r.readRow index time nonTimeValues).r rest
        (r.readRow index time nonTimeValues).time (r.readRow index time nonTimeValues).nonTimeValues

/-! ## Tables written and read from start to end -/

/-- A table written from start to end (example.cpp:38-41): the constructor, `appendRow`
for every row in order, then `reset()`.  The result is the backend, and the exception
when one was thrown. -/
def writeTable (fs : FileSystem) (fileName tableName : Str) (names : List Str)
    (rows : List (Scalar × List Scalar)) : FileSystem × Option Exn :=
  match H5TimeSeriesWriter.ctor fs fileName tableName names with
  | (fs1, .error e) => (fs1, some e)
  | (fs1, .ok w) =>
    match H5TimeSeriesWriter.appendRows fs1 w rows with
    | ⟨fs2, _, some e⟩ => (fs2, some e)
    | ⟨fs2, w2, none⟩ => ((H5TimeSeriesWriter.reset fs2 w2).fs, (H5TimeSeriesWriter.reset fs2 w2).exn)

/-! ## What the reader holds -/

/-- The element at `index` of the dataset of the column at position `i` of `names`, when
there is one. -/
def storedIn (file : H5File) (names : List Str) (i index : Nat) : Option Scalar :=
  ((names.get? i).bind (fun n => file.dsets (cstr n))).bind (fun ds => ds.data.get? index)

/-- The element at `index` of the stored array of the declared value column at position
`i` of `mColumn`, when there is one. -/
def H5TimeSeriesReader.stored (r : H5TimeSeriesReader) (i index : Nat) : Option Scalar :=
  storedIn r.mFileId r.nonTimeColumnNames i index

/-- The read window of a column agrees with the dataset `ds`: it is not allocated yet, or
it has `kBufferSize` slots, starts within the extent, and every slot that lies within the
extent holds the element of the dataset at its index. -/
def Column.Window (c : Column) (ds : DataSet) : Prop :=
  c.mData = [] ∨
    (c.mData.length = kBufferSize ∧ c.mLastIndex ≤ ds.data.length ∧
      ∀ k, k < kBufferSize → c.mLastIndex + k < ds.data.length →
        c.mData.get? k = ds.data.get? (c.mLastIndex + k))

/-- A declared column of a reader of a finalised table: its dataset is in the file with
`numRows` elements, its handle is not set or is the handle of that dataset, and its read
window agrees with that dataset. -/
def Column.Consistent (file : H5File) (numRows : Nat) (c : Column) : Prop :=
  ∃ ds, file.dsets (cstr c.mName) = some ds ∧ ds.data.length = numRows ∧
    (c.mDset = none ∨ c.mDset = some ds) ∧ c.Window ds

/-- The state of a reader of a finalised table: the dataset of the time column is open,
has `mNumRows` elements and its read window agrees with it; every declared column is
consistent; the subscribed ordinals are ordinals of declared columns whose handle was
set. -/
structure H5TimeSeriesReader.Consistent (r : H5TimeSeriesReader) : Prop where
  time : ∃ ds, r.mTimeColumn.mDset = some ds ∧ ds.data.length = r.mNumRows ∧
    r.mTimeColumn.Window ds
  columns : ∀ c ∈ r.mColumn, c.Consistent r.mFileId r.mNumRows
  subscribed : ∀ i ∈ r.mSubscrList, ∃ c, r.mColumn.get? i = some c ∧ c.mDset.isSome

/-! ## The scenario of the example program -/

/-- The file of the example program (example.cpp:38). -/
def exFile : Str := "mytest.h5".toList

/-- The table name of the example program (example.cpp:38). -/
def exTable : Str := "MyTable".toList

/-- The value columns of the example program (example.cpp:22-26). -/
def exNames : List Str := ["x1".toList, "x2".toList, "x3".toList, "x4".toList, "x5".toList]

/-- Three rows in the manner of the example program (example.cpp:27-34), with integers
for the measurements. -/
def exRows : List (Scalar × List Scalar) :=
  [(0, [12, 123, 1234, 12345, 123456]), (1, [22, 223, 2234, 22345, 223456]),
   (2, [32, 323, 3234, 32345, 323456])]

/-- The 2500 rows of the scenario of the spec (section 8): row `i` has the time `i` and the
values `1.2 + i`, `1.23 + i`, ..., with integers for the measurements.  They fill two
chunks and 452 slots of a third. -/
def exManyRows : List (Scalar × List Scalar) :=
  (List.range 2500).map
    (fun (i : Nat) => ((i : Int), [12 + (i : Int), 123 + (i : Int), 1234 + (i : Int),
      12345 + (i : Int), 123456 + (i : Int)]))

/-- The writer the constructor gives for the example table. -/
def exWriter : H5TimeSeriesWriter :=
  { mDset := ⟨exFile, kTimeStr⟩ :: valueHandles exFile exNames,
    mData := List.replicate 5 zeroChunk, mTimeData := zeroChunk, mChunkOffset := 0,
    mChunkBegin := 0, mNumRows := 0, mNumCols := 6, mFileId := some exFile,
    mFlushFlag := true }

/-- The backend after the example table was written to an empty backend. -/
def exFs : FileSystem := (writeTable (fun _ => none) exFile exTable exNames exRows).1

/-- The reader the constructor gives on the example table. -/
def exReader : H5TimeSeriesReader :=
  { mTimeColumn := (Column.ctor kTimeStr).setDset ⟨PredType.NATIVE_INT64, timesOf exRows⟩,
    mColumn := exNames.map (fun n => Column.ctor (cstr n)), mTableName := exTable,
    mFileId := (exFs exFile).getD H5File.empty, mSubscrList := [], mNumRows := 3,
    mNumCols := 6 }

/-! ## Sequences of calls on a read window -/

/-- The calls `getValue(index)` on one column for the indices of a list, in the order of
the list: what each call returns or throws. -/
def Column.getValues : Column → List Nat → List (Except Exn Scalar)
  | _, [] => []
  | c, index :: rest => (c.getValue index).2 :: Column.getValues (c.getValue index).1 rest

/-! ## Sequences of calls on a writer -/

/-- The calls `appendRow(time, values)` of a list, in order, each on the writer and the
backend as the call before left them, whether it threw or not. -/
def H5TimeSeriesWriter.appendCalls :
    FileSystem → H5TimeSeriesWriter → List (Scalar × List Scalar) → FileSystem × H5TimeSeriesWriter
  | fs, w, [] => (fs, w)
  | fs, w, call :: rest =>
    H5TimeSeriesWriter.appendCalls (H5TimeSeriesWriter.appendRow fs w call.1 call.2).fs
      (H5TimeSeriesWriter.appendRow fs w call.1 call.2).w rest

/-- The extent `currsize` that each call of `appendChunkToColumn` in the loop over the
value columns (`appendChunks`) finds in its dataset (hdf5_wrapper.cpp:272-274), in the
order of the calls; `none` stands for a handle without a dataset. -/
def H5TimeSeriesWriter.appendChunksExtents (row ch_size : Nat) :
    FileSystem → List DataSetId → List (List Scalar) → Nat → List (Option Nat)
  | _, _, _, 0 => []
  | fs, d :: ds, b :: bs, n + 1 =>
    (fs.dset d).map (fun x => x.data.length) ::
      match H5TimeSeriesWriter.appendChunkToColumn fs d row b ch_size with
      | (fs1, none) => H5TimeSeriesWriter.appendChunksExtents row ch_size fs1 ds bs n
      | (_, some _) => []
  | _, _, _, _ + 1 => []

/-- The extent `currsize` that each call of `appendChunkToColumn` of one flush
(`flushChunk`) finds in its dataset, in the order of the calls. -/
def H5TimeSeriesWriter.flushChunkExtents (fs : FileSystem) (w : H5TimeSeriesWriter)
    (ch_size n : Nat) : List (Option Nat) :=
  match w.mDset with
  | [] => []
  | d0 :: ds =>
    (fs.dset d0).map (fun x => x.data.length) ::
      match H5TimeSeriesWriter.appendChunkToColumn fs d0 w.mChunkBegin w.mTimeData ch_size with
      | (_, some _) => []
      | (fs1, none) =>
        H5TimeSeriesWriter.appendChunksExtents w.mChunkBegin ch_size fs1 ds w.mData n

/-- The backend and the writer of the example table after the three rows of `exRows`
were appended and before `reset()`. -/
def exWritten : FileSystem × H5TimeSeriesWriter :=
  H5TimeSeriesWriter.appendCalls
    (H5TimeSeriesWriter.ctor (fun _ => none) exFile exTable exNames).1 exWriter exRows

/-! ## The states of a reader -/

/-- The states a reader opened on a file of the backend `fs` can reach: the state the
constructor gives, and the states the public member functions `subscribe`,
`subscribeAll` and `readRow` leave, whether they threw or not. -/
inductive H5TimeSeriesReader.Reachable (fs : FileSystem) : H5TimeSeriesReader → Prop where
  | opened (fileName : Str) (r : H5TimeSeriesReader) :
      H5TimeSeriesReader.ctor fs fileName = .ok r → H5TimeSeriesReader.Reachable fs r
  | subscribed (r : H5TimeSeriesReader) (columnNames : List Str) :
      H5TimeSeriesReader.Reachable fs r →
      H5TimeSeriesReader.Reachable fs (r.subscribe columnNames).r
  | subscribedAll (r : H5TimeSeriesReader) :
      H5TimeSeriesReader.Reachable fs r → H5TimeSeriesReader.Reachable fs r.subscribeAll.r
  | read (r : H5TimeSeriesReader) (index : Nat) (time : Scalar) (nonTimeValues : List Scalar) :
      H5TimeSeriesReader.Reachable fs r →
      H5TimeSeriesReader.Reachable fs (r.readRow index time nonTimeValues).r

/-- The subscription list holds no ordinal twice, and only positions of declared value
columns in `mColumn`. -/
def H5TimeSeriesReader.SubscrOk (r : H5TimeSeriesReader) : Prop :=
  r.mSubscrList.Nodup ∧ ∀ i ∈ r.mSubscrList, i < r.nonTimeColumnNames.length

/-- The position in `mColumn` at which the inner loop of `subscribe` stops for each name
of a list (hdf5_wrapper.cpp:159-163): the first column of that name. -/
def H5TimeSeriesReader.ordinals (r : H5TimeSeriesReader) (columnNames : List Str) : List Nat :=
  columnNames.map (fun n => r.mColumn.findIdx (fun c => decide (n = c.mName)))

/-- A column of a reader with its handle set to the dataset of its name in the file of the
reader, as `doSubscr` sets it (hdf5_wrapper.cpp:181); a column without a dataset is left
as it is. -/
def H5TimeSeriesReader.withDset (r : H5TimeSeriesReader) (c : Column) : Column :=
  match r.mFileId.openDataSet c.mName with
  | .ok ds => c.setDset ds
  | .error _ => c

/-- A subscription list after one more ordinal was subscribed: the ordinal is added at
the end unless the list holds it (hdf5_wrapper.cpp:180-183). -/
def subscrAdd (list : List Nat) (i : Nat) : List Nat :=
  if i ∈ list then list else list ++ [i]

/-! ## The backend reads of a read window -/

/-- Whether `getValue(index)` calls `updateBuffer(index)` (hdf5_wrapper.hpp:98-103), which
issues one backend read, `readColumn` from the start index `index`: the test of
`getValue` after the buffer was allocated. -/
def Column.refills (c : Column) (index : Nat) : Bool :=
  let c1 := if c.mData.isEmpty then
      { c with mData := List.replicate kBufferSize 0, mLastIndex := index + 1 }
    else c
  decide (c1.mLastIndex + kBufferSize ≤ index ∨ index < c1.mLastIndex)

/-- The start indices of the backend reads issued by the calls `getValue(index)` on one
column for the indices of a list, in the order of the calls. -/
def Column.backendReads : Column → List Nat → List Nat
  | _, [] => []
  | c, index :: rest =>
    (if c.refills index then [index] else []) ++ Column.backendReads (c.getValue index).1 rest

/-! ## The backend: what an operation changes and what it leaves alone -/

theorem FileSystem.attr_setDset (fs : FileSystem) (h : DataSetId) (ds : DataSet)
    (file key : Str) : (fs.setDset h ds).attr file key = fs.attr file key := by
  cases hf : fs h.file with
  | none => simp [FileSystem.setDset, hf]
  | some f =>
    by_cases hfile : file = h.file
    · subst hfile; simp [FileSystem.setDset, FileSystem.attr, hf]
    · simp [FileSystem.setDset, FileSystem.attr, hf, Function.update_noteq hfile]

theorem FileSystem.isSome_setDset (fs : FileSystem) (h : DataSetId) (ds : DataSet)
    (file : Str) : ((fs.setDset h ds) file).isSome = (fs file).isSome := by
  cases hf : fs h.file with
  | none => simp [FileSystem.setDset, hf]
  | some f =>
    by_cases hfile : file = h.file
    · subst hfile; simp [FileSystem.setDset, hf]
    · simp [FileSystem.setDset, hf, Function.update_noteq hfile]

theorem FileSystem.dset_setDset_self (fs : FileSystem) (h : DataSetId) (ds : DataSet)
    (hf : (fs h.file).isSome) : (fs.setDset h ds).dset h = some ds := by
  cases hfs : fs h.file with
  | none => simp [hfs] at hf
  | some f => simp [FileSystem.setDset, FileSystem.dset, hfs]

theorem FileSystem.dset_setDset_ne (fs : FileSystem) (h h2 : DataSetId) (ds : DataSet)
    (hne : h2 ≠ h) : (fs.setDset h ds).dset h2 = fs.dset h2 := by
  obtain ⟨file, name⟩ := h
  obtain ⟨file2, name2⟩ := h2
  cases hfs : fs file with
  | none => simp [FileSystem.setDset, hfs]
  | some f =>
    by_cases hfile : file2 = file
    · subst hfile
      have hname : name2 ≠ name := by
        intro hn; apply hne; rw [hn]
      simp [FileSystem.setDset, FileSystem.dset, hfs, Function.update_noteq hname]
    · simp [FileSystem.setDset, FileSystem.dset, hfs, Function.update_noteq hfile]

theorem FileSystem.isSome_of_dset {fs : FileSystem} {h : DataSetId} {ds : DataSet}
    (hd : fs.dset h = some ds) : (fs h.file).isSome := by
  unfold FileSystem.dset at hd
  cases hf : fs h.file with
  | none => simp [hf] at hd
  | some f => rfl

/-- The three ways `createAttribute` ends, by the state of the backend. -/
theorem FileSystem.createAttribute_cases (fs : FileSystem) (locId : Option Str)
    (attrib : Str) (v : Attr) :
    (fs.createAttribute locId attrib v = (fs, some Exn.H5Exception) ∧
      ∀ file, locId = some file → (fs file).isSome → (fs.attr file attrib).isSome) ∨
    (∃ file f, locId = some file ∧ fs file = some f ∧ f.attrs attrib = none ∧
      fs.createAttribute locId attrib v =
        (Function.update fs file (some { f with attrs := Function.update f.attrs attrib (some v) }),
          none)) := by
  cases locId with
  | none => left; exact ⟨rfl, fun file h => by simp at h⟩
  | some file =>
    cases hfs : fs file with
    | none =>
      left
      refine ⟨by simp [FileSystem.createAttribute, hfs], ?_⟩
      intro file2 h2 h3
      simp only [Option.some.injEq] at h2
      subst h2
      simp [hfs] at h3
    | some f =>
      cases hk : f.attrs attrib with
      | some a =>
        left
        refine ⟨by simp [FileSystem.createAttribute, hfs, hk], ?_⟩
        intro file2 h2 _
        simp only [Option.some.injEq] at h2
        subst h2
        simp [FileSystem.attr, hfs, hk]
      | none =>
        right
        exact ⟨file, f, rfl, hfs, hk, by simp [FileSystem.createAttribute, hfs, hk]⟩

theorem FileSystem.createAttribute_fs_of_exn {fs : FileSystem} {locId : Option Str}
    {attrib : Str} {v : Attr} {e : Exn} (h : (fs.createAttribute locId attrib v).2 = some e) :
    (fs.createAttribute locId attrib v).1 = fs ∧ e = Exn.H5Exception := by
  rcases FileSystem.createAttribute_cases fs locId attrib v with ⟨h1, _⟩ | ⟨file, f, _, _, _, h1⟩
  · rw [h1] at h ⊢
    simp only [Option.some.injEq] at h
    exact ⟨rfl, h.symm⟩
  · rw [h1] at h; simp at h

/-- A created attribute is found under its key; the other keys, the other files and the
datasets are as before. -/
theorem FileSystem.createAttribute_ok {fs : FileSystem} {file attrib : Str} {v : Attr}
    (hf : (fs file).isSome) (hk : fs.attr file attrib = none) :
    (fs.createAttribute (some file) attrib v).2 = none ∧
    (fs.createAttribute (some file) attrib v).1.attr file attrib = some v ∧
    (∀ file2 key, (file2, key) ≠ (file, attrib) →
      (fs.createAttribute (some file) attrib v).1.attr file2 key = fs.attr file2 key) ∧
    (∀ h, (fs.createAttribute (some file) attrib v).1.dset h = fs.dset h) ∧
    (∀ file2, ((fs.createAttribute (some file) attrib v).1 file2).isSome = (fs file2).isSome) := by
  cases hfs : fs file with
  | none => simp [hfs] at hf
  | some f =>
    have hk2 : f.attrs attrib = none := by simpa [FileSystem.attr, hfs] using hk
    simp only [FileSystem.createAttribute, hfs, hk2]
    refine ⟨trivial, ?_, ?_, ?_, ?_⟩
    · simp [FileSystem.attr]
    · intro file2 key hne
      by_cases hfile : file2 = file
      · subst hfile
        have hkey : key ≠ attrib := by intro hkey; apply hne; rw [hkey]
        simp [FileSystem.attr, hfs, Function.update_noteq hkey]
      · simp [FileSystem.attr, Function.update_noteq hfile]
    · intro h
      by_cases hfile : h.file = file
      · subst hfile; simp [FileSystem.dset, hfs]
      · simp [FileSystem.dset, Function.update_noteq hfile]
    · intro file2
      by_cases hfile : file2 = file
      · subst hfile; simp [hfs]
      · simp [Function.update_noteq hfile]

theorem FileSystem.createAttribute_exn_of_attr {fs : FileSystem} {locId : Option Str}
    {attrib : Str} {v : Attr} (file : Str) (hl : locId = some file)
    (hk : (fs.attr file attrib).isSome) :
    fs.createAttribute locId attrib v = (fs, some Exn.H5Exception) := by
  rcases FileSystem.createAttribute_cases fs locId attrib v with ⟨h1, _⟩ | ⟨file2, f, h2, hf, hnone, _⟩
  · exact h1
  · rw [hl] at h2
    simp only [Option.some.injEq] at h2
    subst h2
    simp [FileSystem.attr, hf, hnone] at hk

/-- When an attribute was created, the file was open and the key was free. -/
theorem FileSystem.createAttribute_inv {fs : FileSystem} {locId : Option Str}
    {attrib : Str} {v : Attr} (h : (fs.createAttribute locId attrib v).2 = none) :
    ∃ file, locId = some file ∧ (fs file).isSome ∧ fs.attr file attrib = none := by
  rcases FileSystem.createAttribute_cases fs locId attrib v with ⟨h1, _⟩ | ⟨file2, f, h2, hf, hnone, _⟩
  · rw [h1] at h; simp at h
  · exact ⟨file2, h2, by simp [hf], by simp [FileSystem.attr, hf, hnone]⟩

/-! ## The writer: flushing a chunk -/

/-- Whatever `appendChunkToColumn` does, it leaves every attribute and the set of files as
they were, and it throws nothing but the exception of the storage library or a failed
assertion. -/
theorem H5TimeSeriesWriter.appendChunkToColumn_frame (fs : FileSystem) (column : DataSetId)
    (row : Nat) (ptr : List Scalar) (ch_size : Nat) :
    (∀ file key, (H5TimeSeriesWriter.appendChunkToColumn fs column row ptr ch_size).1.attr file key
      = fs.attr file key) ∧
    (∀ file, ((H5TimeSeriesWriter.appendChunkToColumn fs column row ptr ch_size).1 file).isSome
      = (fs file).isSome) ∧
    (∀ e, (H5TimeSeriesWriter.appendChunkToColumn fs column row ptr ch_size).2 = some e →
      e = Exn.H5Exception ∨ e = Exn.AssertionFailure) := by
  unfold H5TimeSeriesWriter.appendChunkToColumn
  cases hd : fs.dset column with
  | none => simp
  | some ds =>
    simp only
    split_ifs <;>
      simp [FileSystem.attr_setDset, FileSystem.isSome_setDset]

/-- One chunk appended to a column whose extent is `row`: the column grows by the first
`ch_size` elements of the buffer, and no other dataset changes. -/
theorem H5TimeSeriesWriter.appendChunkToColumn_spec {fs : FileSystem} {column : DataSetId}
    {ds : DataSet} {row : Nat} (ptr : List Scalar) {ch_size : Nat}
    (hd : fs.dset column = some ds) (hrow : ds.data.length = row) (hch : 1 ≤ ch_size) :
    (H5TimeSeriesWriter.appendChunkToColumn fs column row ptr ch_size).2 = none ∧
    (H5TimeSeriesWriter.appendChunkToColumn fs column row ptr ch_size).1.dset column
      = some ⟨ds.dtype, ds.data ++ ptr.take ch_size⟩ ∧
    (∀ h, h ≠ column →
      (H5TimeSeriesWriter.appendChunkToColumn fs column row ptr ch_size).1.dset h = fs.dset h) := by
  have hsome := FileSystem.isSome_of_dset hd
  have h1 : ds.data.length ≤ row + ch_size - 1 := by omega
  have h2 : (ds.extend (ds.data.length + ch_size)).data.length > row + ch_size - 1 := by
    simp [DataSet.extend]; omega
  have h3 : (ds.extend (ds.data.length + ch_size)).writeHyperslab row ch_size ptr
      = ⟨ds.dtype, ds.data ++ ptr.take ch_size⟩ := by
    simp only [DataSet.extend, DataSet.writeHyperslab, Nat.add_sub_cancel_left]
    congr 1
    have e1 : List.take row (ds.data ++ List.replicate ch_size (0 : Scalar)) = ds.data := by
      rw [← hrow]; simp
    have e2 : List.drop (row + ch_size) (ds.data ++ List.replicate ch_size (0 : Scalar)) = [] := by
      apply List.drop_eq_nil_of_le; simp; omega
    rw [e1, e2]; simp
  unfold H5TimeSeriesWriter.appendChunkToColumn
  simp only [hd, h1, if_true, h2, h3]
  refine ⟨trivial, ?_, ?_⟩
  · apply FileSystem.dset_setDset_self
    rw [FileSystem.isSome_setDset]; exact hsome
  · intro h hne
    rw [FileSystem.dset_setDset_ne _ _ _ _ hne, FileSystem.dset_setDset_ne _ _ _ _ hne]

theorem H5TimeSeriesWriter.appendChunks_frame (row ch_size : Nat) (fs : FileSystem)
    (ds : List DataSetId) (bs : List (List Scalar)) (n : Nat) :
    (∀ file key, (H5TimeSeriesWriter.appendChunks row ch_size fs ds bs n).1.attr file key
      = fs.attr file key) ∧
    (∀ file, ((H5TimeSeriesWriter.appendChunks row ch_size fs ds bs n).1 file).isSome
      = (fs file).isSome) ∧
    (∀ e, (H5TimeSeriesWriter.appendChunks row ch_size fs ds bs n).2 = some e →
      e = Exn.H5Exception ∨ e = Exn.AssertionFailure ∨ e = Exn.Undefined) := by
  induction n generalizing fs ds bs with
  | zero => simp [H5TimeSeriesWriter.appendChunks]
  | succ n ih =>
    cases ds with
    | nil => simp [H5TimeSeriesWriter.appendChunks]
    | cons d ds =>
      cases bs with
      | nil => simp [H5TimeSeriesWriter.appendChunks]
      | cons b bs =>
        obtain ⟨f1, f2, f3⟩ := H5TimeSeriesWriter.appendChunkToColumn_frame fs d row b ch_size
        cases hres : H5TimeSeriesWriter.appendChunkToColumn fs d row b ch_size with
        | mk fs1 oe =>
          rw [hres] at f1 f2 f3
          cases oe with
          | some e =>
            simp only [H5TimeSeriesWriter.appendChunks, hres]
            refine ⟨f1, f2, ?_⟩
            intro e2 he2
            rcases f3 e2 he2 with h | h
            · exact Or.inl h
            · exact Or.inr (Or.inl h)
          | none =>
            simp only [H5TimeSeriesWriter.appendChunks, hres]
            obtain ⟨g1, g2, g3⟩ := ih fs1 ds bs
            exact ⟨fun file key => (g1 file key).trans (f1 file key),
              fun file => (g2 file).trans (f2 file), g3⟩

theorem H5TimeSeriesWriter.flushChunk_frame (fs : FileSystem) (w : H5TimeSeriesWriter)
    (ch_size n : Nat) :
    (∀ file key, (H5TimeSeriesWriter.flushChunk fs w ch_size n).1.attr file key
      = fs.attr file key) ∧
    (∀ file, ((H5TimeSeriesWriter.flushChunk fs w ch_size n).1 file).isSome = (fs file).isSome) ∧
    (∀ e, (H5TimeSeriesWriter.flushChunk fs w ch_size n).2 = some e →
      e = Exn.H5Exception ∨ e = Exn.AssertionFailure ∨ e = Exn.Undefined) := by
  unfold H5TimeSeriesWriter.flushChunk
  cases hds : w.mDset with
  | nil => simp
  | cons d0 ds =>
    obtain ⟨f1, f2, f3⟩ :=
      H5TimeSeriesWriter.appendChunkToColumn_frame fs d0 w.mChunkBegin w.mTimeData ch_size
    cases hres : H5TimeSeriesWriter.appendChunkToColumn fs d0 w.mChunkBegin w.mTimeData ch_size with
    | mk fs1 oe =>
      rw [hres] at f1 f2 f3
      cases oe with
      | some e =>
        simp only [hres]
        refine ⟨f1, f2, ?_⟩
        intro e2 he2
        rcases f3 e2 he2 with h | h
        · exact Or.inl h
        · exact Or.inr (Or.inl h)
      | none =>
        simp only [hres]
        obtain ⟨g1, g2, g3⟩ :=
          H5TimeSeriesWriter.appendChunks_frame w.mChunkBegin ch_size fs1 ds w.mData n
        exact ⟨fun file key => (g1 file key).trans (f1 file key),
          fun file => (g2 file).trans (f2 file), g3⟩

/-! ## The writer: `appendRow` and `reset()` -/

theorem H5TimeSeriesWriter.reset_of_flag_false {fs : FileSystem} {w : H5TimeSeriesWriter}
    (h : w.mFlushFlag = false) : H5TimeSeriesWriter.reset fs w = ⟨fs, w, none⟩ := by
  simp [H5TimeSeriesWriter.reset, h]

/-- A second `reset()` on a file that holds its row count is refused by the backend with
nothing changed. -/
theorem H5TimeSeriesWriter.reset_of_attr {fs : FileSystem} {w : H5TimeSeriesWriter}
    {file : Str} (hflag : w.mFlushFlag = true) (hfile : w.mFileId = some file)
    (hattr : (fs.attr file NROWS_STR).isSome) :
    H5TimeSeriesWriter.reset fs w = ⟨fs, w, some Exn.H5Exception⟩ := by
  have h := FileSystem.createAttribute_exn_of_attr (v := Attr.hsize w.mNumRows) file hfile hattr
  simp [H5TimeSeriesWriter.reset, hflag, H5TimeSeriesWriter.writeAttribHsize, h]

/-- The state `reset()` leaves is a state `reset()` does not change. -/
theorem H5TimeSeriesWriter.reset_reset (fs : FileSystem) (w : H5TimeSeriesWriter) :
    (H5TimeSeriesWriter.reset (H5TimeSeriesWriter.reset fs w).fs
        (H5TimeSeriesWriter.reset fs w).w).fs = (H5TimeSeriesWriter.reset fs w).fs ∧
    (H5TimeSeriesWriter.reset (H5TimeSeriesWriter.reset fs w).fs
        (H5TimeSeriesWriter.reset fs w).w).w = (H5TimeSeriesWriter.reset fs w).w := by
  cases hflag : w.mFlushFlag with
  | false => simp [H5TimeSeriesWriter.reset_of_flag_false hflag]
  | true =>
    rcases FileSystem.createAttribute_cases fs w.mFileId NROWS_STR (Attr.hsize w.mNumRows)
      with ⟨h1, _⟩ | ⟨file, f, hloc, hf, hnone, h1⟩
    · have e1 : H5TimeSeriesWriter.reset fs w = ⟨fs, w, some Exn.H5Exception⟩ := by
        simp [H5TimeSeriesWriter.reset, hflag, H5TimeSeriesWriter.writeAttribHsize, h1]
      simp [e1]
    · have hsome : (fs file).isSome := by simp [hf]
      have hattr : fs.attr file NROWS_STR = none := by simp [FileSystem.attr, hf, hnone]
      obtain ⟨-, a2, a3, -, -⟩ :=
        FileSystem.createAttribute_ok (v := Attr.hsize w.mNumRows) hsome hattr
      rw [← hloc] at a2 a3
      generalize hfs1 : (fs.createAttribute w.mFileId NROWS_STR (Attr.hsize w.mNumRows)).1 = fs1
        at a2 a3
      have hstep1 : fs.createAttribute w.mFileId NROWS_STR (Attr.hsize w.mNumRows) = (fs1, none) := by
        rw [← hfs1, h1]
      have hkeep : ∀ fsx : FileSystem, (∀ key, fsx.attr file key = fs1.attr file key) →
          H5TimeSeriesWriter.reset fsx w = ⟨fsx, w, some Exn.H5Exception⟩ := by
        intro fsx hx
        apply H5TimeSeriesWriter.reset_of_attr hflag hloc
        rw [hx, a2]; rfl
      rcases FileSystem.createAttribute_cases fs1 w.mFileId kNcolumnsStr (Attr.hsize w.mNumCols)
        with ⟨h2, _⟩ | ⟨file2, f2, hloc2, hf2, hnone2, h2⟩
      · have e1 : H5TimeSeriesWriter.reset fs w = ⟨fs1, w, some Exn.H5Exception⟩ := by
          simp [H5TimeSeriesWriter.reset, hflag, H5TimeSeriesWriter.writeAttribHsize, hstep1, h2]
        rw [e1]
        simp [hkeep fs1 (fun _ => rfl)]
      · have hfile2 : file2 = file := by
          rw [hloc] at hloc2; simpa using hloc2.symm
        subst hfile2
        have hsome2 : (fs1 file2).isSome := by simp [hf2]
        have hattr2 : fs1.attr file2 kNcolumnsStr = none := by simp [FileSystem.attr, hf2, hnone2]
        obtain ⟨-, -, b3, -, -⟩ :=
          FileSystem.createAttribute_ok (v := Attr.hsize w.mNumCols) hsome2 hattr2
        rw [← hloc] at b3
        generalize hfs2 : (fs1.createAttribute w.mFileId kNcolumnsStr (Attr.hsize w.mNumCols)).1 = fs2
          at b3
        have hstep2 : fs1.createAttribute w.mFileId kNcolumnsStr (Attr.hsize w.mNumCols)
            = (fs2, none) := by
          rw [← hfs2, h2]
        have hrows2 : fs2.attr file2 NROWS_STR = fs1.attr file2 NROWS_STR := by
          apply b3
          simp only [ne_eq, Prod.mk.injEq, not_and]
          intro _; decide
        by_cases hoff : w.mChunkOffset = 0
        · have e1 : (H5TimeSeriesWriter.reset fs w).w.mFlushFlag = false := by
            simp [H5TimeSeriesWriter.reset, hflag, H5TimeSeriesWriter.writeAttribHsize, hstep1,
              hstep2, hoff]
          simp [H5TimeSeriesWriter.reset_of_flag_false e1]
        · obtain ⟨g1, -, -⟩ :=
            H5TimeSeriesWriter.flushChunk_frame fs2 w w.mChunkOffset (w.mNumCols - 1)
          cases hfl : H5TimeSeriesWriter.flushChunk fs2 w w.mChunkOffset (w.mNumCols - 1) with
          | mk fs3 oe =>
            rw [hfl] at g1
            cases oe with
            | none =>
              have e1 : (H5TimeSeriesWriter.reset fs w).w.mFlushFlag = false := by
                simp [H5TimeSeriesWriter.reset, hflag, H5TimeSeriesWriter.writeAttribHsize, hstep1,
                  hstep2, hoff, hfl]
              simp [H5TimeSeriesWriter.reset_of_flag_false e1]
            | some e =>
              have e1 : H5TimeSeriesWriter.reset fs w = ⟨fs3, w, some e⟩ := by
                simp [H5TimeSeriesWriter.reset, hflag, H5TimeSeriesWriter.writeAttribHsize, hstep1,
                  hstep2, hoff, hfl]
              rw [e1]
              have hx : H5TimeSeriesWriter.reset fs3 w = ⟨fs3, w, some Exn.H5Exception⟩ := by
                apply H5TimeSeriesWriter.reset_of_attr hflag hloc
                rw [g1, hrows2, a2]; rfl
              simp [hx]

theorem H5TimeSeriesWriter.reset_flag_of_ok (fs : FileSystem) (w : H5TimeSeriesWriter)
    (h : (H5TimeSeriesWriter.reset fs w).exn = none) :
    (H5TimeSeriesWriter.reset fs w).w.mFlushFlag = false := by
  unfold H5TimeSeriesWriter.reset at h ⊢
  cases hflag : w.mFlushFlag with
  | false => simp [hflag]
  | true =>
    simp only [hflag] at h ⊢
    revert h
    simp only [Bool.true_eq_false, if_false]
    split
    · simp
    · split
      · simp
      · split_ifs
        · split <;> simp
        · simp

/-- What `appendRow` does once its two checks have passed. -/
theorem H5TimeSeriesWriter.appendRow_of_checks {fs : FileSystem} {w : H5TimeSeriesWriter}
    {time : Scalar} {nonTimeValues : List Scalar} (hflag : w.mFlushFlag = true)
    (hlen : nonTimeValues.length = w.mNumCols - 1) :
    H5TimeSeriesWriter.appendRow fs w time nonTimeValues =
      if (w.storeRow time nonTimeValues).mChunkOffset = kChunkSize then
        match H5TimeSeriesWriter.flushChunk fs (w.storeRow time nonTimeValues) kChunkSize
            nonTimeValues.length with
        | (fs1, some e) => ⟨fs1, w.storeRow time nonTimeValues, some e⟩
        | (fs1, none) =>
          ⟨fs1, { w.storeRow time nonTimeValues with
            mChunkOffset := 0, mChunkBegin := (w.storeRow time nonTimeValues).mNumRows }, none⟩
      else ⟨fs, w.storeRow time nonTimeValues, none⟩ := by
  simp [H5TimeSeriesWriter.appendRow, hflag, hlen]

theorem H5TimeSeriesWriter.appendRow_exn_of_checks (fs : FileSystem) {w : H5TimeSeriesWriter}
    (time : Scalar) {nonTimeValues : List Scalar} (hflag : w.mFlushFlag = true)
    (hlen : nonTimeValues.length = w.mNumCols - 1) :
    (H5TimeSeriesWriter.appendRow fs w time nonTimeValues).exn ≠ some Exn.BadWrite := by
  rw [H5TimeSeriesWriter.appendRow_of_checks hflag hlen]
  split_ifs with hfull
  · obtain ⟨-, -, g3⟩ := H5TimeSeriesWriter.flushChunk_frame fs (w.storeRow time nonTimeValues)
      kChunkSize nonTimeValues.length
    cases hfl : H5TimeSeriesWriter.flushChunk fs (w.storeRow time nonTimeValues) kChunkSize
        nonTimeValues.length with
    | mk fs1 oe =>
      cases oe with
      | none => simp
      | some e =>
        rw [hfl] at g3
        rcases g3 e rfl with h | h | h <;> simp [h]
  · simp

/-- The fields the three-argument constructor sets apart from the handles. -/
theorem H5TimeSeriesWriter.ctor_fields {fs : FileSystem} {fileName tableName : Str}
    {names : List Str} {w : H5TimeSeriesWriter}
    (h : (H5TimeSeriesWriter.ctor fs fileName tableName names).2 = .ok w) :
    w.mFlushFlag = true ∧ w.mNumCols = 1 + names.length ∧ w.mChunkOffset = 0 ∧
    w.mChunkBegin = 0 ∧ w.mNumRows = 0 ∧ w.mData = List.replicate names.length zeroChunk := by
  cases hres : H5TimeSeriesWriter.openFileCalls fs fileName tableName names with
  | mk fs1 rest =>
    obtain ⟨dsets, exn⟩ := rest
    cases exn with
    | some e => simp [H5TimeSeriesWriter.ctor, H5TimeSeriesWriter.openFile, hres] at h
    | none =>
      simp only [H5TimeSeriesWriter.ctor, H5TimeSeriesWriter.openFile, hres,
        Except.ok.injEq] at h
      subst h
      exact ⟨rfl, rfl, rfl, rfl, rfl, rfl⟩

/-- C5: `appendRow` throws `BadWrite` exactly when the writer is not open for writing
(`mFlushFlag` is false: it was finalised by `reset()`, or default-constructed) or the
number of values differs from the number of value columns, `mNumCols - 1`; and when it
throws `BadWrite`, the writer (chunk buffers, offset, chunk begin, row count) and the
backend are as they were before the call.  A completed `reset()` and the default
constructor leave `mFlushFlag` false; the three-argument constructor leaves it true
with `mNumCols - 1` the number of declared value columns. -/
theorem appendRow_BadWrite_iff (fs : FileSystem) (w : H5TimeSeriesWriter) (time : Scalar)
    (nonTimeValues : List Scalar) :
    ((H5TimeSeriesWriter.appendRow fs w time nonTimeValues).exn = some Exn.BadWrite ↔
      (w.mFlushFlag = false ∨ nonTimeValues.length ≠ w.mNumCols - 1)) ∧
    ((H5TimeSeriesWriter.appendRow fs w time nonTimeValues).exn = some Exn.BadWrite →
      (H5TimeSeriesWriter.appendRow fs w time nonTimeValues).fs = fs ∧
      (H5TimeSeriesWriter.appendRow fs w time nonTimeValues).w = w) ∧
    ((H5TimeSeriesWriter.reset fs w).exn = none →
      (H5TimeSeriesWriter.reset fs w).w.mFlushFlag = false) ∧
    (∀ a b c d, (H5TimeSeriesWriter.defaultCtor a b c d).mFlushFlag = false) ∧
    (∀ fs2 fileName tableName names w2,
      (H5TimeSeriesWriter.ctor fs2 fileName tableName names).2 = .ok w2 →
      w2.mFlushFlag = true ∧ w2.mNumCols - 1 = names.length) := by
  refine ⟨?_, ?_, H5TimeSeriesWriter.reset_flag_of_ok fs w, fun _ _ _ _ => rfl, ?_⟩
  · cases hflag : w.mFlushFlag with
    | false => simp [H5TimeSeriesWriter.appendRow, hflag]
    | true =>
      by_cases hlen : nonTimeValues.length = w.mNumCols - 1
      · have := H5TimeSeriesWriter.appendRow_exn_of_checks fs time hflag hlen
        simp [this, hlen]
      · simp [H5TimeSeriesWriter.appendRow, hflag, hlen]
  · intro h
    cases hflag : w.mFlushFlag with
    | false => simp [H5TimeSeriesWriter.appendRow, hflag]
    | true =>
      by_cases hlen : nonTimeValues.length = w.mNumCols - 1
      · exact absurd h (H5TimeSeriesWriter.appendRow_exn_of_checks fs time hflag hlen)
      · simp [H5TimeSeriesWriter.appendRow, hflag, hlen]
  · intro fs2 fileName tableName names w2 h
    obtain ⟨h1, h2, -⟩ := H5TimeSeriesWriter.ctor_fields h
    exact ⟨h1, by rw [h2]; omega⟩

/-- C8: finalisation is idempotent: for every writer and backend, the writer and the
backend (arrays and metadata) after `reset()` called twice are exactly those after
`reset()` called once; and when the first call returned, the writer is marked
finalised, so that a further `reset()` returns at once, whatever the backend, without
a write, an attribute write or a close. -/
theorem reset_idempotent (fs : FileSystem) (w : H5TimeSeriesWriter) :
    (H5TimeSeriesWriter.reset (H5TimeSeriesWriter.reset fs w).fs
        (H5TimeSeriesWriter.reset fs w).w).fs = (H5TimeSeriesWriter.reset fs w).fs ∧
    (H5TimeSeriesWriter.reset (H5TimeSeriesWriter.reset fs w).fs
        (H5TimeSeriesWriter.reset fs w).w).w = (H5TimeSeriesWriter.reset fs w).w ∧
    ((H5TimeSeriesWriter.reset fs w).exn = none →
      (H5TimeSeriesWriter.reset fs w).w.mFlushFlag = false ∧
      ∀ fs2, H5TimeSeriesWriter.reset fs2 (H5TimeSeriesWriter.reset fs w).w
        = ⟨fs2, (H5TimeSeriesWriter.reset fs w).w, none⟩) := by
  refine ⟨(H5TimeSeriesWriter.reset_reset fs w).1, (H5TimeSeriesWriter.reset_reset fs w).2, ?_⟩
  intro h
  have hflag := H5TimeSeriesWriter.reset_flag_of_ok fs w h
  exact ⟨hflag, fun fs2 => H5TimeSeriesWriter.reset_of_flag_false hflag⟩

/-! ## Field names -/

theorem digitChar_toNat (k : Nat) (hk : k < 10) : (Nat.digitChar k).toNat - 48 = k := by
  interval_cases k <;> rfl

theorem toDigitsCore_decode (fuel : Nat) : ∀ (n : Nat) (ds : List Char), n < fuel →
    (Nat.toDigitsCore 10 fuel n ds).foldl (fun a c => 10 * a + (c.toNat - 48)) 0
      = ds.foldl (fun a c => 10 * a + (c.toNat - 48)) n := by
  induction fuel with
  | zero => intro n ds h; omega
  | succ fuel ih =>
    intro n ds hn
    have hd := digitChar_toNat (n % 10) (Nat.mod_lt _ (by decide))
    unfold Nat.toDigitsCore
    simp only
    split_ifs with h0
    · have hlt : n < 10 := by omega
      simp only [List.foldl_cons, hd]
      congr 1; omega
    · have hlt : n / 10 < fuel := by omega
      rw [ih (n / 10) _ hlt]
      simp only [List.foldl_cons, hd]
      congr 1; omega

theorem toDigits_injective {i j : Nat} (h : Nat.toDigits 10 i = Nat.toDigits 10 j) : i = j := by
  have hi := toDigitsCore_decode (i + 1) i [] (by omega)
  have hj := toDigitsCore_decode (j + 1) j [] (by omega)
  simp only [List.foldl_nil] at hi hj
  unfold Nat.toDigits at h
  rw [← hi, ← hj, h]

theorem getFieldName_injective {i j : Nat} (h : getFieldName i = getFieldName j) : i = j := by
  unfold getFieldName at h
  rw [List.append_assoc, List.append_assoc] at h
  have h1 := List.append_cancel_left h
  exact toDigits_injective (List.append_cancel_right h1)

theorem getFieldName_head (i : Nat) : ∃ t, getFieldName i = 'F' :: t :=
  ⟨_, rfl⟩

theorem getFieldName_ne_keys (i : Nat) :
    getFieldName i ≠ kTableNameStr ∧ getFieldName i ≠ NROWS_STR ∧ getFieldName i ≠ kNcolumnsStr := by
  obtain ⟨t, ht⟩ := getFieldName_head i
  rw [ht]
  refine ⟨?_, ?_, ?_⟩ <;> intro h <;> injection h with h1 _ <;> revert h1 <;> decide

theorem dedup_length_ne_iff (l : List Str) : l.dedup.length ≠ l.length ↔ ¬ l.Nodup := by
  constructor
  · intro h hn
    exact h (by rw [hn.dedup])
  · intro h heq
    apply h
    have := (List.dedup_sublist l).eq_of_length heq
    rw [← this]
    exact List.nodup_dedup l

/-! ## Creating a table -/

theorem FileSystem.createFile_same (fs : FileSystem) (file : Str) :
    (fs.createFile file) file = some H5File.empty := by
  simp [FileSystem.createFile]

theorem FileSystem.createFile_ne (fs : FileSystem) {file file2 : Str} (h : file2 ≠ file) :
    (fs.createFile file) file2 = fs file2 := by
  simp [FileSystem.createFile, Function.update_noteq h]

theorem FileSystem.attr_createFile (fs : FileSystem) (file key : Str) :
    (fs.createFile file).attr file key = none := by
  simp [FileSystem.attr, FileSystem.createFile, H5File.empty]

theorem FileSystem.dset_createFile (fs : FileSystem) (file name : Str) :
    (fs.createFile file).dset ⟨file, name⟩ = none := by
  simp [FileSystem.dset, FileSystem.createFile, H5File.empty]

theorem FileSystem.dset_createFile_ne (fs : FileSystem) (file : Str) (h : DataSetId)
    (hne : h.file ≠ file) : (fs.createFile file).dset h = fs.dset h := by
  simp [FileSystem.dset, FileSystem.createFile, Function.update_noteq hne]

/-- With a repeated name `openFile` stops right after the file was created. -/
theorem H5TimeSeriesWriter.openFileCalls_of_dup (fs : FileSystem) (fileName tableName : Str)
    {names : List Str} (hdup : ¬ names.Nodup) :
    H5TimeSeriesWriter.openFileCalls fs fileName tableName names
      = (fs.createFile (cstr fileName), [], some Exn.DuplicateColumn) := by
  have h := (dedup_length_ne_iff names).mpr hdup
  simp [H5TimeSeriesWriter.openFileCalls, h]

/-- C6: for every list of value-column names with a repeated name, the three-argument
constructor throws `DuplicateColumn`, and so does `reset(fileName, tableName, names)`
once the finalisation of the table written so far has gone through; in both cases the
backend is left with the new file created and empty: it holds no dataset (and no
attribute), and nothing else was touched after the finalisation. -/
theorem duplicate_names_throw (fs : FileSystem) (w : H5TimeSeriesWriter)
    (fileName tableName : Str) (names : List Str) (hdup : ¬ names.Nodup) :
    (H5TimeSeriesWriter.ctor fs fileName tableName names).2 = .error Exn.DuplicateColumn ∧
    (H5TimeSeriesWriter.ctor fs fileName tableName names).1 = fs.createFile (cstr fileName) ∧
    (∀ name, (H5TimeSeriesWriter.ctor fs fileName tableName names).1.dset ⟨cstr fileName, name⟩
      = none) ∧
    ((H5TimeSeriesWriter.reset fs w).exn = none →
      (H5TimeSeriesWriter.resetFile fs w fileName tableName names).exn
        = some Exn.DuplicateColumn ∧
      (H5TimeSeriesWriter.resetFile fs w fileName tableName names).fs
        = (H5TimeSeriesWriter.reset fs w).fs.createFile (cstr fileName) ∧
      (∀ name, (H5TimeSeriesWriter.resetFile fs w fileName tableName names).fs.dset
        ⟨cstr fileName, name⟩ = none)) := by
  have hctor : H5TimeSeriesWriter.ctor fs fileName tableName names
      = (fs.createFile (cstr fileName), .error Exn.DuplicateColumn) := by
    simp [H5TimeSeriesWriter.ctor, H5TimeSeriesWriter.openFile,
      H5TimeSeriesWriter.openFileCalls_of_dup fs fileName tableName hdup]
  refine ⟨by rw [hctor], by rw [hctor], ?_, ?_⟩
  · intro name
    rw [hctor]
    exact FileSystem.dset_createFile fs (cstr fileName) name
  · intro hok
    cases hres : H5TimeSeriesWriter.reset fs w with
    | mk fs1 w1 e1 =>
      rw [hres] at hok
      simp only at hok
      subst hok
      have hr : H5TimeSeriesWriter.resetFile fs w fileName tableName names
          = ⟨fs1.createFile (cstr fileName),
              { w1 with mData := resizeChunks w1.mData names.length,
                        mNumCols := 1 + names.length,
                        mFileId := some (cstr fileName),
                        mDset := w1.mDset ++ [] }, some Exn.DuplicateColumn⟩ := by
        simp [H5TimeSeriesWriter.resetFile, hres, H5TimeSeriesWriter.openFile,
          H5TimeSeriesWriter.openFileCalls_of_dup fs1 fileName tableName hdup]
      rw [hr]
      exact ⟨rfl, rfl, fun name => FileSystem.dset_createFile fs1 (cstr fileName) name⟩

/-- C6, at the names of the example of the spec, `["x1", "x1"]`, on a writer the default
constructor gave. -/
theorem duplicate_names_throw_witness :
    ¬ ["x1".toList, "x1".toList].Nodup ∧
    (H5TimeSeriesWriter.ctor (fun _ => none) "a.h5".toList "T".toList
        ["x1".toList, "x1".toList]).2 = .error Exn.DuplicateColumn ∧
    (H5TimeSeriesWriter.resetFile (fun _ => none) (H5TimeSeriesWriter.defaultCtor 0 0 0 0)
        "a.h5".toList "T".toList ["x1".toList, "x1".toList]).exn = some Exn.DuplicateColumn :=
  have h := duplicate_names_throw (fun _ => none) (H5TimeSeriesWriter.defaultCtor 0 0 0 0)
    "a.h5".toList "T".toList ["x1".toList, "x1".toList] (by decide)
  ⟨by decide, h.1, (h.2.2.2 rfl).1⟩

/-- The ways `createDataSet` ends on an open file. -/
theorem FileSystem.createDataSet_ok {fs : FileSystem} {file name : Str} (t : PredType)
    (hf : (fs file).isSome) (hv : validLinkName name = true)
    (hn : fs.dset ⟨file, name⟩ = none) :
    (fs.createDataSet (some file) name t).2 = .ok ⟨file, name⟩ ∧
    (fs.createDataSet (some file) name t).1.dset ⟨file, name⟩ = some ⟨t, []⟩ ∧
    (∀ h, h ≠ ⟨file, name⟩ → (fs.createDataSet (some file) name t).1.dset h = fs.dset h) ∧
    (∀ file2 key, (fs.createDataSet (some file) name t).1.attr file2 key = fs.attr file2 key) ∧
    (∀ file2, ((fs.createDataSet (some file) name t).1 file2).isSome = (fs file2).isSome) := by
  cases hfs : fs file with
  | none => simp [hfs] at hf
  | some f =>
    have hn2 : f.dsets name = none := by simpa [FileSystem.dset, hfs] using hn
    simp only [FileSystem.createDataSet, hfs, hv, hn2]
    refine ⟨by simp, by simp [FileSystem.dset], ?_, ?_, ?_⟩
    · intro h hne
      obtain ⟨file2, name2⟩ := h
      by_cases hfile : file2 = file
      · subst hfile
        have hname : name2 ≠ name := by intro hn3; apply hne; rw [hn3]
        simp [FileSystem.dset, hfs, Function.update_noteq hname]
      · simp [FileSystem.dset, Function.update_noteq hfile]
    · intro file2 key
      by_cases hfile : file2 = file
      · subst hfile; simp [FileSystem.attr, hfs]
      · simp [FileSystem.attr, Function.update_noteq hfile]
    · intro file2
      by_cases hfile : file2 = file
      · subst hfile; simp [hfs]
      · simp [Function.update_noteq hfile]

theorem FileSystem.createDataSet_refused {fs : FileSystem} {file name : Str} (t : PredType)
    (h : validLinkName name = false ∨ (fs.dset ⟨file, name⟩).isSome) :
    fs.createDataSet (some file) name t = (fs, .error Exn.H5Exception) := by
  cases hfs : fs file with
  | none => simp [FileSystem.createDataSet, hfs]
  | some f =>
    rcases h with h | h
    · simp [FileSystem.createDataSet, hfs, h]
    · cases hn : f.dsets name with
      | none => simp [FileSystem.dset, hfs, hn] at h
      | some d =>
        simp only [FileSystem.createDataSet, hfs, hn]
        split_ifs <;> rfl

/-- The field names written from ordinal `i + 1` on, when the keys are free. -/
theorem H5TimeSeriesWriter.writeFieldNames_spec (file : Str) (names : List Str) :
    ∀ (fs : FileSystem) (i : Nat), (fs file).isSome →
      (∀ k, i < k → fs.attr file (getFieldName k) = none) →
      (H5TimeSeriesWriter.writeFieldNames (some file) fs i names).2 = none ∧
      (∀ j, j < names.length →
        (H5TimeSeriesWriter.writeFieldNames (some file) fs i names).1.attr file
            (getFieldName (i + 1 + j))
          = some (Attr.str (strncpy (names.getD j []) kMaxStr))) ∧
      (∀ file2 key, (file2 ≠ file ∨ ∀ k, i < k → key ≠ getFieldName k) →
        (H5TimeSeriesWriter.writeFieldNames (some file) fs i names).1.attr file2 key
          = fs.attr file2 key) ∧
      (∀ h, (H5TimeSeriesWriter.writeFieldNames (some file) fs i names).1.dset h = fs.dset h) ∧
      (∀ file2, ((H5TimeSeriesWriter.writeFieldNames (some file) fs i names).1 file2).isSome
        = (fs file2).isSome) := by
  induction names with
  | nil =>
    intro fs i _ _
    simp [H5TimeSeriesWriter.writeFieldNames]
  | cons name rest ih =>
    intro fs i hf hfree
    obtain ⟨a1, a2, a3, a4, a5⟩ :=
      FileSystem.createAttribute_ok (v := Attr.str (strncpy name kMaxStr)) hf (hfree (i + 1) (by omega))
    generalize hfs1 : (fs.createAttribute (some file) (getFieldName (i + 1))
      (Attr.str (strncpy name kMaxStr))).1 = fs1 at a2 a3 a4 a5
    have hstep : H5TimeSeriesWriter.writeAttribStr fs (getFieldName (i + 1)) name (some file)
        = (fs1, none) := by
      unfold H5TimeSeriesWriter.writeAttribStr
      rw [← hfs1, ← a1]
    have hf1 : (fs1 file).isSome := by rw [a5]; exact hf
    have hfree1 : ∀ k, i + 1 < k → fs1.attr file (getFieldName k) = none := by
      intro k hk
      rw [a3]
      · exact hfree k (by omega)
      · simp only [ne_eq, Prod.mk.injEq, true_and]
        intro h; have := getFieldName_injective h; omega
    obtain ⟨b1, b2, b3, b4, b5⟩ := ih fs1 (i + 1) hf1 hfree1
    simp only [H5TimeSeriesWriter.writeFieldNames, hstep]
    refine ⟨b1, ?_, ?_, ?_, ?_⟩
    · intro j hj
      cases j with
      | zero =>
        rw [b3]
        · simpa using a2
        · right
          intro k hk h
          have := getFieldName_injective h; omega
      | succ j =>
        have := b2 j (by simpa using hj)
        simp only [List.getD_cons_succ]
        rw [← this]
        congr 2; omega
    · intro file2 key hcond
      rw [b3, a3]
      · rcases hcond with h | h
        · simp [h]
        · have := h (i + 1) (by omega)
          simp only [ne_eq, Prod.mk.injEq, not_and]
          intro _; exact this
      · rcases hcond with h | h
        · exact Or.inl h
        · exact Or.inr (fun k hk => h k (by omega))
    · intro h; rw [b4, a4]
    · intro file2; rw [b5, a5]

theorem creatable_nodup {names : List Str} (h : creatable names) : names.Nodup :=
  List.Nodup.of_map _ h.1

theorem valueHandles_nodup {names : List Str} (file : Str) (h : creatable names) :
    (valueHandles file names).Nodup := by
  have : valueHandles file names = (names.map cstr).map (fun n => (⟨file, n⟩ : DataSetId)) := by
    simp [valueHandles, List.map_map, Function.comp_def]
  rw [this]
  apply List.Nodup.map _ h.1
  intro a b hab
  simpa using hab

theorem time_not_mem_valueHandles {names : List Str} (file : Str) (h : creatable names) :
    (⟨file, kTimeStr⟩ : DataSetId) ∉ valueHandles file names := by
  intro hmem
  simp only [valueHandles, List.mem_map, DataSetId.mk.injEq, true_and] at hmem
  obtain ⟨n, hn, heq⟩ := hmem
  exact h.2.1 (List.mem_map.mpr ⟨n, hn, heq⟩)

/-- The value datasets created for names that are free link names. -/
theorem H5TimeSeriesWriter.createValueDataSets_spec (file : Str) (names : List Str) :
    ∀ (fs : FileSystem), (fs file).isSome → (names.map cstr).Nodup →
      (∀ n ∈ names, validLinkName (cstr n) = true ∧ fs.dset ⟨file, cstr n⟩ = none) →
      (H5TimeSeriesWriter.createValueDataSets (some file) fs names).2
        = (valueHandles file names, none) ∧
      (∀ n ∈ names, (H5TimeSeriesWriter.createValueDataSets (some file) fs names).1.dset
        ⟨file, cstr n⟩ = some ⟨PredType.NATIVE_DOUBLE, []⟩) ∧
      (∀ h, h ∉ valueHandles file names →
        (H5TimeSeriesWriter.createValueDataSets (some file) fs names).1.dset h = fs.dset h) ∧
      (∀ file2 key, (H5TimeSeriesWriter.createValueDataSets (some file) fs names).1.attr file2 key
        = fs.attr file2 key) ∧
      (∀ file2, ((H5TimeSeriesWriter.createValueDataSets (some file) fs names).1 file2).isSome
        = (fs file2).isSome) := by
  induction names with
  | nil =>
    intro fs _ _ _
    simp [H5TimeSeriesWriter.createValueDataSets, valueHandles]
  | cons name rest ih =>
    intro fs hf hnd hfree
    have hnd2 : cstr name ∉ rest.map cstr ∧ (rest.map cstr).Nodup := by
      simpa using hnd
    obtain ⟨hv, hn⟩ := hfree name (by simp)
    obtain ⟨a1, a2, a3, a4, a5⟩ := FileSystem.createDataSet_ok PredType.NATIVE_DOUBLE hf hv hn
    generalize hfs1 : (fs.createDataSet (some file) (cstr name) PredType.NATIVE_DOUBLE).1 = fs1
      at a2 a3 a4 a5
    have hstep : fs.createDataSet (some file) (cstr name) PredType.NATIVE_DOUBLE
        = (fs1, .ok ⟨file, cstr name⟩) := by
      rw [← hfs1, ← a1]
    have hne : ∀ n ∈ rest, (⟨file, cstr n⟩ : DataSetId) ≠ ⟨file, cstr name⟩ := by
      intro n hmem h
      simp only [DataSetId.mk.injEq, true_and] at h
      exact hnd2.1 (List.mem_map.mpr ⟨n, hmem, h⟩)
    have hfree1 : ∀ n ∈ rest, validLinkName (cstr n) = true ∧ fs1.dset ⟨file, cstr n⟩ = none := by
      intro n hmem
      obtain ⟨hv2, hn2⟩ := hfree n (by simp [hmem])
      exact ⟨hv2, by rw [a3 _ (hne n hmem)]; exact hn2⟩
    obtain ⟨b1, b2, b3, b4, b5⟩ := ih fs1 (by rw [a5]; exact hf) hnd2.2 hfree1
    have hhead : (⟨file, cstr name⟩ : DataSetId) ∉ valueHandles file rest := by
      intro hmem
      simp only [valueHandles, List.mem_map] at hmem
      obtain ⟨n, hn3, heq⟩ := hmem
      exact hne n hn3 heq
    cases hrec : H5TimeSeriesWriter.createValueDataSets (some file) fs1 rest with
    | mk fs2 rest2 =>
      rw [hrec] at b1 b2 b3 b4 b5
      simp only at b1
      simp only [H5TimeSeriesWriter.createValueDataSets, hstep, hrec, b1]
      refine ⟨by simp [valueHandles], ?_, ?_, ?_, ?_⟩
      · intro n hmem
        rcases List.mem_cons.mp hmem with h | h
        · subst h
          rw [b3 _ hhead]; exact a2
        · exact b2 n h
      · intro h hnot
        have h1 : h ≠ ⟨file, cstr name⟩ := by
          intro heq; apply hnot; simp [valueHandles, heq]
        have h2 : h ∉ valueHandles file rest := by
          intro hmem; apply hnot
          simp only [valueHandles, List.map_cons, List.mem_cons]
          exact Or.inr hmem
        rw [b3 _ h2, a3 _ h1]
      · intro file2 key; rw [b4, a4]
      · intro file2; rw [b5, a5]

/-- Table creation for names without repeats, up to the dataset of the time column: the
calls go through whatever the backend held before; the file then holds the schema, no
count, the empty dataset of the time column and no other dataset; what is left to do is
the creation of the datasets of the value columns. -/
theorem H5TimeSeriesWriter.openFileCalls_start (fs : FileSystem) (fileName tableName : Str)
    {names : List Str} (hnodup : names.Nodup) :
    ∃ fs4 : FileSystem,
      H5TimeSeriesWriter.openFileCalls fs fileName tableName names
        = ((H5TimeSeriesWriter.createValueDataSets (some (cstr fileName)) fs4 names).1,
            ⟨cstr fileName, kTimeStr⟩ ::
              (H5TimeSeriesWriter.createValueDataSets (some (cstr fileName)) fs4 names).2.1,
            (H5TimeSeriesWriter.createValueDataSets (some (cstr fileName)) fs4 names).2.2) ∧
      HoldsSchema fs4 (cstr fileName) tableName names ∧
      fs4.attr (cstr fileName) NROWS_STR = none ∧
      fs4.attr (cstr fileName) kNcolumnsStr = none ∧
      fs4.dset ⟨cstr fileName, kTimeStr⟩ = some ⟨PredType.NATIVE_INT64, []⟩ ∧
      (∀ name, name ≠ kTimeStr → fs4.dset ⟨cstr fileName, name⟩ = none) := by
  generalize hfile : cstr fileName = file
  have hnd : ¬ (names.dedup.length ≠ names.length) := by
    rw [dedup_length_ne_iff]; exact not_not.mpr hnodup
  -- the file
  have z1 : ((fs.createFile file) file).isSome := by simp [FileSystem.createFile_same]
  have z2 := FileSystem.attr_createFile fs file
  have z3 := FileSystem.dset_createFile fs file
  generalize hfs0 : fs.createFile file = fs0 at z1 z2 z3
  -- the table name
  obtain ⟨a1, a2, a3, a4, a5⟩ :=
    FileSystem.createAttribute_ok (v := Attr.str (strncpy tableName kMaxStr)) z1 (z2 kTableNameStr)
  generalize hfs1 : (fs0.createAttribute (some file) kTableNameStr
    (Attr.str (strncpy tableName kMaxStr))).1 = fs1 at a2 a3 a4 a5
  have s1 : H5TimeSeriesWriter.writeAttribStr fs0 kTableNameStr tableName (some file)
      = (fs1, none) := by
    unfold H5TimeSeriesWriter.writeAttribStr; rw [← hfs1, ← a1]
  have hk0 : getFieldName 0 ≠ kTableNameStr := (getFieldName_ne_keys 0).1
  -- the name of the time column
  have b0 : fs1.attr file (getFieldName 0) = none := by
    rw [a3 _ _ (by simp [hk0])]; exact z2 _
  obtain ⟨b1, b2, b3, b4, b5⟩ :=
    FileSystem.createAttribute_ok (v := Attr.str (strncpy kTimeStr kMaxStr))
      (by rw [a5]; exact z1) b0
  generalize hfs2 : (fs1.createAttribute (some file) (getFieldName 0)
    (Attr.str (strncpy kTimeStr kMaxStr))).1 = fs2 at b2 b3 b4 b5
  have s2 : H5TimeSeriesWriter.writeAttribStr fs1 (getFieldName 0) kTimeStr (some file)
      = (fs2, none) := by
    unfold H5TimeSeriesWriter.writeAttribStr; rw [← hfs2, ← b1]
  -- the names of the value columns
  have c0 : ∀ k, 0 < k → fs2.attr file (getFieldName k) = none := by
    intro k hk
    have h1 : getFieldName k ≠ getFieldName 0 := by
      intro h; have := getFieldName_injective h; omega
    rw [b3 _ _ (by simp [h1]), a3 _ _ (by simp [(getFieldName_ne_keys k).1])]
    exact z2 _
  obtain ⟨c1, c2, c3, c4, c5⟩ :=
    H5TimeSeriesWriter.writeFieldNames_spec file names fs2 0 (by rw [b5, a5]; exact z1) c0
  cases hfs3 : H5TimeSeriesWriter.writeFieldNames (some file) fs2 0 names with
  | mk fs3 e3 =>
  rw [hfs3] at c1 c2 c3 c4 c5
  simp only at c1 c2 c3 c4 c5
  subst c1
  -- the dataset of the time column
  have d0 : fs3.dset ⟨file, kTimeStr⟩ = none := by rw [c4, b4, a4]; exact z3 _
  obtain ⟨d1, d2, d3, d4, d5⟩ :=
    FileSystem.createDataSet_ok PredType.NATIVE_INT64 (by rw [c5, b5, a5]; exact z1)
      (by decide) d0
  generalize hfs4 : (fs3.createDataSet (some file) kTimeStr PredType.NATIVE_INT64).1 = fs4
    at d2 d3 d4 d5
  have s4 : fs3.createDataSet (some file) kTimeStr PredType.NATIVE_INT64
      = (fs4, .ok ⟨file, kTimeStr⟩) := by
    rw [← hfs4, ← d1]
  have hkeyT : ∀ k, 0 < k → kTableNameStr ≠ getFieldName k :=
    fun k _ => (getFieldName_ne_keys k).1.symm
  refine ⟨fs4, ?_, ⟨?_, ?_, ?_, ?_⟩, ?_, ?_, d2, ?_⟩
  · simp only [H5TimeSeriesWriter.openFileCalls, hfile, hnd, if_false, hfs0, s1, s2, hfs3, s4]
  · rw [d5, c5, b5, a5]; exact z1
  · rw [d4, c3 _ _ (Or.inr hkeyT), b3 _ _ (by simp [hk0.symm])]; exact a2
  · rw [d4, c3 _ _ (Or.inr (fun k hk h => by have := getFieldName_injective h; omega))]
    exact b2
  · intro j hj
    rw [d4]
    have := c2 j hj
    rw [show 0 + 1 + j = j + 1 by omega] at this
    exact this
  · rw [d4, c3 _ _ (Or.inr (fun k _ => (getFieldName_ne_keys k).2.1.symm)),
      b3 _ _ (by simp [(getFieldName_ne_keys 0).2.1.symm]),
      a3 _ _ (by simp; decide)]
    exact z2 _
  · rw [d4, c3 _ _ (Or.inr (fun k _ => (getFieldName_ne_keys k).2.2.symm)),
      b3 _ _ (by simp [(getFieldName_ne_keys 0).2.2.symm]),
      a3 _ _ (by simp; decide)]
    exact z2 _
  · intro name hname
    have hne : (⟨file, name⟩ : DataSetId) ≠ ⟨file, kTimeStr⟩ := by
      intro h
      simp only [DataSetId.mk.injEq, true_and] at h
      exact hname h
    rw [d3 _ hne, c4, b4, a4]; exact z3 _

/-- Table creation for creatable names: every backend call goes through, the handles are
those of the time column and the value columns in order, the file holds the schema and
empty datasets, and the counts are not written. -/
theorem H5TimeSeriesWriter.openFileCalls_spec (fs : FileSystem) (fileName tableName : Str)
    {names : List Str} (hc : creatable names) :
    (H5TimeSeriesWriter.openFileCalls fs fileName tableName names).2
      = (⟨cstr fileName, kTimeStr⟩ :: valueHandles (cstr fileName) names, none) ∧
    HoldsSchema (H5TimeSeriesWriter.openFileCalls fs fileName tableName names).1
      (cstr fileName) tableName names ∧
    HoldsRows (H5TimeSeriesWriter.openFileCalls fs fileName tableName names).1
      (cstr fileName) names [] 0 ∧
    (H5TimeSeriesWriter.openFileCalls fs fileName tableName names).1.attr (cstr fileName)
      NROWS_STR = none ∧
    (H5TimeSeriesWriter.openFileCalls fs fileName tableName names).1.attr (cstr fileName)
      kNcolumnsStr = none := by
  obtain ⟨fs4, hres, hS, hrows, hcols, htime, hfree⟩ :=
    H5TimeSeriesWriter.openFileCalls_start fs fileName tableName (creatable_nodup hc)
  have e0 : ∀ n ∈ names, validLinkName (cstr n) = true ∧
      fs4.dset ⟨cstr fileName, cstr n⟩ = none := by
    intro n hn
    refine ⟨hc.2.2 n hn, hfree _ ?_⟩
    intro h
    exact hc.2.1 (List.mem_map.mpr ⟨n, hn, h⟩)
  obtain ⟨e1, e2, e3, e4, e5⟩ :=
    H5TimeSeriesWriter.createValueDataSets_spec (cstr fileName) names fs4 hS.isOpen hc.1 e0
  rw [hres]
  refine ⟨by rw [e1], ⟨?_, ?_, ?_, ?_⟩, ⟨?_, ?_⟩, ?_, ?_⟩
  · show ((H5TimeSeriesWriter.createValueDataSets _ fs4 names).1 _).isSome
    rw [e5]; exact hS.isOpen
  · show (H5TimeSeriesWriter.createValueDataSets _ fs4 names).1.attr _ _ = _
    rw [e4]; exact hS.tableName
  · show (H5TimeSeriesWriter.createValueDataSets _ fs4 names).1.attr _ _ = _
    rw [e4]; exact hS.timeField
  · intro j hj
    show (H5TimeSeriesWriter.createValueDataSets _ fs4 names).1.attr _ _ = _
    rw [e4]; exact hS.fields j hj
  · show (H5TimeSeriesWriter.createValueDataSets _ fs4 names).1.dset _ = _
    rw [e3 _ (time_not_mem_valueHandles _ hc)]; simpa [timesOf] using htime
  · intro j hj
    have hmem : names.getD j [] ∈ names := by
      rw [List.getD_eq_getElem _ _ hj]; exact List.getElem_mem hj
    simpa [columnOf] using e2 _ hmem
  · show (H5TimeSeriesWriter.createValueDataSets _ fs4 names).1.attr _ _ = _
    rw [e4]; exact hrows
  · show (H5TimeSeriesWriter.createValueDataSets _ fs4 names).1.attr _ _ = _
    rw [e4]; exact hcols

/-- When every dataset of the value columns was created, the names are link names that
were free, pairwise distinct as C strings. -/
theorem H5TimeSeriesWriter.createValueDataSets_inv (file : Str) (names : List Str) :
    ∀ (fs : FileSystem),
      (H5TimeSeriesWriter.createValueDataSets (some file) fs names).2.2 = none →
      (names.map cstr).Nodup ∧
      ∀ n ∈ names, validLinkName (cstr n) = true ∧ fs.dset ⟨file, cstr n⟩ = none := by
  induction names with
  | nil => intro fs _; simp
  | cons name rest ih =>
    intro fs hok
    by_cases hbad : validLinkName (cstr name) = false ∨ (fs.dset ⟨file, cstr name⟩).isSome
    · have := FileSystem.createDataSet_refused PredType.NATIVE_DOUBLE hbad
      simp [H5TimeSeriesWriter.createValueDataSets, this] at hok
    · have hv : validLinkName (cstr name) = true := by
        cases h : validLinkName (cstr name) with
        | true => rfl
        | false => exact absurd (Or.inl h) hbad
      have hn : fs.dset ⟨file, cstr name⟩ = none := by
        cases h : fs.dset ⟨file, cstr name⟩ with
        | none => rfl
        | some d => exact absurd (Or.inr (by rw [h]; rfl)) hbad
      cases hf : fs file with
      | none =>
        simp [H5TimeSeriesWriter.createValueDataSets, FileSystem.createDataSet, hf] at hok
      | some f =>
        obtain ⟨a1, a2, a3, a4, a5⟩ :=
          FileSystem.createDataSet_ok PredType.NATIVE_DOUBLE (by rw [hf]; rfl) hv hn
        generalize hfs1 : (fs.createDataSet (some file) (cstr name) PredType.NATIVE_DOUBLE).1 = fs1
          at a2 a3 a4 a5
        have hstep : fs.createDataSet (some file) (cstr name) PredType.NATIVE_DOUBLE
            = (fs1, .ok ⟨file, cstr name⟩) := by
          rw [← hfs1, ← a1]
        have hok1 : (H5TimeSeriesWriter.createValueDataSets (some file) fs1 rest).2.2 = none := by
          simpa [H5TimeSeriesWriter.createValueDataSets, hstep] using hok
        obtain ⟨b1, b2⟩ := ih fs1 hok1
        have hne : ∀ n ∈ rest, cstr n ≠ cstr name := by
          intro n hmem h
          have := (b2 n hmem).2
          rw [h, a2] at this
          simp at this
        refine ⟨?_, ?_⟩
        · simp only [List.map_cons, List.nodup_cons, List.mem_map, not_exists, not_and]
          exact ⟨fun n hmem h => hne n hmem h, b1⟩
        · intro n hmem
          rcases List.mem_cons.mp hmem with h | h
          · subst h; exact ⟨hv, hn⟩
          · refine ⟨(b2 n h).1, ?_⟩
            have hne2 : (⟨file, cstr n⟩ : DataSetId) ≠ ⟨file, cstr name⟩ := by
              intro h2
              simp only [DataSetId.mk.injEq, true_and] at h2
              exact hne n h h2
            rw [← a3 _ hne2]; exact (b2 n h).2

/-- The three-argument constructor gives a writer exactly for creatable names. -/
theorem H5TimeSeriesWriter.creatable_of_ctor {fs : FileSystem} {fileName tableName : Str}
    {names : List Str} {w : H5TimeSeriesWriter}
    (h : (H5TimeSeriesWriter.ctor fs fileName tableName names).2 = .ok w) : creatable names := by
  have hexn : (H5TimeSeriesWriter.openFileCalls fs fileName tableName names).2.2 = none := by
    cases hres : H5TimeSeriesWriter.openFileCalls fs fileName tableName names with
    | mk fs1 rest =>
      obtain ⟨dsets, exn⟩ := rest
      cases exn with
      | none => rfl
      | some e => simp [H5TimeSeriesWriter.ctor, H5TimeSeriesWriter.openFile, hres] at h
  have hnodup : names.Nodup := by
    by_contra hdup
    rw [H5TimeSeriesWriter.openFileCalls_of_dup fs fileName tableName hdup] at hexn
    simp at hexn
  obtain ⟨fs4, hres, -, -, -, htime, -⟩ :=
    H5TimeSeriesWriter.openFileCalls_start fs fileName tableName hnodup
  rw [hres] at hexn
  obtain ⟨b1, b2⟩ := H5TimeSeriesWriter.createValueDataSets_inv (cstr fileName) names fs4 hexn
  refine ⟨b1, ?_, fun n hn => (b2 n hn).1⟩
  intro hmem
  obtain ⟨n, hn, heq⟩ := List.mem_map.mp hmem
  have := (b2 n hn).2
  rw [heq, htime] at this
  simp at this

theorem zeroChunk_length : zeroChunk.length = kChunkSize := by
  simp [zeroChunk]

/-- The three-argument constructor for creatable names: a writer comes into being, in the
state `Writing` with no row, and the file holds the schema. -/
theorem H5TimeSeriesWriter.ctor_spec (fs : FileSystem) (fileName tableName : Str)
    {names : List Str} (hc : creatable names) :
    ∃ w, (H5TimeSeriesWriter.ctor fs fileName tableName names).2 = .ok w ∧
      H5TimeSeriesWriter.Writing (H5TimeSeriesWriter.ctor fs fileName tableName names).1 w
        (cstr fileName) names [] ∧
      HoldsSchema (H5TimeSeriesWriter.ctor fs fileName tableName names).1
        (cstr fileName) tableName names := by
  obtain ⟨h1, h2, h3, h4, h5⟩ := H5TimeSeriesWriter.openFileCalls_spec fs fileName tableName hc
  cases hres : H5TimeSeriesWriter.openFileCalls fs fileName tableName names with
  | mk fs1 rest =>
    rw [hres] at h1 h2 h3 h4 h5
    simp only at h1 h2 h3 h4 h5
    subst h1
    simp only [H5TimeSeriesWriter.ctor, H5TimeSeriesWriter.openFile, hres]
    refine ⟨_, rfl, ?_, h2⟩
    refine ⟨rfl, rfl, by simp, rfl, rfl, rfl, by simp [kChunkSize], by simp, zeroChunk_length,
      by simp [timesOf], by simp, ?_, h3, h2.isOpen, h4, h5⟩
    intro j b hb
    have hmem : b ∈ List.replicate names.length zeroChunk := by
      have := List.get?_mem hb
      simpa using this
    have hb2 : b = zeroChunk := (List.mem_replicate.mp hmem).2
    subst hb2
    exact ⟨zeroChunk_length, by simp [columnOf]⟩

/-! ## Lists: the chunk buffers -/

theorem take_set_succ {α : Type} (b : List α) (off : Nat) (v : α) (h : off < b.length) :
    (b.set off v).take (off + 1) = b.take off ++ [v] := by
  induction b generalizing off with
  | nil => simp at h
  | cons x xs ih =>
    cases off with
    | zero => simp
    | succ off =>
      simp only [List.set_cons_succ, List.take_succ_cons, List.cons_append, List.cons.injEq,
        true_and]
      exact ih off (by simpa using h)

theorem H5TimeSeriesWriter.storeValues_length (off : Nat) :
    ∀ (bufs : List (List Scalar)) (vs : List Scalar), vs.length = bufs.length →
      (H5TimeSeriesWriter.storeValues bufs off vs).length = bufs.length := by
  intro bufs
  induction bufs with
  | nil => intro vs h; cases vs <;> simp [H5TimeSeriesWriter.storeValues]
  | cons b bs ih =>
    intro vs h
    cases vs with
    | nil => simp at h
    | cons v vs =>
      simp only [H5TimeSeriesWriter.storeValues, List.length_cons, add_left_inj]
      exact ih vs (by simpa using h)

theorem H5TimeSeriesWriter.storeValues_get (off : Nat) :
    ∀ (bufs : List (List Scalar)) (vs : List Scalar) (j : Nat) (b : List Scalar),
      vs.length = bufs.length →
      (H5TimeSeriesWriter.storeValues bufs off vs).get? j = some b →
      ∃ b0, bufs.get? j = some b0 ∧ b = b0.set off (vs.getD j 0) := by
  intro bufs
  induction bufs with
  | nil =>
    intro vs j b h hb
    cases vs <;> simp [H5TimeSeriesWriter.storeValues] at hb
  | cons b0 bs ih =>
    intro vs j b h hb
    cases vs with
    | nil => simp at h
    | cons v vs =>
      cases j with
      | zero =>
        simp only [H5TimeSeriesWriter.storeValues, List.get?_cons_zero, Option.some.injEq] at hb
        exact ⟨b0, by simp, by simp [hb]⟩
      | succ j =>
        simp only [H5TimeSeriesWriter.storeValues, List.get?_cons_succ] at hb
        obtain ⟨b1, hb1, hb2⟩ := ih vs j b (by simpa using h) hb
        exact ⟨b1, by simpa using hb1, by simpa using hb2⟩

/-! ## The writer: what a flush stores -/

/-- The value columns flushed: every column, of extent `row`, grows by the first `ch_size`
elements of its buffer; no other dataset changes. -/
theorem H5TimeSeriesWriter.appendChunks_spec (row ch_size : Nat) (hch : 1 ≤ ch_size) :
    ∀ (ds : List DataSetId) (bs : List (List Scalar)) (fs : FileSystem),
      ds.Nodup → bs.length = ds.length →
      (∀ d ∈ ds, ∃ x, fs.dset d = some x ∧ x.data.length = row) →
      (H5TimeSeriesWriter.appendChunks row ch_size fs ds bs ds.length).2 = none ∧
      (∀ j d b x, ds.get? j = some d → bs.get? j = some b → fs.dset d = some x →
        (H5TimeSeriesWriter.appendChunks row ch_size fs ds bs ds.length).1.dset d
          = some ⟨x.dtype, x.data ++ b.take ch_size⟩) ∧
      (∀ h, h ∉ ds →
        (H5TimeSeriesWriter.appendChunks row ch_size fs ds bs ds.length).1.dset h = fs.dset h) := by
  intro ds
  induction ds with
  | nil =>
    intro bs fs _ _ _
    simp [H5TimeSeriesWriter.appendChunks]
  | cons d ds ih =>
    intro bs fs hnd hlen hex
    cases bs with
    | nil => simp at hlen
    | cons b bs =>
      have hnd2 : d ∉ ds ∧ ds.Nodup := by simpa using hnd
      obtain ⟨x0, hx0, hx0len⟩ := hex d (by simp)
      obtain ⟨a1, a2, a3⟩ := H5TimeSeriesWriter.appendChunkToColumn_spec b hx0 hx0len hch
      cases hstep : H5TimeSeriesWriter.appendChunkToColumn fs d row b ch_size with
      | mk fs1 e1 =>
        rw [hstep] at a1 a2 a3
        simp only at a1 a2 a3
        subst a1
        have hex1 : ∀ d2 ∈ ds, ∃ x, fs1.dset d2 = some x ∧ x.data.length = row := by
          intro d2 hd2
          have hne : d2 ≠ d := by intro h; rw [h] at hd2; exact hnd2.1 hd2
          rw [a3 d2 hne]
          exact hex d2 (by simp [hd2])
        obtain ⟨b1, b2, b3⟩ := ih bs fs1 hnd2.2 (by simpa using hlen) hex1
        simp only [List.length_cons, H5TimeSeriesWriter.appendChunks, hstep]
        refine ⟨b1, ?_, ?_⟩
        · intro j d2 b2x x hd hb hx
          cases j with
          | zero =>
            simp only [List.get?_cons_zero, Option.some.injEq] at hd hb
            subst hd; subst hb
            rw [b3 _ hnd2.1, a2]
            rw [hx0] at hx
            simp only [Option.some.injEq] at hx
            subst hx; rfl
          | succ j =>
            simp only [List.get?_cons_succ] at hd hb
            have hmem : d2 ∈ ds := List.get?_mem hd
            have hne : d2 ≠ d := by intro h; rw [h] at hmem; exact hnd2.1 hmem
            exact b2 j d2 b2x x hd hb (by rw [a3 d2 hne]; exact hx)
        · intro h hnot
          have h1 : h ≠ d := by intro heq; apply hnot; simp [heq]
          have h2 : h ∉ ds := by intro hmem; apply hnot; simp [hmem]
          rw [b3 h h2, a3 h h1]

theorem valueHandles_get (file : Str) (names : List Str) (j : Nat) (hj : j < names.length) :
    (valueHandles file names).get? j = some ⟨file, cstr (names.getD j [])⟩ := by
  simp [valueHandles, List.getD_eq_getElem _ _ hj, List.getElem?_eq_getElem hj]

/-- One chunk flushed by a writer of the table `names`: every column, of extent
`mChunkBegin`, grows by the first `ch_size` elements of its buffer. -/
theorem H5TimeSeriesWriter.flushChunk_spec {fs : FileSystem} (w : H5TimeSeriesWriter)
    {file : Str} {names : List Str} (ch_size : Nat) (T : List Scalar) (C : Nat → List Scalar)
    (hc : creatable names) (hds : w.mDset = ⟨file, kTimeStr⟩ :: valueHandles file names)
    (hlen : w.mData.length = names.length) (hch : 1 ≤ ch_size)
    (hT : fs.dset ⟨file, kTimeStr⟩ = some ⟨PredType.NATIVE_INT64, T⟩)
    (hTlen : T.length = w.mChunkBegin)
    (hC : ∀ j, j < names.length →
      fs.dset ⟨file, cstr (names.getD j [])⟩ = some ⟨PredType.NATIVE_DOUBLE, C j⟩ ∧
      (C j).length = w.mChunkBegin) :
    (H5TimeSeriesWriter.flushChunk fs w ch_size names.length).2 = none ∧
    (H5TimeSeriesWriter.flushChunk fs w ch_size names.length).1.dset ⟨file, kTimeStr⟩
      = some ⟨PredType.NATIVE_INT64, T ++ w.mTimeData.take ch_size⟩ ∧
    (∀ j b, j < names.length → w.mData.get? j = some b →
      (H5TimeSeriesWriter.flushChunk fs w ch_size names.length).1.dset
        ⟨file, cstr (names.getD j [])⟩ = some ⟨PredType.NATIVE_DOUBLE, C j ++ b.take ch_size⟩) := by
  have hnotin := time_not_mem_valueHandles file hc
  obtain ⟨a1, a2, a3⟩ := H5TimeSeriesWriter.appendChunkToColumn_spec w.mTimeData hT hTlen hch
  cases hstep : H5TimeSeriesWriter.appendChunkToColumn fs ⟨file, kTimeStr⟩ w.mChunkBegin
      w.mTimeData ch_size with
  | mk fs1 e1 =>
    rw [hstep] at a1 a2 a3
    simp only at a1 a2 a3
    subst a1
    have hvlen : (valueHandles file names).length = names.length := by simp [valueHandles]
    have hex : ∀ d ∈ valueHandles file names,
        ∃ x, fs1.dset d = some x ∧ x.data.length = w.mChunkBegin := by
      intro d hd
      have hne : d ≠ ⟨file, kTimeStr⟩ := by intro h; rw [h] at hd; exact hnotin hd
      obtain ⟨j, hget⟩ := List.mem_iff_get?.mp hd
      have hj : j < (valueHandles file names).length := (List.get?_eq_some.mp hget).1
      rw [hvlen] at hj
      rw [valueHandles_get file names j hj] at hget
      simp only [Option.some.injEq] at hget
      subst hget
      rw [a3 _ hne]
      exact ⟨_, (hC j hj).1, (hC j hj).2⟩
    obtain ⟨b1, b2, b3⟩ := H5TimeSeriesWriter.appendChunks_spec w.mChunkBegin ch_size hch
      (valueHandles file names) w.mData fs1 (valueHandles_nodup file hc) (by rw [hlen, hvlen]) hex
    rw [hvlen] at b1 b2 b3
    have hfl : H5TimeSeriesWriter.flushChunk fs w ch_size names.length
        = H5TimeSeriesWriter.appendChunks w.mChunkBegin ch_size fs1 (valueHandles file names)
            w.mData names.length := by
      simp only [H5TimeSeriesWriter.flushChunk, hds, hstep]
    rw [hfl]
    refine ⟨b1, ?_, ?_⟩
    · rw [b3 _ hnotin]; exact a2
    · intro j b hj hb
      have hne : (⟨file, cstr (names.getD j [])⟩ : DataSetId) ≠ ⟨file, kTimeStr⟩ := by
        intro h
        apply hnotin
        rw [← h]
        exact List.get?_mem (valueHandles_get file names j hj)
      have := b2 j _ b ⟨PredType.NATIVE_DOUBLE, C j⟩ (valueHandles_get file names j hj) hb
        (by rw [a3 _ hne]; exact (hC j hj).1)
      exact this

/-! ## The writer: the invariant of `appendRow` -/

theorem timesOf_append (rows : List (Scalar × List Scalar)) (time : Scalar) (vs : List Scalar) :
    timesOf (rows ++ [(time, vs)]) = timesOf rows ++ [time] := by
  simp [timesOf]

theorem columnOf_append (rows : List (Scalar × List Scalar)) (time : Scalar) (vs : List Scalar)
    (j : Nat) : columnOf (rows ++ [(time, vs)]) j = columnOf rows j ++ [vs.getD j 0] := by
  simp [columnOf]

theorem timesOf_length (rows : List (Scalar × List Scalar)) :
    (timesOf rows).length = rows.length := by
  simp [timesOf]

theorem columnOf_length (rows : List (Scalar × List Scalar)) (j : Nat) :
    (columnOf rows j).length = rows.length := by
  simp [columnOf]

/-- A buffer after the row was stored at `off`: its first `off + 1` slots are the entries
from `k` on of the column with the new entry. -/
theorem buffer_step (col : List Scalar) {b : List Scalar} {k off : Nat} (v : Scalar)
    (hk : k + off = col.length) (hoff : off < b.length) (hb : b.take off = col.drop k) :
    (b.set off v).length = b.length ∧
    (b.set off v).take (off + 1) = (col ++ [v]).drop k := by
  refine ⟨by simp, ?_⟩
  rw [take_set_succ b off v hoff, hb, List.drop_append_of_le_length (by omega)]

/-- A column of extent `k` with a buffer that holds the entries from `k` on is the whole
column with the new entry. -/
theorem flush_full {col buf : List Scalar} {v : Scalar} {k n : Nat} (hk : k ≤ col.length)
    (hn : col.length + 1 ≤ n) (hb : buf = (col ++ [v]).drop k) :
    col.take k ++ buf = (col ++ [v]).take n := by
  subst hb
  have h1 : List.take n (col ++ [v]) = col ++ [v] :=
    List.take_of_length_le (by simpa using hn)
  have h2 : List.take k (col ++ [v]) = List.take k col :=
    List.take_append_of_le_length hk
  rw [h1, ← h2]
  exact List.take_append_drop _ _

/-- The invariant of the writer is kept by `appendRow` with as many values as there are
value columns, which throws nothing and leaves every attribute as it was. -/
theorem H5TimeSeriesWriter.Writing.appendRow {fs : FileSystem} {w : H5TimeSeriesWriter}
    {file : Str} {names : List Str} {rows : List (Scalar × List Scalar)}
    (W : H5TimeSeriesWriter.Writing fs w file names rows) (hc : creatable names)
    (time : Scalar) {vs : List Scalar} (hvs : vs.length = names.length) :
    (H5TimeSeriesWriter.appendRow fs w time vs).exn = none ∧
    H5TimeSeriesWriter.Writing (H5TimeSeriesWriter.appendRow fs w time vs).fs
      (H5TimeSeriesWriter.appendRow fs w time vs).w file names (rows ++ [(time, vs)]) ∧
    (∀ file2 key, (H5TimeSeriesWriter.appendRow fs w time vs).fs.attr file2 key
      = fs.attr file2 key) := by
  have hlen : vs.length = w.mNumCols - 1 := by rw [W.numCols, hvs]; omega
  have hbegin : w.mChunkBegin ≤ rows.length := by have := W.cursor; omega
  -- the buffers after the row was stored
  have hT := buffer_step (timesOf rows) time
    (by rw [timesOf_length]; exact W.cursor) (by rw [W.timeLen]; exact W.offset) W.timeBuf
  rw [← timesOf_append rows time vs] at hT
  have hD : ∀ j b, (H5TimeSeriesWriter.storeValues w.mData w.mChunkOffset vs).get? j = some b →
      b.length = kChunkSize ∧
      b.take (w.mChunkOffset + 1) = (columnOf (rows ++ [(time, vs)]) j).drop w.mChunkBegin := by
    intro j b hb
    obtain ⟨b0, hb0, hbeq⟩ := H5TimeSeriesWriter.storeValues_get w.mChunkOffset w.mData vs j b
      (by rw [hvs, W.dataLen]) hb
    obtain ⟨l0, t0⟩ := W.dataBuf j b0 hb0
    have := buffer_step (columnOf rows j) (vs.getD j 0)
      (by rw [columnOf_length]; exact W.cursor) (by rw [l0]; exact W.offset) t0
    rw [← columnOf_append rows time vs] at this
    rw [hbeq]
    exact ⟨by rw [this.1, l0], this.2⟩
  have hDlen : (H5TimeSeriesWriter.storeValues w.mData w.mChunkOffset vs).length = names.length := by
    rw [H5TimeSeriesWriter.storeValues_length _ _ _ (by rw [hvs, W.dataLen]), W.dataLen]
  rw [H5TimeSeriesWriter.appendRow_of_checks W.flag hlen]
  split_ifs with hfull
  · -- the chunk is full and is flushed
    have hfull2 : w.mChunkOffset + 1 = kChunkSize := hfull
    have hC : ∀ j, j < names.length →
        fs.dset ⟨file, cstr (names.getD j [])⟩
          = some ⟨PredType.NATIVE_DOUBLE, (columnOf rows j).take w.mChunkBegin⟩ ∧
        ((columnOf rows j).take w.mChunkBegin).length = w.mChunkBegin := by
      intro j hj
      exact ⟨W.stored.value j hj, by rw [List.length_take, columnOf_length]; omega⟩
    obtain ⟨f1, f2, f3⟩ := H5TimeSeriesWriter.flushChunk_spec (w.storeRow time vs) kChunkSize
      ((timesOf rows).take w.mChunkBegin) (fun j => (columnOf rows j).take w.mChunkBegin)
      hc W.dsets hDlen (by decide) W.stored.time
      (by rw [List.length_take, timesOf_length]; exact Nat.min_eq_left hbegin) hC
    obtain ⟨g1, g2, -⟩ :=
      H5TimeSeriesWriter.flushChunk_frame fs (w.storeRow time vs) kChunkSize names.length
    rw [hvs]
    cases hfl : H5TimeSeriesWriter.flushChunk fs (w.storeRow time vs) kChunkSize names.length with
    | mk fs1 e1 =>
      rw [hfl] at f1 f2 f3 g1 g2
      simp only at f1 f2 f3 g1 g2
      subst f1
      refine ⟨rfl, ?_, g1⟩
      have hnew : (timesOf (rows ++ [(time, vs)])).length = w.mNumRows + 1 := by
        rw [timesOf_length, W.numRows]; simp
      refine ⟨W.flag, W.fileId, W.dsets, W.numCols, by simp [H5TimeSeriesWriter.storeRow, W.numRows],
        by simp [H5TimeSeriesWriter.storeRow, W.numRows], by simp [kChunkSize], ?_,
        by simp [H5TimeSeriesWriter.storeRow, W.timeLen], ?_, hDlen, ?_, ⟨?_, ?_⟩,
        by rw [g2]; exact W.isOpen, by rw [g1]; exact W.noRows, by rw [g1]; exact W.noCols⟩
      · show kChunkSize ∣ w.mNumRows + 1
        have : w.mNumRows + 1 = w.mChunkBegin + kChunkSize := by
          have := W.cursor; rw [W.numRows]; omega
        rw [this]
        exact Dvd.dvd.add W.chunkBegin (dvd_refl _)
      · show List.take 0 _ = List.drop (w.mNumRows + 1) _
        rw [List.take_zero, List.drop_eq_nil_of_le (by rw [hnew])]
      · intro j b hb
        refine ⟨(hD j b hb).1, ?_⟩
        show List.take 0 b = List.drop (w.mNumRows + 1) _
        rw [List.take_zero, List.drop_eq_nil_of_le (by rw [columnOf_length, W.numRows]; simp)]
      · show fs1.dset ⟨file, kTimeStr⟩ = some ⟨_, List.take (w.mNumRows + 1) _⟩
        have h2 : List.take kChunkSize (w.storeRow time vs).mTimeData
            = List.drop w.mChunkBegin (timesOf rows ++ [time]) := by
          rw [← hfull2, ← timesOf_append rows time vs]; exact hT.2
        have key := flush_full (n := w.mNumRows + 1)
          (by rw [timesOf_length]; exact hbegin) (by rw [timesOf_length, W.numRows]) h2
        rw [f2, key, timesOf_append]
      · intro j hj
        show fs1.dset _ = some ⟨_, List.take (w.mNumRows + 1) _⟩
        obtain ⟨b, hb⟩ : ∃ b, (H5TimeSeriesWriter.storeValues w.mData w.mChunkOffset vs).get? j
            = some b := by
          have : j < (H5TimeSeriesWriter.storeValues w.mData w.mChunkOffset vs).length := by
            rw [hDlen]; exact hj
          exact ⟨_, List.get?_eq_get this⟩
        have h2 : List.take kChunkSize b
            = List.drop w.mChunkBegin (columnOf rows j ++ [vs.getD j 0]) := by
          rw [← hfull2, ← columnOf_append rows time vs]; exact (hD j b hb).2
        have key := flush_full (n := w.mNumRows + 1)
          (by rw [columnOf_length]; exact hbegin) (by rw [columnOf_length, W.numRows]) h2
        rw [f3 j b hj hb, key, columnOf_append]
  · -- the row stays in the buffers
    have hfull2 : w.mChunkOffset + 1 ≠ kChunkSize := hfull
    refine ⟨rfl, ?_, fun _ _ => rfl⟩
    refine ⟨W.flag, W.fileId, W.dsets, W.numCols, by simp [H5TimeSeriesWriter.storeRow, W.numRows],
      ?_, ?_, W.chunkBegin, by simp [H5TimeSeriesWriter.storeRow, W.timeLen], hT.2, hDlen, hD,
      ⟨?_, ?_⟩, W.isOpen, W.noRows, W.noCols⟩
    · show w.mChunkBegin + (w.mChunkOffset + 1) = (rows ++ [(time, vs)]).length
      have := W.cursor; simp; omega
    · show w.mChunkOffset + 1 < kChunkSize
      have := W.offset; omega
    · show fs.dset _ = some ⟨_, List.take w.mChunkBegin _⟩
      rw [timesOf_append, List.take_append_of_le_length (by rw [timesOf_length]; exact hbegin)]
      exact W.stored.time
    · intro j hj
      show fs.dset _ = some ⟨_, List.take w.mChunkBegin _⟩
      rw [columnOf_append, List.take_append_of_le_length (by rw [columnOf_length]; exact hbegin)]
      exact W.stored.value j hj

/-- The invariant of the writer after a sequence of rows, each with as many values as
there are value columns. -/
theorem H5TimeSeriesWriter.Writing.appendRows {file : Str} {names : List Str}
    (hc : creatable names) (more : List (Scalar × List Scalar)) :
    ∀ {fs : FileSystem} {w : H5TimeSeriesWriter} {rows : List (Scalar × List Scalar)},
      H5TimeSeriesWriter.Writing fs w file names rows →
      (∀ r ∈ more, r.2.length = names.length) →
      (H5TimeSeriesWriter.appendRows fs w more).exn = none ∧
      H5TimeSeriesWriter.Writing (H5TimeSeriesWriter.appendRows fs w more).fs
        (H5TimeSeriesWriter.appendRows fs w more).w file names (rows ++ more) ∧
      (∀ file2 key, (H5TimeSeriesWriter.appendRows fs w more).fs.attr file2 key
        = fs.attr file2 key) := by
  induction more with
  | nil =>
    intro fs w rows W _
    simpa [H5TimeSeriesWriter.appendRows] using W
  | cons r more ih =>
    intro fs w rows W hlen
    obtain ⟨a1, a2, a3⟩ := W.appendRow hc r.1 (hlen r (by simp))
    cases hstep : H5TimeSeriesWriter.appendRow fs w r.1 r.2 with
    | mk fs1 w1 e1 =>
      rw [hstep] at a1 a2 a3
      simp only at a1 a2 a3
      subst a1
      obtain ⟨b1, b2, b3⟩ := ih a2 (fun r2 h2 => hlen r2 (by simp [h2]))
      simp only [H5TimeSeriesWriter.appendRows, hstep]
      refine ⟨b1, ?_, fun file2 key => (b3 file2 key).trans (a3 file2 key)⟩
      simpa using b2

/-- The finalisation of a table in the state `Writing`: `reset()` throws nothing; then
every dataset holds its whole column, the counts are written, and the other attributes
are as before. -/
theorem H5TimeSeriesWriter.Writing.reset {fs : FileSystem} {w : H5TimeSeriesWriter}
    {file : Str} {names : List Str} {rows : List (Scalar × List Scalar)}
    (W : H5TimeSeriesWriter.Writing fs w file names rows) (hc : creatable names) :
    (H5TimeSeriesWriter.reset fs w).exn = none ∧
    HoldsRows (H5TimeSeriesWriter.reset fs w).fs file names rows rows.length ∧
    (H5TimeSeriesWriter.reset fs w).fs.attr file NROWS_STR = some (Attr.hsize rows.length) ∧
    (H5TimeSeriesWriter.reset fs w).fs.attr file kNcolumnsStr
      = some (Attr.hsize (1 + names.length)) ∧
    (∀ file2 key, (file2, key) ≠ (file, NROWS_STR) → (file2, key) ≠ (file, kNcolumnsStr) →
      (H5TimeSeriesWriter.reset fs w).fs.attr file2 key = fs.attr file2 key) ∧
    (∀ file2, ((H5TimeSeriesWriter.reset fs w).fs file2).isSome = (fs file2).isSome) := by
  have hbegin : w.mChunkBegin ≤ rows.length := by have := W.cursor; omega
  obtain ⟨a1, a2, a3, a4, a5⟩ :=
    FileSystem.createAttribute_ok (v := Attr.hsize w.mNumRows) W.isOpen W.noRows
  generalize hfs1 : (fs.createAttribute (some file) NROWS_STR (Attr.hsize w.mNumRows)).1 = fs1
    at a2 a3 a4 a5
  have s1 : H5TimeSeriesWriter.writeAttribHsize fs NROWS_STR w.mNumRows w.mFileId
      = (fs1, none) := by
    unfold H5TimeSeriesWriter.writeAttribHsize; rw [W.fileId, ← hfs1, ← a1]
  have hkey : kNcolumnsStr ≠ NROWS_STR := by decide
  obtain ⟨b1, b2, b3, b4, b5⟩ :=
    FileSystem.createAttribute_ok (v := Attr.hsize w.mNumCols) (by rw [a5]; exact W.isOpen)
      (by rw [a3 file kNcolumnsStr (by simp [hkey])]; exact W.noCols)
  generalize hfs2 : (fs1.createAttribute (some file) kNcolumnsStr (Attr.hsize w.mNumCols)).1 = fs2
    at b2 b3 b4 b5
  have s2 : H5TimeSeriesWriter.writeAttribHsize fs1 kNcolumnsStr w.mNumCols w.mFileId
      = (fs2, none) := by
    unfold H5TimeSeriesWriter.writeAttribHsize; rw [W.fileId, ← hfs2, ← b1]
  have hrows : fs2.attr file NROWS_STR = some (Attr.hsize rows.length) := by
    rw [b3 file NROWS_STR (by simp [hkey.symm]), a2, W.numRows]
  have hcols : fs2.attr file kNcolumnsStr = some (Attr.hsize (1 + names.length)) := by
    rw [b2, W.numCols]
  have hother : ∀ file2 key, (file2, key) ≠ (file, NROWS_STR) →
      (file2, key) ≠ (file, kNcolumnsStr) → fs2.attr file2 key = fs.attr file2 key := by
    intro file2 key h1 h2
    rw [b3 _ _ h2, a3 _ _ h1]
  have hsome : ∀ file2, (fs2 file2).isSome = (fs file2).isSome := by
    intro file2; rw [b5, a5]
  by_cases hoff : w.mChunkOffset = 0
  · have hres : (H5TimeSeriesWriter.reset fs w).fs = fs2 ∧ (H5TimeSeriesWriter.reset fs w).exn = none := by
      simp [H5TimeSeriesWriter.reset, W.flag, s1, s2, hoff]
    rw [hres.1, hres.2]
    have hb : w.mChunkBegin = rows.length := by have := W.cursor; omega
    refine ⟨rfl, ⟨?_, ?_⟩, hrows, hcols, hother, hsome⟩
    · rw [b4, a4, ← hb]; exact W.stored.time
    · intro j hj; rw [b4, a4, ← hb]; exact W.stored.value j hj
  · have hC : ∀ j, j < names.length →
        fs2.dset ⟨file, cstr (names.getD j [])⟩
          = some ⟨PredType.NATIVE_DOUBLE, (columnOf rows j).take w.mChunkBegin⟩ ∧
        ((columnOf rows j).take w.mChunkBegin).length = w.mChunkBegin := by
      intro j hj
      exact ⟨by rw [b4, a4]; exact W.stored.value j hj,
        by rw [List.length_take, columnOf_length]; omega⟩
    obtain ⟨f1, f2, f3⟩ := H5TimeSeriesWriter.flushChunk_spec w w.mChunkOffset
      ((timesOf rows).take w.mChunkBegin) (fun j => (columnOf rows j).take w.mChunkBegin)
      hc W.dsets W.dataLen (by omega) (by rw [b4, a4]; exact W.stored.time)
      (by rw [List.length_take, timesOf_length]; exact Nat.min_eq_left hbegin) hC
    obtain ⟨g1, g2, -⟩ := H5TimeSeriesWriter.flushChunk_frame fs2 w w.mChunkOffset names.length
    have hn : w.mNumCols - 1 = names.length := by rw [W.numCols]; omega
    cases hfl : H5TimeSeriesWriter.flushChunk fs2 w w.mChunkOffset names.length with
    | mk fs3 e3 =>
      rw [hfl] at f1 f2 f3 g1 g2
      simp only at f1 f2 f3 g1 g2
      subst f1
      have hres : (H5TimeSeriesWriter.reset fs w).fs = fs3 ∧
          (H5TimeSeriesWriter.reset fs w).exn = none := by
        simp [H5TimeSeriesWriter.reset, W.flag, s1, s2, hoff, hn, hfl]
      rw [hres.1, hres.2]
      refine ⟨rfl, ⟨?_, ?_⟩, by rw [g1]; exact hrows, by rw [g1]; exact hcols,
        fun file2 key h1 h2 => by rw [g1]; exact hother file2 key h1 h2,
        fun file2 => by rw [g2]; exact hsome file2⟩
      · rw [f2, W.timeBuf, List.take_append_drop,
          List.take_of_length_le (by rw [timesOf_length])]
      · intro j hj
        obtain ⟨b, hb⟩ : ∃ b, w.mData.get? j = some b :=
          ⟨_, List.get?_eq_get (by rw [W.dataLen]; exact hj)⟩
        rw [f3 j b hj hb, (W.dataBuf j b hb).2, List.take_append_drop,
          List.take_of_length_le (by rw [columnOf_length])]

/-! ## The read window -/

theorem readCount_le (currsize index size : Nat) (h : index ≤ currsize) :
    readCount currsize index size ≤ size ∧ index + readCount currsize index size ≤ currsize ∧
    (∀ k, k < size → index + k < currsize → k < readCount currsize index size) := by
  unfold readCount
  split_ifs with h1
  · refine ⟨by omega, by omega, fun k _ hk => by omega⟩
  · refine ⟨le_refl _, by omega, fun k hk _ => hk⟩

/-- A refill at an index within the extent: the window starts at the index, keeps its
`kBufferSize` slots, and every slot within the extent holds the element at its index. -/
theorem Column.updateBuffer_spec {c : Column} {ds : DataSet} {index : Nat}
    (hd : c.mDset = some ds) (hlen : c.mData.length = kBufferSize)
    (hi : index < ds.data.length) :
    ∃ c2, c.updateBuffer index = (c2, none) ∧ c2.mDset = some ds ∧ c2.mName = c.mName ∧
      c2.mLastIndex = index ∧ c2.mData.length = kBufferSize ∧
      ∀ k, k < kBufferSize → index + k < ds.data.length →
        c2.mData.get? k = ds.data.get? (index + k) := by
  obtain ⟨r1, r2, r3⟩ := readCount_le ds.data.length index kBufferSize (le_of_lt hi)
  have hnot : ¬ index > ds.data.length := by omega
  have hfirst : ((ds.data.drop index).take (readCount ds.data.length index kBufferSize)).length
      = readCount ds.data.length index kBufferSize := by
    rw [List.length_take, List.length_drop]; omega
  refine ⟨{ c with
      mData := (ds.data.drop index).take (readCount ds.data.length index kBufferSize)
        ++ c.mData.drop (readCount ds.data.length index kBufferSize),
      mLastIndex := index }, ?_, hd, rfl, rfl, ?_, ?_⟩
  · simp [Column.updateBuffer, Column.readColumn, hd, hnot]
  · show List.length (_ ++ _) = kBufferSize
    rw [List.length_append, hfirst, List.length_drop, hlen]; omega
  · intro k hk hk2
    have hkc := r3 k hk hk2
    show List.get? (_ ++ _) k = _
    rw [List.get?_eq_getElem?, List.get?_eq_getElem?,
      List.getElem?_append_left (by rw [hfirst]; exact hkc),
      List.getElem?_take, if_pos hkc, List.getElem?_drop]

/-- A read through the window at an index within the extent returns the element of the
dataset at that index, and leaves a window that agrees with the dataset. -/
theorem Column.getValue_spec {c : Column} {ds : DataSet} {index : Nat}
    (hd : c.mDset = some ds) (hw : c.Window ds) (hi : index < ds.data.length) :
    ∃ c2 v, c.getValue index = (c2, .ok v) ∧ ds.data.get? index = some v ∧
      c2.mDset = some ds ∧ c2.mName = c.mName ∧ c2.Window ds := by
  have hv : ∃ v, ds.data.get? index = some v := ⟨_, List.get?_eq_get hi⟩
  obtain ⟨v, hv⟩ := hv
  -- the result of a refill of a window of `kBufferSize` slots
  have refill : ∀ c1 : Column, c1.mDset = some ds → c1.mName = c.mName →
      c1.mData.length = kBufferSize →
      ∃ c2, (match c1.updateBuffer index with
          | (c2, some e) => (c2, Except.error e)
          | (c2, none) => (c2, c2.elem (index - c2.mLastIndex))) = (c2, Except.ok v) ∧
        c2.mDset = some ds ∧ c2.mName = c.mName ∧ c2.Window ds := by
    intro c1 h1 h2 h3
    obtain ⟨c2, u1, u2, u3, u4, u5, u6⟩ := Column.updateBuffer_spec h1 h3 hi
    refine ⟨c2, ?_, u2, u3.trans h2, Or.inr ⟨u5, by rw [u4]; exact le_of_lt hi, ?_⟩⟩
    · have h0 := u6 0 (by decide) (by simpa using hi)
      simp only [Nat.add_zero] at h0
      rw [u1]
      simp only [u4, Nat.sub_self, Column.elem, h0, hv]
    · intro k hk hk2
      rw [u4] at hk2 ⊢
      exact u6 k hk hk2
  unfold Column.getValue
  by_cases hempty : c.mData = []
  · -- the window is allocated and filled
    have hcond : index + 1 + kBufferSize ≤ index ∨ index < index + 1 := Or.inr (by omega)
    obtain ⟨c2, e1, e2, e3, e4⟩ := refill
      { c with mData := List.replicate kBufferSize 0, mLastIndex := index + 1 } hd rfl (by simp)
    refine ⟨c2, v, ?_, hv, e2, e3, e4⟩
    simp only [hempty, List.isEmpty_nil, if_true, hcond]
    exact e1
  · have hne : c.mData.isEmpty = false := by
      cases hm : c.mData with
      | nil => exact absurd hm hempty
      | cons x xs => rfl
    rcases hw with hw | ⟨w1, w2, w3⟩
    · exact absurd hw hempty
    · simp only [hne, Bool.false_eq_true, if_false]
      by_cases hcond : c.mLastIndex + kBufferSize ≤ index ∨ index < c.mLastIndex
      · obtain ⟨c2, e1, e2, e3, e4⟩ := refill c hd rfl w1
        refine ⟨c2, v, ?_, hv, e2, e3, e4⟩
        simp only [hcond, if_true]
        exact e1
      · have hk : index - c.mLastIndex < kBufferSize := by omega
        have hidx : c.mLastIndex + (index - c.mLastIndex) = index := by omega
        have := w3 (index - c.mLastIndex) hk (by rw [hidx]; exact hi)
        rw [hidx, hv] at this
        refine ⟨c, v, ?_, hv, hd, rfl, Or.inr ⟨w1, w2, w3⟩⟩
        simp only [hcond, if_false, Column.elem, this]

/-! ## The reader: `readRow` -/

theorem set_of_get? {α : Type} : ∀ (l : List α) (i : Nat) (x : α), l.get? i = some x →
    l.set i x = l := by
  intro l
  induction l with
  | nil => intro i x h; simp at h
  | cons a l ih =>
    intro i x h
    cases i with
    | zero => simp at h; simp [h]
    | succ i => simp at h; simp [ih i x (by simpa using h)]

/-- The loop of `readRow` over the subscribed ordinals, at a row index within the row
count: it throws nothing, appends to `values` the stored element of every subscribed
column in the order of the list, and leaves the columns consistent, with their names
and handles. -/
theorem H5TimeSeriesReader.readValues_spec (file : H5File) (numRows index : Nat)
    (hi : index < numRows) :
    ∀ (subs : List Nat) (cols : List Column) (vals : List Scalar),
      (∀ c ∈ cols, c.Consistent file numRows) →
      (∀ i ∈ subs, ∃ c, cols.get? i = some c ∧ c.mDset.isSome) →
      ∃ cols2 vs, H5TimeSeriesReader.readValues index cols subs vals = ((cols2, vals ++ vs), none) ∧
        vs.map some = subs.map (fun i => storedIn file (cols.map (fun c => c.mName)) i index) ∧
        (∀ c ∈ cols2, c.Consistent file numRows) ∧
        cols2.map (fun c => c.mName) = cols.map (fun c => c.mName) ∧
        cols2.map (fun c => c.mDset) = cols.map (fun c => c.mDset) := by
  intro subs
  induction subs with
  | nil =>
    intro cols vals hc _
    exact ⟨cols, [], by simp [H5TimeSeriesReader.readValues], rfl, hc, rfl, rfl⟩
  | cons i rest ih =>
    intro cols vals hc hs
    obtain ⟨c, hget, hsome⟩ := hs i (by simp)
    obtain ⟨ds, h1, h2, h3, h4⟩ := hc c (List.get?_mem hget)
    have hd : c.mDset = some ds := by
      rcases h3 with h3 | h3
      · rw [h3] at hsome; simp at hsome
      · exact h3
    obtain ⟨c2, v, g1, g2, g3, g4, g5⟩ := Column.getValue_spec hd h4 (by rw [h2]; exact hi)
    have hnames : (cols.set i c2).map (fun c => c.mName) = cols.map (fun c => c.mName) := by
      rw [List.map_set]
      apply set_of_get?
      rw [List.get?_eq_getElem?, List.getElem?_map, ← List.get?_eq_getElem?, hget, g4]; rfl
    have hdsets : (cols.set i c2).map (fun c => c.mDset) = cols.map (fun c => c.mDset) := by
      rw [List.map_set]
      apply set_of_get?
      rw [List.get?_eq_getElem?, List.getElem?_map, ← List.get?_eq_getElem?, hget, g3, ← hd]; rfl
    have hc1 : ∀ c3 ∈ cols.set i c2, c3.Consistent file numRows := by
      intro c3 hmem
      rcases List.mem_or_eq_of_mem_set hmem with h | h
      · exact hc c3 h
      · subst h
        exact ⟨ds, by rw [g4]; exact h1, h2, Or.inr g3, g5⟩
    have hs1 : ∀ k ∈ rest, ∃ c3, (cols.set i c2).get? k = some c3 ∧ c3.mDset.isSome := by
      intro k hk
      obtain ⟨c3, hg3, hsome3⟩ := hs k (by simp [hk])
      have e1 : ((cols.set i c2).map (fun c => c.mDset)).get? k = some c3.mDset := by
        rw [hdsets, List.get?_eq_getElem?, List.getElem?_map, ← List.get?_eq_getElem?, hg3]; rfl
      rw [List.get?_eq_getElem?, List.getElem?_map, ← List.get?_eq_getElem?] at e1
      cases hg4 : (cols.set i c2).get? k with
      | none => rw [hg4] at e1; simp at e1
      | some c4 =>
        rw [hg4] at e1
        simp only [Option.map_some', Option.some.injEq] at e1
        exact ⟨c4, rfl, by rw [e1]; exact hsome3⟩
    obtain ⟨cols2, vs, k1, k2, k3, k4, k5⟩ := ih (cols.set i c2) (vals ++ [v]) hc1 hs1
    refine ⟨cols2, v :: vs, ?_, ?_, k3, k4.trans hnames, k5.trans hdsets⟩
    · simp only [H5TimeSeriesReader.readValues, hget, g1, k1]
      simp
    · simp only [List.map_cons, k2, hnames, List.cons.injEq, and_true]
      simp only [storedIn, List.get?_eq_getElem?, List.getElem?_map]
      rw [← List.get?_eq_getElem?, hget]
      simp only [Option.map_some', Option.some_bind, h1]
      rw [← List.get?_eq_getElem?, g2]

theorem H5TimeSeriesReader.readRow_of_ge (r : H5TimeSeriesReader) {index : Nat}
    (hi : index ≥ r.mNumRows) (time : Scalar) (vals : List Scalar) :
    r.readRow index time vals = ⟨r, time, vals, .ok false⟩ := by
  simp [H5TimeSeriesReader.readRow, hi]

/-- The member `readRow` of a consistent reader at a row index within the row count: it
returns true, `time` is the stored time at the index, `values` holds the stored element
of every subscribed column in subscription order, and the reader stays consistent, with
its subscriptions, names and handles. -/
theorem H5TimeSeriesReader.Consistent.readRow {r : H5TimeSeriesReader} (hr : r.Consistent)
    {index : Nat} (hi : index < r.mNumRows) (time : Scalar) (vals : List Scalar) :
    (r.readRow index time vals).ret = .ok true ∧
    some (r.readRow index time vals).time
      = r.mTimeColumn.mDset.bind (fun ds => ds.data.get? index) ∧
    (r.readRow index time vals).nonTimeValues.map some
      = r.mSubscrList.map (fun i => r.stored i index) ∧
    (r.readRow index time vals).r.Consistent ∧
    (r.readRow index time vals).r.mSubscrList = r.mSubscrList ∧
    (r.readRow index time vals).r.mFileId = r.mFileId ∧
    (r.readRow index time vals).r.mNumRows = r.mNumRows ∧
    (r.readRow index time vals).r.mTimeColumn.mDset = r.mTimeColumn.mDset ∧
    (r.readRow index time vals).r.nonTimeColumnNames = r.nonTimeColumnNames ∧
    (r.readRow index time vals).r.mColumn.map (fun c => c.mDset)
      = r.mColumn.map (fun c => c.mDset) := by
  obtain ⟨ds, t1, t2, t3⟩ := hr.time
  obtain ⟨tc, t, g1, g2, g3, g4, g5⟩ := Column.getValue_spec t1 t3 (by rw [t2]; exact hi)
  obtain ⟨cols2, vs, k1, k2, k3, k4, k5⟩ :=
    H5TimeSeriesReader.readValues_spec r.mFileId r.mNumRows index hi r.mSubscrList r.mColumn []
      hr.columns hr.subscribed
  have hnot : ¬ index ≥ r.mNumRows := by omega
  have hres : r.readRow index time vals
      = ⟨{ r with mTimeColumn := tc, mColumn := cols2 }, t, vs, .ok true⟩ := by
    simp only [H5TimeSeriesReader.readRow, hnot, if_false, g1, k1, List.nil_append]
  rw [hres]
  refine ⟨rfl, by rw [t1]; exact g2.symm, k2, ⟨⟨ds, g3, t2, g5⟩, k3, ?_⟩, rfl, rfl, rfl,
    by rw [t1]; exact g3, k4, k5⟩
  intro i hmem
  obtain ⟨c, hc1, hc2⟩ := hr.subscribed i hmem
  have e1 : (cols2.map (fun c => c.mDset)).get? i = some c.mDset := by
    rw [k5, List.get?_eq_getElem?, List.getElem?_map, ← List.get?_eq_getElem?, hc1]; rfl
  rw [List.get?_eq_getElem?, List.getElem?_map, ← List.get?_eq_getElem?] at e1
  show ∃ c, cols2.get? i = some c ∧ c.mDset.isSome
  cases hg : cols2.get? i with
  | none => rw [hg] at e1; simp at e1
  | some c4 =>
    rw [hg] at e1
    simp only [Option.map_some', Option.some.injEq] at e1
    exact ⟨c4, rfl, by rw [e1]; exact hc2⟩

/-- C3: `readRow` at an index that is not below `numRows()` returns false and leaves the
reader (its column windows included) and the output arguments `time` and `values` as
they were, for every reader; at an index below `numRows()` it returns true, for every
reader in a consistent state (the state of a reader of a finalised table), and for no
reader at all does it return false there. -/
theorem readRow_returns (r : H5TimeSeriesReader) (index : Nat) (time : Scalar)
    (values : List Scalar) :
    (index ≥ r.numRows →
      (r.readRow index time values).ret = .ok false ∧
      (r.readRow index time values).time = time ∧
      (r.readRow index time values).nonTimeValues = values ∧
      (r.readRow index time values).r = r) ∧
    (index < r.numRows → r.Consistent → (r.readRow index time values).ret = .ok true) ∧
    (index < r.numRows → (r.readRow index time values).ret ≠ .ok false) := by
  refine ⟨?_, ?_, ?_⟩
  · intro hi
    rw [H5TimeSeriesReader.readRow_of_ge r hi]
    exact ⟨rfl, rfl, rfl, rfl⟩
  · intro hi hr
    exact (hr.readRow hi time values).1
  · intro hi
    have hnot : ¬ index ≥ r.mNumRows := by
      have : index < r.mNumRows := hi
      omega
    simp only [H5TimeSeriesReader.readRow, hnot, if_false]
    cases r.mTimeColumn.getValue index with
    | mk tc et =>
      cases et with
      | error e => simp
      | ok t =>
        simp only
        cases H5TimeSeriesReader.readValues index r.mColumn r.mSubscrList [] with
        | mk cv oe =>
          obtain ⟨cols, vals⟩ := cv
          cases oe <;> simp

/-- The member `doSubscr`, when it throws nothing, leaves the subscription list as it was
or with the ordinal added at its end. -/
theorem H5TimeSeriesReader.doSubscr_list (r : H5TimeSeriesReader) (i : Nat)
    (h : (r.doSubscr i).exn = none) :
    (r.doSubscr i).r.mSubscrList
      = if i ∈ r.mSubscrList then r.mSubscrList else r.mSubscrList ++ [i] := by
  by_cases hmem : i ∈ r.mSubscrList
  · simp [H5TimeSeriesReader.doSubscr, hmem]
  · revert h
    simp only [H5TimeSeriesReader.doSubscr, hmem, if_false]
    cases r.mColumn.get? i with
    | none => simp
    | some c =>
      simp only
      cases hopen : r.mFileId.openDataSet c.mName with
      | error e => simp
      | ok ds => simp

/-- C4: `readRow` of a consistent reader at an index below `numRows()` overwrites `values`,
whatever it held, with one entry per subscribed column in the order of the subscription
list: `values` has the length of the subscription list, and its entry `j` is the stored
element at `index` of the column whose ordinal is entry `j` of the subscription list.
The order of the subscription list is the order in which the columns were first
subscribed: `doSubscr` adds an ordinal at the end of the list, and only when the list
does not hold it. -/
theorem readRow_values (r : H5TimeSeriesReader) (hr : r.Consistent) (index : Nat)
    (hi : index < r.numRows) (time : Scalar) (values : List Scalar) :
    (r.readRow index time values).nonTimeValues.length = r.mSubscrList.length ∧
    (r.readRow index time values).nonTimeValues.map some
      = r.mSubscrList.map (fun i => r.stored i index) ∧
    (∀ i, (r.doSubscr i).exn = none →
      (r.doSubscr i).r.mSubscrList
        = if i ∈ r.mSubscrList then r.mSubscrList else r.mSubscrList ++ [i]) := by
  have h := (hr.readRow hi time values).2.2.1
  refine ⟨?_, h, fun i hi2 => H5TimeSeriesReader.doSubscr_list r i hi2⟩
  have := congrArg List.length h
  simpa using this

/-! ## The reader: subscriptions -/

theorem H5TimeSeriesReader.doSubscr_of_mem {r : H5TimeSeriesReader} {i : Nat}
    (h : i ∈ r.mSubscrList) : r.doSubscr i = ⟨r, none⟩ := by
  simp [H5TimeSeriesReader.doSubscr, h]

/-- The member `doSubscr` of a consistent reader at the ordinal of a declared column: it
throws nothing, the reader stays consistent, and the ordinal is added at the end of the
subscription list unless it is in the list. -/
theorem H5TimeSeriesReader.Consistent.doSubscr {r : H5TimeSeriesReader} (hr : r.Consistent)
    {i : Nat} (hi : i < r.mColumn.length) :
    (r.doSubscr i).exn = none ∧ (r.doSubscr i).r.Consistent ∧
    (r.doSubscr i).r.mSubscrList
      = (if i ∈ r.mSubscrList then r.mSubscrList else r.mSubscrList ++ [i]) ∧
    (r.doSubscr i).r.nonTimeColumnNames = r.nonTimeColumnNames ∧
    (r.doSubscr i).r.mFileId = r.mFileId ∧ (r.doSubscr i).r.mNumRows = r.mNumRows ∧
    (r.doSubscr i).r.mTimeColumn = r.mTimeColumn ∧
    (r.doSubscr i).r.mTableName = r.mTableName := by
  by_cases hmem : i ∈ r.mSubscrList
  · rw [H5TimeSeriesReader.doSubscr_of_mem hmem]
    simp [hmem, hr]
  · have hget : r.mColumn.get? i = some (r.mColumn.get ⟨i, hi⟩) := List.get?_eq_get hi
    generalize r.mColumn.get ⟨i, hi⟩ = c at hget
    obtain ⟨ds, h1, h2, h3, h4⟩ := hr.columns c (List.get?_mem hget)
    have hres : r.doSubscr i
        = ⟨{ r with mColumn := r.mColumn.set i (c.setDset ds),
                    mSubscrList := r.mSubscrList ++ [i] }, none⟩ := by
      simp only [H5TimeSeriesReader.doSubscr, hmem, if_false, hget, H5File.openDataSet, h1]
    rw [hres]
    refine ⟨rfl, ⟨hr.time, ?_, ?_⟩, by simp [hmem], ?_, rfl, rfl, rfl, rfl⟩
    · intro c2 hc2
      rcases List.mem_or_eq_of_mem_set hc2 with h | h
      · exact hr.columns c2 h
      · subst h
        exact ⟨ds, h1, h2, Or.inr rfl, h4⟩
    · intro k hk
      show ∃ c2, (r.mColumn.set i (c.setDset ds)).get? k = some c2 ∧ c2.mDset.isSome
      by_cases hki : k = i
      · subst hki
        refine ⟨c.setDset ds, ?_, rfl⟩
        rw [List.get?_eq_getElem?, List.getElem?_set_self hi]
      · have hk2 : k ∈ r.mSubscrList := by
          rcases List.mem_append.mp hk with h | h
          · exact h
          · simp at h; exact absurd h hki
        obtain ⟨c2, g1, g2⟩ := hr.subscribed k hk2
        refine ⟨c2, ?_, g2⟩
        rw [List.get?_eq_getElem?, List.getElem?_set_ne (Ne.symm hki), ← List.get?_eq_getElem?]
        exact g1
    · show (r.mColumn.set i (c.setDset ds)).map (fun c => c.mName) = r.mColumn.map (fun c => c.mName)
      rw [List.map_set]
      apply set_of_get?
      rw [List.get?_eq_getElem?, List.getElem?_map, ← List.get?_eq_getElem?, hget]; rfl

/-- The ordinal `subscribe` finds for a name: below `mColumn.size()` exactly for the names
of declared columns. -/
theorem H5TimeSeriesReader.findIdx_lt_iff (r : H5TimeSeriesReader) (name : Str) :
    r.mColumn.findIdx (fun c => decide (name = c.mName)) < r.mColumn.length ↔
      name ∈ r.nonTimeColumnNames := by
  rw [List.findIdx_lt_length]
  simp only [decide_eq_true_eq, H5TimeSeriesReader.nonTimeColumnNames, List.mem_map]
  constructor
  · rintro ⟨c, hc, h⟩; exact ⟨c, hc, h.symm⟩
  · rintro ⟨c, hc, h⟩; exact ⟨c, hc, h.symm⟩

/-- The member `subscribe` at a name that is the name of the time column or of no declared
column: `BadSubscription`, with the reader as it was. -/
theorem H5TimeSeriesReader.subscribe_bad (r : H5TimeSeriesReader) {bad : Str} (rest : List Str)
    (hbad : bad = kTimeStr ∨ bad ∉ r.nonTimeColumnNames) :
    r.subscribe (bad :: rest) = ⟨r, some Exn.BadSubscription⟩ := by
  by_cases ht : bad = kTimeStr
  · simp [H5TimeSeriesReader.subscribe, ht]
  · have hnot : bad ∉ r.nonTimeColumnNames := by
      rcases hbad with h | h
      · exact absurd h ht
      · exact h
    have hidx : r.mColumn.findIdx (fun c => decide (bad = c.mName)) = r.mColumn.length := by
      have h1 := (H5TimeSeriesReader.findIdx_lt_iff r bad).not.mpr hnot
      have h2 : r.mColumn.findIdx (fun c => decide (bad = c.mName)) ≤ r.mColumn.length :=
        List.findIdx_le_length _
      omega
    simp [H5TimeSeriesReader.subscribe, ht, hidx]

/-- The member `subscribe` of a consistent reader on names of declared value columns: it
throws nothing and the reader stays consistent. -/
theorem H5TimeSeriesReader.Consistent.subscribe (names : List Str) :
    ∀ {r : H5TimeSeriesReader}, r.Consistent →
      (∀ n ∈ names, n ≠ kTimeStr ∧ n ∈ r.nonTimeColumnNames) →
      (r.subscribe names).exn = none ∧ (r.subscribe names).r.Consistent ∧
      (r.subscribe names).r.nonTimeColumnNames = r.nonTimeColumnNames ∧
      (r.subscribe names).r.mFileId = r.mFileId ∧
      (r.subscribe names).r.mNumRows = r.mNumRows := by
  induction names with
  | nil => intro r hr _; exact ⟨rfl, hr, rfl, rfl, rfl⟩
  | cons n rest ih =>
    intro r hr hn
    obtain ⟨h1, h2⟩ := hn n (by simp)
    have hlt := (H5TimeSeriesReader.findIdx_lt_iff r n).mpr h2
    obtain ⟨a1, a2, -, a4, a5, a6, -, -⟩ := hr.doSubscr hlt
    cases hstep : r.doSubscr (r.mColumn.findIdx (fun c => decide (n = c.mName))) with
    | mk r1 e1 =>
      rw [hstep] at a1 a2 a4 a5 a6
      simp only at a1 a2 a4 a5 a6
      subst a1
      obtain ⟨b1, b2, b3, b4, b5⟩ := ih a2
        (fun m hm => by rw [a4]; exact hn m (by simp [hm]))
      have hres : r.subscribe (n :: rest) = r1.subscribe rest := by
        simp [H5TimeSeriesReader.subscribe, h1, Nat.ne_of_lt hlt, hstep]
      rw [hres]
      exact ⟨b1, b2, b3.trans a4, b4.trans a5, b5.trans a6⟩

/-- The member `subscribe` on a list with an invalid name: what it does is what it does on
the names before the first invalid name, then `BadSubscription`. -/
theorem H5TimeSeriesReader.Consistent.subscribe_invalid (pre : List Str) :
    ∀ {r : H5TimeSeriesReader} (bad : Str) (post : List Str), r.Consistent →
      (∀ n ∈ pre, n ≠ kTimeStr ∧ n ∈ r.nonTimeColumnNames) →
      (bad = kTimeStr ∨ bad ∉ r.nonTimeColumnNames) →
      r.subscribe (pre ++ bad :: post) = ⟨(r.subscribe pre).r, some Exn.BadSubscription⟩ := by
  induction pre with
  | nil =>
    intro r bad post _ _ hbad
    rw [List.nil_append, H5TimeSeriesReader.subscribe_bad r post hbad]
    rfl
  | cons n rest ih =>
    intro r bad post hr hn hbad
    obtain ⟨h1, h2⟩ := hn n (by simp)
    have hlt := (H5TimeSeriesReader.findIdx_lt_iff r n).mpr h2
    obtain ⟨a1, a2, -, a4, -, -, -, -⟩ := hr.doSubscr hlt
    cases hstep : r.doSubscr (r.mColumn.findIdx (fun c => decide (n = c.mName))) with
    | mk r1 e1 =>
      rw [hstep] at a1 a2 a4
      simp only at a1 a2 a4
      subst a1
      have hres : ∀ l, r.subscribe (n :: l) = r1.subscribe l := by
        intro l
        simp [H5TimeSeriesReader.subscribe, h1, Nat.ne_of_lt hlt, hstep]
      rw [List.cons_append, hres, hres]
      exact ih bad post a2 (fun m hm => by rw [a4]; exact hn m (by simp [hm]))
        (by rw [a4]; exact hbad)

/-! ## Strings through the attribute store -/

theorem NUL_not_mem_cstr (s : Str) : NUL ∉ cstr s := by
  intro h
  have := List.mem_takeWhile_imp h
  simp at this

theorem cstr_of_not_mem {s : Str} (h : NUL ∉ s) : cstr s = s := by
  unfold cstr
  rw [List.takeWhile_eq_self_iff]
  intro c hc
  simp only [bne_iff_ne, ne_eq]
  intro h2; rw [h2] at hc; exact h hc

theorem cstr_cstr (s : Str) : cstr (cstr s) = cstr s :=
  cstr_of_not_mem (NUL_not_mem_cstr s)

theorem cstr_append_NUL (s rest : Str) (h : NUL ∉ s) : cstr (s ++ NUL :: rest) = s := by
  unfold cstr
  induction s with
  | nil => simp [List.takeWhile]
  | cons c s ih =>
    have hc : c ≠ NUL := by intro h2; apply h; simp [h2]
    have hs : NUL ∉ s := by intro h2; apply h; simp [h2]
    have hb : (c != NUL) = true := by simpa using hc
    simp only [List.cons_append, List.takeWhile, hb]
    exact congrArg (List.cons c) (ih hs)

/-- A string shorter than `kMaxStr` written by the string `writeAttrib` is read back by the
string `readAttrib` as its C string. -/
theorem H5TimeSeriesReader.readAttribStr_strncpy (file : H5File) {key value : Str}
    (h : file.attrs key = some (Attr.str (strncpy value kMaxStr)))
    (hlen : (cstr value).length < kMaxStr) :
    H5TimeSeriesReader.readAttribStr key file = .ok (cstr value) := by
  have hbuf : strncpy value kMaxStr
      = cstr value ++ NUL :: List.replicate (kMaxStr - (cstr value).length - 1) NUL := by
    unfold strncpy
    rw [List.take_of_length_le (le_of_lt hlen)]
    congr 1
    have : kMaxStr - (cstr value).length = (kMaxStr - (cstr value).length - 1) + 1 := by omega
    rw [this, List.replicate_succ]
    simp
  have hblen : (strncpy value kMaxStr).length = kMaxStr := by
    rw [hbuf]; simp; omega
  have htake : (strncpy value kMaxStr).take kMaxStr = strncpy value kMaxStr :=
    List.take_of_length_le (by rw [hblen])
  have hcontains : (strncpy value kMaxStr).contains NUL = true := by
    rw [hbuf]; simp
  simp only [H5TimeSeriesReader.readAttribStr, h, htake, hcontains, if_true]
  rw [hbuf, cstr_append_NUL _ _ (NUL_not_mem_cstr value)]

/-- The names of the value columns read back by the constructor of the reader. -/
theorem H5TimeSeriesReader.readColumns_spec (file : H5File) (names : List Str) :
    ∀ (i : Nat) (cols : List Column),
      (∀ j, j < names.length →
        file.attrs (getFieldName (i + j)) = some (Attr.str (strncpy (names.getD j []) kMaxStr))) →
      (∀ n ∈ names, (cstr n).length < kMaxStr) →
      H5TimeSeriesReader.readColumns file i names.length cols
        = .ok (cols ++ names.map (fun n => Column.ctor (cstr n))) := by
  induction names with
  | nil => intro i cols _ _; simp [H5TimeSeriesReader.readColumns]
  | cons n rest ih =>
    intro i cols hattr hlen
    have h0 := hattr 0 (by simp)
    simp only [Nat.add_zero, List.getD_cons_zero] at h0
    have hread := H5TimeSeriesReader.readAttribStr_strncpy file h0 (hlen n (by simp))
    simp only [List.length_cons, H5TimeSeriesReader.readColumns, hread]
    rw [ih (i + 1) (cols ++ [Column.ctor (cstr n)])]
    · simp
    · intro j hj
      have := hattr (j + 1) (by simpa using hj)
      simp only [List.getD_cons_succ] at this
      rw [← this]; congr 2; omega
    · intro m hm; exact hlen m (by simp [hm])

/-! ## The reader: opening a finalised table -/

theorem cstr_kTimeStr : cstr kTimeStr = kTimeStr := by decide

/-- The constructor of the reader on a file that holds the schema of a table with names
shorter than `kMaxStr`, the columns of `rows` and the counts: a consistent reader with
the names, the row count and no subscription. -/
theorem H5TimeSeriesReader.ctor_on_table {fs : FileSystem} {fileName tableName : Str}
    {names : List Str} {rows : List (Scalar × List Scalar)}
    (hS : HoldsSchema fs (cstr fileName) tableName names)
    (hR : HoldsRows fs (cstr fileName) names rows rows.length)
    (hrows : fs.attr (cstr fileName) NROWS_STR = some (Attr.hsize rows.length))
    (hcols : fs.attr (cstr fileName) kNcolumnsStr = some (Attr.hsize (1 + names.length)))
    (hlenT : (cstr tableName).length < kMaxStr)
    (hlenN : ∀ n ∈ names, (cstr n).length < kMaxStr) :
    ∃ r, H5TimeSeriesReader.ctor fs fileName = .ok r ∧ r.Consistent ∧
      r.mTableName = cstr tableName ∧ r.mNumRows = rows.length ∧
      r.mNumCols = 1 + names.length ∧
      r.mColumn = names.map (fun n => Column.ctor (cstr n)) ∧ r.mSubscrList = [] ∧
      r.mTimeColumn.mDset = some ⟨PredType.NATIVE_INT64, timesOf rows⟩ ∧
      (∀ j, j < names.length → r.mFileId.dsets (cstr (names.getD j []))
        = some ⟨PredType.NATIVE_DOUBLE, columnOf rows j⟩) ∧
      fs (cstr fileName) = some r.mFileId := by
  have hopen := hS.isOpen
  cases hf : fs (cstr fileName) with
  | none => rw [hf] at hopen; simp at hopen
  | some f =>
    have hattr : ∀ key, f.attrs key = fs.attr (cstr fileName) key := by
      intro key; simp [FileSystem.attr, hf]
    have hdset : ∀ name, f.dsets name = fs.dset ⟨cstr fileName, name⟩ := by
      intro name; simp [FileSystem.dset, hf]
    have htake : ∀ l : List Scalar, l.length = rows.length → l.take rows.length = l :=
      fun l hl => List.take_of_length_le (by rw [hl])
    have e1 := H5TimeSeriesReader.readAttribStr_strncpy f
      (by rw [hattr]; exact hS.tableName) hlenT
    have e2 : H5TimeSeriesReader.readAttribHsize NROWS_STR f = .ok rows.length := by
      simp [H5TimeSeriesReader.readAttribHsize, hattr, hrows]
    have e3 : H5TimeSeriesReader.readAttribHsize kNcolumnsStr f = .ok (1 + names.length) := by
      simp [H5TimeSeriesReader.readAttribHsize, hattr, hcols]
    have e4 := H5TimeSeriesReader.readAttribStr_strncpy f
      (by rw [hattr]; exact hS.timeField) (by decide)
    rw [cstr_kTimeStr] at e4
    have e5 : f.openDataSet kTimeStr = .ok ⟨PredType.NATIVE_INT64, timesOf rows⟩ := by
      simp only [H5File.openDataSet, cstr_kTimeStr, hdset, hR.time,
        htake _ (timesOf_length rows)]
    have e6 := H5TimeSeriesReader.readColumns_spec f names 1 []
      (by intro j hj; rw [hattr, show 1 + j = j + 1 by omega]; exact hS.fields j hj) hlenN
    have hsub : 1 + names.length - 1 = names.length := by omega
    have hcol : ∀ j, j < names.length →
        f.dsets (cstr (names.getD j [])) = some ⟨PredType.NATIVE_DOUBLE, columnOf rows j⟩ := by
      intro j hj
      rw [hdset, hR.value j hj, htake _ (columnOf_length rows j)]
    refine ⟨{ mTimeColumn := (Column.ctor kTimeStr).setDset ⟨PredType.NATIVE_INT64, timesOf rows⟩,
              mColumn := names.map (fun n => Column.ctor (cstr n)),
              mTableName := cstr tableName, mFileId := f, mSubscrList := [],
              mNumRows := rows.length, mNumCols := 1 + names.length },
      ?_, ⟨⟨_, rfl, timesOf_length rows, Or.inl rfl⟩, ?_, ?_⟩, rfl, rfl, rfl, rfl, rfl,
      rfl, hcol, rfl⟩
    · simp only [H5TimeSeriesReader.ctor, hf, e1, e2, e3, e4, ne_eq, not_true_eq_false, if_false,
        e5, hsub, e6, List.nil_append, Column.setDset, Column.ctor]
    · intro c hc
      simp only [List.mem_map] at hc
      obtain ⟨n, hn, rfl⟩ := hc
      obtain ⟨j, hj, hget⟩ : ∃ j, j < names.length ∧ names.getD j [] = n := by
        obtain ⟨j, hj⟩ := List.mem_iff_get.mp hn
        exact ⟨j.1, j.2, by rw [List.getD_eq_getElem _ _ j.2]; exact hj⟩
      refine ⟨⟨PredType.NATIVE_DOUBLE, columnOf rows j⟩, ?_, columnOf_length rows j,
        Or.inl rfl, Or.inl rfl⟩
      show f.dsets (cstr (cstr n)) = _
      rw [cstr_cstr, ← hget]; exact hcol j hj
    · intro i hi
      simp at hi

/-! ## A table written from start to end -/

/-- The whole column written as one hyperslab `[0, n)` to a new dataset. -/
theorem one_hyperslab (t : PredType) (col : List Scalar) :
    ((⟨t, []⟩ : DataSet).extend col.length).writeHyperslab 0 col.length col = ⟨t, col⟩ := by
  simp [DataSet.extend, DataSet.writeHyperslab]

/-- A writer that the constructor gave, after `appendRow` for every row of `rows` and
`reset()`: nothing was thrown, every dataset holds its whole column, the counts are
written and the schema is as the constructor wrote it. -/
theorem H5TimeSeriesWriter.written {fs : FileSystem} {fileName tableName : Str}
    {names : List Str} {w : H5TimeSeriesWriter} (rows : List (Scalar × List Scalar))
    (hctor : (H5TimeSeriesWriter.ctor fs fileName tableName names).2 = .ok w)
    (hrows : ∀ r ∈ rows, r.2.length = names.length) :
    (H5TimeSeriesWriter.appendRows (H5TimeSeriesWriter.ctor fs fileName tableName names).1 w
      rows).exn = none ∧
    (H5TimeSeriesWriter.reset
      (H5TimeSeriesWriter.appendRows (H5TimeSeriesWriter.ctor fs fileName tableName names).1 w
        rows).fs
      (H5TimeSeriesWriter.appendRows (H5TimeSeriesWriter.ctor fs fileName tableName names).1 w
        rows).w).exn = none ∧
    HoldsRows (H5TimeSeriesWriter.reset
      (H5TimeSeriesWriter.appendRows (H5TimeSeriesWriter.ctor fs fileName tableName names).1 w
        rows).fs
      (H5TimeSeriesWriter.appendRows (H5TimeSeriesWriter.ctor fs fileName tableName names).1 w
        rows).w).fs (cstr fileName) names rows rows.length ∧
    HoldsSchema (H5TimeSeriesWriter.reset
      (H5TimeSeriesWriter.appendRows (H5TimeSeriesWriter.ctor fs fileName tableName names).1 w
        rows).fs
      (H5TimeSeriesWriter.appendRows (H5TimeSeriesWriter.ctor fs fileName tableName names).1 w
        rows).w).fs (cstr fileName) tableName names ∧
    (H5TimeSeriesWriter.reset
      (H5TimeSeriesWriter.appendRows (H5TimeSeriesWriter.ctor fs fileName tableName names).1 w
        rows).fs
      (H5TimeSeriesWriter.appendRows (H5TimeSeriesWriter.ctor fs fileName tableName names).1 w
        rows).w).fs.attr (cstr fileName) NROWS_STR = some (Attr.hsize rows.length) ∧
    (H5TimeSeriesWriter.reset
      (H5TimeSeriesWriter.appendRows (H5TimeSeriesWriter.ctor fs fileName tableName names).1 w
        rows).fs
      (H5TimeSeriesWriter.appendRows (H5TimeSeriesWriter.ctor fs fileName tableName names).1 w
        rows).w).fs.attr (cstr fileName) kNcolumnsStr = some (Attr.hsize (1 + names.length)) := by
  have hc := H5TimeSeriesWriter.creatable_of_ctor hctor
  obtain ⟨w2, h1, h2, h3⟩ := H5TimeSeriesWriter.ctor_spec fs fileName tableName hc
  rw [hctor] at h1
  simp only [Except.ok.injEq] at h1
  subst h1
  generalize (H5TimeSeriesWriter.ctor fs fileName tableName names).1 = fs1 at h2 h3
  obtain ⟨a1, a2, a3⟩ := h2.appendRows hc rows hrows
  simp only [List.nil_append] at a2
  generalize H5TimeSeriesWriter.appendRows fs1 w rows = res at a1 a2 a3
  obtain ⟨b1, b2, b3, b4, b5, b6⟩ := a2.reset hc
  have hk1 : kTableNameStr ≠ NROWS_STR := by decide
  have hk2 : kTableNameStr ≠ kNcolumnsStr := by decide
  refine ⟨a1, b1, b2, ⟨?_, ?_, ?_, ?_⟩, b3, b4⟩
  · rw [b6]; exact a2.isOpen
  · rw [b5 _ _ (by simp [hk1]) (by simp [hk2]), a3]; exact h3.tableName
  · rw [b5 _ _ (by simp [(getFieldName_ne_keys 0).2.1])
      (by simp [(getFieldName_ne_keys 0).2.2]), a3]
    exact h3.timeField
  · intro j hj
    rw [b5 _ _ (by simp [(getFieldName_ne_keys (j + 1)).2.1])
      (by simp [(getFieldName_ne_keys (j + 1)).2.2]), a3]
    exact h3.fields j hj

theorem writeTable_eq {fs : FileSystem} {fileName tableName : Str}
    {names : List Str} {w : H5TimeSeriesWriter} (rows : List (Scalar × List Scalar))
    (hctor : (H5TimeSeriesWriter.ctor fs fileName tableName names).2 = .ok w)
    (hrows : ∀ r ∈ rows, r.2.length = names.length) :
    writeTable fs fileName tableName names rows
      = ((H5TimeSeriesWriter.reset
          (H5TimeSeriesWriter.appendRows (H5TimeSeriesWriter.ctor fs fileName tableName names).1
            w rows).fs
          (H5TimeSeriesWriter.appendRows (H5TimeSeriesWriter.ctor fs fileName tableName names).1
            w rows).w).fs, none) := by
  obtain ⟨a1, b1, -⟩ := H5TimeSeriesWriter.written rows hctor hrows
  unfold writeTable
  cases hres : H5TimeSeriesWriter.ctor fs fileName tableName names with
  | mk fs1 ew =>
    rw [hres] at hctor a1 b1
    simp only at hctor a1 b1
    subst hctor
    simp only
    cases hres2 : H5TimeSeriesWriter.appendRows fs1 w rows with
    | mk fs2 w2 e2 =>
      rw [hres2] at a1 b1
      simp only at a1 b1
      subst a1
      simp only [b1]

/-- C2: chunk-boundary equivalence on the write path.  For a writer that the constructor
gave and every sequence of `n` rows with as many values as there are value columns, the
appends and `reset()` throw nothing, and then, however many chunk flushes occurred,
the array of every column holds exactly the entries of the `n` rows for that column, in
order (so it has `n` elements and its element `i` is the entry of row `i`): the dataset
that one hyperslab write `[0, n)` of the whole column to a new dataset gives. -/
theorem chunk_boundary_equivalence (fs : FileSystem) (fileName tableName : Str)
    (names : List Str) (w : H5TimeSeriesWriter) (rows : List (Scalar × List Scalar))
    (hctor : (H5TimeSeriesWriter.ctor fs fileName tableName names).2 = .ok w)
    (hrows : ∀ r ∈ rows, r.2.length = names.length) :
    (H5TimeSeriesWriter.appendRows (H5TimeSeriesWriter.ctor fs fileName tableName names).1 w
      rows).exn = none ∧
    (H5TimeSeriesWriter.reset
      (H5TimeSeriesWriter.appendRows (H5TimeSeriesWriter.ctor fs fileName tableName names).1 w
        rows).fs
      (H5TimeSeriesWriter.appendRows (H5TimeSeriesWriter.ctor fs fileName tableName names).1 w
        rows).w).exn = none ∧
    (H5TimeSeriesWriter.reset
      (H5TimeSeriesWriter.appendRows (H5TimeSeriesWriter.ctor fs fileName tableName names).1 w
        rows).fs
      (H5TimeSeriesWriter.appendRows (H5TimeSeriesWriter.ctor fs fileName tableName names).1 w
        rows).w).fs.dset ⟨cstr fileName, kTimeStr⟩
      = some ⟨PredType.NATIVE_INT64, rows.map (fun r => r.1)⟩ ∧
    (∀ j, j < names.length →
      (H5TimeSeriesWriter.reset
        (H5TimeSeriesWriter.appendRows (H5TimeSeriesWriter.ctor fs fileName tableName names).1 w
          rows).fs
        (H5TimeSeriesWriter.appendRows (H5TimeSeriesWriter.ctor fs fileName tableName names).1 w
          rows).w).fs.dset ⟨cstr fileName, cstr (names.getD j [])⟩
        = some ⟨PredType.NATIVE_DOUBLE, rows.map (fun r => r.2.getD j 0)⟩) ∧
    (∀ (t : PredType) (col : List Scalar), col.length = rows.length →
      ((⟨t, []⟩ : DataSet).extend rows.length).writeHyperslab 0 rows.length col = ⟨t, col⟩) := by
  obtain ⟨a1, b1, b2, -, -, -⟩ := H5TimeSeriesWriter.written rows hctor hrows
  have htake : ∀ l : List Scalar, l.length = rows.length → l.take rows.length = l :=
    fun l hl => List.take_of_length_le (by rw [hl])
  refine ⟨a1, b1, ?_, ?_, ?_⟩
  · rw [b2.time, htake _ (timesOf_length rows)]; rfl
  · intro j hj
    rw [b2.value j hj, htake _ (columnOf_length rows j)]; rfl
  · intro t col hcol
    rw [← hcol]; exact one_hyperslab t col

theorem exManyRows_length : ∀ r ∈ exManyRows, r.2.length = exNames.length := by
  intro r hr
  simp only [exManyRows, List.mem_map] at hr
  obtain ⟨i, -, rfl⟩ := hr
  rfl

/-- C2 at the table of the example program, for the 2500 rows of the scenario of the
spec, `2 * kChunkSize + 452` rows. -/
theorem chunk_boundary_equivalence_witness :
    (H5TimeSeriesWriter.ctor (fun _ => none) exFile exTable exNames).2 = .ok exWriter ∧
    (∀ r ∈ exManyRows, r.2.length = exNames.length) ∧
    exManyRows.length = 2 * kChunkSize + 452 ∧
    (H5TimeSeriesWriter.reset
      (H5TimeSeriesWriter.appendRows
        (H5TimeSeriesWriter.ctor (fun _ => none) exFile exTable exNames).1 exWriter
          exManyRows).fs
      (H5TimeSeriesWriter.appendRows
        (H5TimeSeriesWriter.ctor (fun _ => none) exFile exTable exNames).1 exWriter
          exManyRows).w
      ).fs.dset ⟨cstr exFile, kTimeStr⟩
      = some ⟨PredType.NATIVE_INT64, exManyRows.map (fun r => r.1)⟩ :=
  ⟨rfl, exManyRows_length, by rw [exManyRows, List.length_map, List.length_range]; rfl,
    (chunk_boundary_equivalence (fun _ => none) exFile exTable exNames exWriter exManyRows rfl
      exManyRows_length).2.2.1⟩

/-! ## The reader: all columns read back -/

theorem H5TimeSeriesReader.Consistent.subscribeFrom (k : Nat) :
    ∀ {r : H5TimeSeriesReader} (i : Nat), r.Consistent → r.mSubscrList = List.range i →
      i + k = r.mColumn.length →
      (r.subscribeFrom i k).exn = none ∧ (r.subscribeFrom i k).r.Consistent ∧
      (r.subscribeFrom i k).r.mSubscrList = List.range (i + k) ∧
      (r.subscribeFrom i k).r.nonTimeColumnNames = r.nonTimeColumnNames ∧
      (r.subscribeFrom i k).r.mFileId = r.mFileId ∧
      (r.subscribeFrom i k).r.mNumRows = r.mNumRows ∧
      (r.subscribeFrom i k).r.mTimeColumn = r.mTimeColumn := by
  induction k with
  | zero => intro r i hr hs _; exact ⟨rfl, hr, hs, rfl, rfl, rfl, rfl⟩
  | succ k ih =>
    intro r i hr hs hlen
    obtain ⟨a1, a2, a3, a4, a5, a6, a7, -⟩ := hr.doSubscr (i := i) (by omega)
    have hnot : i ∉ r.mSubscrList := by rw [hs]; simp
    rw [if_neg hnot, hs, ← List.range_succ] at a3
    cases hstep : r.doSubscr i with
    | mk r1 e1 =>
      rw [hstep] at a1 a2 a3 a4 a5 a6 a7
      simp only at a1 a2 a3 a4 a5 a6 a7
      subst a1
      have hlen1 : i + 1 + k = r1.mColumn.length := by
        have h1 : r1.mColumn.length = r.mColumn.length := by
          have := congrArg List.length a4
          simpa [H5TimeSeriesReader.nonTimeColumnNames] using this
        omega
      obtain ⟨b1, b2, b3, b4, b5, b6, b7⟩ := ih (i + 1) a2 a3 hlen1
      simp only [H5TimeSeriesReader.subscribeFrom, hstep]
      refine ⟨b1, b2, ?_, b4.trans a4, b5.trans a5, b6.trans a6, b7.trans a7⟩
      rw [b3]; congr 1; omega

/-- The member `subscribeAll` of a consistent reader without subscriptions: it throws
nothing, and every declared column is subscribed, in declaration order. -/
theorem H5TimeSeriesReader.Consistent.subscribeAll {r : H5TimeSeriesReader} (hr : r.Consistent)
    (hs : r.mSubscrList = []) :
    r.subscribeAll.exn = none ∧ r.subscribeAll.r.Consistent ∧
    r.subscribeAll.r.mSubscrList = List.range r.mColumn.length ∧
    r.subscribeAll.r.nonTimeColumnNames = r.nonTimeColumnNames ∧
    r.subscribeAll.r.mFileId = r.mFileId ∧
    r.subscribeAll.r.mNumRows = r.mNumRows ∧
    r.subscribeAll.r.mTimeColumn = r.mTimeColumn := by
  have := H5TimeSeriesReader.Consistent.subscribeFrom r.mColumn.length 0 hr
    (by rw [hs]; rfl) (by omega)
  simpa [H5TimeSeriesReader.subscribeAll] using this

/-- A sequence of reads of a consistent reader at row indices within the row count, in
any order: every read returns true with the stored time and the stored elements of the
subscribed columns. -/
theorem H5TimeSeriesReader.Consistent.readRows (T : Nat → Scalar) (V : Nat → List Scalar)
    (indices : List Nat) :
    ∀ {r : H5TimeSeriesReader} (time : Scalar) (vals : List Scalar), r.Consistent →
      (∀ i ∈ indices, i < r.mNumRows) →
      (∀ i, i < r.mNumRows → r.mTimeColumn.mDset.bind (fun ds => ds.data.get? i) = some (T i)) →
      (∀ i, i < r.mNumRows → r.mSubscrList.map (fun j => r.stored j i) = (V i).map some) →
      r.readRows indices time vals = indices.map (fun i => (Except.ok true, T i, V i)) := by
  induction indices with
  | nil => intro r time vals _ _ _ _; rfl
  | cons i rest ih =>
    intro r time vals hr hidx hT hV
    have hi := hidx i (by simp)
    obtain ⟨a1, a2, a3, a4, a5, a6, a7, a8, a9, -⟩ := hr.readRow hi time vals
    have htime : (r.readRow i time vals).time = T i := by
      rw [hT i hi] at a2
      exact Option.some.inj a2
    have hvals : (r.readRow i time vals).nonTimeValues = V i := by
      rw [hV i hi] at a3
      exact List.map_injective_iff.mpr (Option.some_injective _) a3
    have hstored : ∀ j k, (r.readRow i time vals).r.stored j k = r.stored j k := by
      intro j k
      simp only [H5TimeSeriesReader.stored, a6, a9]
    simp only [H5TimeSeriesReader.readRows, List.map_cons, a1, htime, hvals, List.cons.injEq,
      true_and]
    apply ih _ _ a4
    · intro k hk; rw [a7]; exact hidx k (by simp [hk])
    · intro k hk; rw [a7] at hk; rw [a8]; exact hT k hk
    · intro k hk; rw [a7] at hk; rw [a5]; simp only [hstored]; exact hV k hk

/-! ## Round trip -/

theorem range_map_getD (vs : List Scalar) (m : Nat) (h : vs.length = m) :
    (List.range m).map (fun j => some (vs.getD j 0)) = vs.map some := by
  apply List.ext_getElem
  · simp [h]
  · intro j h1 h2
    simp only [List.length_map, List.length_range] at h1
    simp only [List.getElem_map, List.getElem_range]
    rw [List.getD_eq_getElem _ _ (by omega)]

theorem timesOf_get (rows : List (Scalar × List Scalar)) (i : Nat) (hi : i < rows.length) :
    (timesOf rows).get? i = some (rows.getD i (0, [])).1 := by
  simp [timesOf, List.getD_eq_getElem _ _ hi, List.getElem?_eq_getElem hi]

theorem columnOf_get (rows : List (Scalar × List Scalar)) (j i : Nat) (hi : i < rows.length) :
    (columnOf rows j).get? i = some ((rows.getD i (0, [])).2.getD j 0) := by
  simp [columnOf, List.getD_eq_getElem _ _ hi, List.getElem?_eq_getElem hi]

/-- A reader opened on a table that was written from start to end, with names shorter
than `kMaxStr`: it is consistent and holds the names, the row count and the columns. -/
theorem H5TimeSeriesReader.ctor_written {fs : FileSystem} {fileName tableName : Str}
    {names : List Str} (rows : List (Scalar × List Scalar)) (hc : creatable names)
    (hT : (cstr tableName).length < kMaxStr) (hN : ∀ n ∈ names, (cstr n).length < kMaxStr)
    (hrows : ∀ r ∈ rows, r.2.length = names.length) :
    (writeTable fs fileName tableName names rows).2 = none ∧
    ∃ r, H5TimeSeriesReader.ctor (writeTable fs fileName tableName names rows).1 fileName
        = .ok r ∧ r.Consistent ∧
      r.mTableName = cstr tableName ∧ r.mNumRows = rows.length ∧
      r.mNumCols = 1 + names.length ∧
      r.mColumn = names.map (fun n => Column.ctor (cstr n)) ∧ r.mSubscrList = [] ∧
      r.mTimeColumn.mDset = some ⟨PredType.NATIVE_INT64, timesOf rows⟩ ∧
      (∀ j, j < names.length → r.mFileId.dsets (cstr (names.getD j []))
        = some ⟨PredType.NATIVE_DOUBLE, columnOf rows j⟩) ∧
      (writeTable fs fileName tableName names rows).1 (cstr fileName) = some r.mFileId ∧
      HoldsSchema (writeTable fs fileName tableName names rows).1 (cstr fileName) tableName names
      := by
  obtain ⟨w, hctor, -, -⟩ := H5TimeSeriesWriter.ctor_spec fs fileName tableName hc
  obtain ⟨-, -, b2, b3, b4, b5⟩ := H5TimeSeriesWriter.written rows hctor hrows
  rw [writeTable_eq rows hctor hrows]
  obtain ⟨r, h1, h2⟩ := H5TimeSeriesReader.ctor_on_table b3 b2 b4 b5 hT hN
  exact ⟨rfl, r, h1, h2.1, h2.2.1, h2.2.2.1, h2.2.2.2.1, h2.2.2.2.2.1, h2.2.2.2.2.2.1,
    h2.2.2.2.2.2.2.1, h2.2.2.2.2.2.2.2.1, h2.2.2.2.2.2.2.2.2, b3⟩

/-- C1 (amended): round trip.  For every list of value-column names that the storage
library creates a table for (as C strings: link names, pairwise distinct, none of them
`time`) and that are shorter than `kMaxStr` = 1024 characters, every table name
shorter than 1024 characters, and every sequence of `n` rows with as many values as
there are value columns: the constructor, `appendRow` for every row in order and
`reset()` throw nothing; a reader opened on the file and subscribed with
`subscribeAll()` has `numRows() = n`; and for every list of indices below `n`, read
in the order of the list, every `readRow` returns true with the time and the values
of the row at that index, in declared column order. -/
theorem round_trip (fs : FileSystem) (fileName tableName : Str) (names : List Str)
    (rows : List (Scalar × List Scalar)) (hc : creatable names)
    (hT : (cstr tableName).length < kMaxStr) (hN : ∀ n ∈ names, (cstr n).length < kMaxStr)
    (hrows : ∀ r ∈ rows, r.2.length = names.length) :
    (writeTable fs fileName tableName names rows).2 = none ∧
    ∃ r, H5TimeSeriesReader.ctor (writeTable fs fileName tableName names rows).1 fileName
        = .ok r ∧
      r.subscribeAll.exn = none ∧ r.subscribeAll.r.numRows = rows.length ∧
      ∀ (indices : List Nat) (time : Scalar) (values : List Scalar),
        (∀ i ∈ indices, i < rows.length) →
        r.subscribeAll.r.readRows indices time values
          = indices.map (fun i => (Except.ok true, (rows.getD i (0, [])).1,
              (rows.getD i (0, [])).2)) := by
  obtain ⟨h0, r, h1, h2, -, h4, -, h6, h7, h8, h9, -, -⟩ :=
    @H5TimeSeriesReader.ctor_written fs fileName tableName names rows hc hT hN hrows
  obtain ⟨s1, s2, s3, s4, s5, s6, s7⟩ := h2.subscribeAll h7
  refine ⟨h0, r, h1, s1, by rw [H5TimeSeriesReader.numRows, s6, h4], ?_⟩
  intro indices time values hidx
  apply H5TimeSeriesReader.Consistent.readRows _ _ indices time values s2
  · intro i hi; rw [s6, h4]; exact hidx i hi
  · intro i hi
    rw [s6, h4] at hi
    rw [s7, h8]
    exact timesOf_get rows i hi
  · intro i hi
    rw [s6, h4] at hi
    have hlen : (rows.getD i (0, [])).2.length = names.length := by
      apply hrows
      rw [List.getD_eq_getElem _ _ hi]; exact List.getElem_mem hi
    have hcl : r.mColumn.length = names.length := by rw [h6]; simp
    have hnames : r.nonTimeColumnNames = names.map cstr := by
      simp [H5TimeSeriesReader.nonTimeColumnNames, h6, Column.ctor]
    have hst : ∀ j, r.subscribeAll.r.stored j i = storedIn r.mFileId (names.map cstr) j i := by
      intro j
      unfold H5TimeSeriesReader.stored
      rw [s4, s5, hnames]
    rw [s3, hcl, ← range_map_getD _ _ hlen]
    apply List.map_congr_left
    intro j hj
    have hj2 : j < names.length := by simpa using hj
    have hget : (names.map cstr).get? j = some (cstr (names.getD j [])) := by
      simp [List.getD_eq_getElem _ _ hj2, List.getElem?_eq_getElem hj2]
    rw [hst j]
    unfold storedIn
    rw [hget]
    simp only [Option.some_bind, cstr_cstr, h9 j hj2]
    exact columnOf_get rows j i hi

/-- C1 at the table of the example program, read back at the indices 2, 0, 1, 2. -/
theorem round_trip_witness :
    creatable exNames ∧ (cstr exTable).length < kMaxStr ∧
    (∀ n ∈ exNames, (cstr n).length < kMaxStr) ∧
    (∀ r ∈ exRows, r.2.length = exNames.length) ∧
    ∃ r, H5TimeSeriesReader.ctor (writeTable (fun _ => none) exFile exTable exNames exRows).1
        exFile = .ok r ∧
      r.subscribeAll.r.readRows [2, 0, 1, 2] 0 []
        = [2, 0, 1, 2].map (fun i => (Except.ok true, (exRows.getD i (0, [])).1,
            (exRows.getD i (0, [])).2)) :=
  ⟨by decide, by decide, by decide, by decide,
    (round_trip (fun _ => none) exFile exTable exNames exRows (by decide) (by decide)
      (by decide) (by decide)).2.imp
      (fun _ h => ⟨h.1, h.2.2.2 [2, 0, 1, 2] 0 [] (by decide)⟩)⟩

set_option maxRecDepth 100000 in
/-- C1 as stated fails.  The names of the list `["time"]` are pairwise distinct, but the
dataset of the value column cannot be created beside the dataset of the time column:
the constructor throws the exception of the storage library and there is no file a
reader could open.  The one name of 1024 characters is pairwise distinct too, and the
table is written, but the name is stored without its terminating NUL and the
constructor of the reader runs past the buffer it is read to; the same happens to the
example table under a table name of 1024 characters. -/
theorem round_trip_counterexample :
    (["time".toList].Nodup ∧
      (writeTable (fun _ => none) exFile exTable ["time".toList] []).2
        = some Exn.H5Exception ∧
      (H5TimeSeriesReader.ctor (writeTable (fun _ => none) exFile exTable ["time".toList] []).1
        exFile).toBool = false) ∧
    ([List.replicate 1024 'x'].Nodup ∧
      (writeTable (fun _ => none) exFile exTable [List.replicate 1024 'x'] []).2 = none ∧
      (H5TimeSeriesReader.ctor
        (writeTable (fun _ => none) exFile exTable [List.replicate 1024 'x'] []).1
        exFile).toBool = false) ∧
    (exNames.Nodup ∧
      (writeTable (fun _ => none) exFile (List.replicate 1024 'n') exNames []).2 = none ∧
      (H5TimeSeriesReader.ctor
        (writeTable (fun _ => none) exFile (List.replicate 1024 'n') exNames []).1
        exFile).toBool = false) := by
  refine ⟨⟨by decide, by decide, by decide⟩, ⟨by decide, by decide, by decide⟩,
    ⟨by decide, by decide, by decide⟩⟩

/-! ## The schema read back -/

/-- C10 (amended): schema round trip.  For every table name and every list of
value-column names that the storage library creates a table for (link names, pairwise
distinct, none of them `time`), all without a NUL character and shorter than `kMaxStr`
= 1024 characters: creating the table and finalising it throws nothing; a reader of
the file opens (no `BadSubscription`, no other exception); `tableName()`
returns the table name; `nonTimeColumnNames()` returns the value-column names in
declaration order; the column count is one more than their number; and in the file
the field name of ordinal 0 is `time` and the field name of ordinal `j + 1` is the
value-column name at position `j`. -/
theorem schema_round_trip (fs : FileSystem) (fileName tableName : Str) (names : List Str)
    (hc : creatable names) (hT : NUL ∉ tableName ∧ tableName.length < kMaxStr)
    (hN : ∀ n ∈ names, NUL ∉ n ∧ n.length < kMaxStr) :
    (writeTable fs fileName tableName names []).2 = none ∧
    ∃ r, H5TimeSeriesReader.ctor (writeTable fs fileName tableName names []).1 fileName
        = .ok r ∧
      r.tableName = tableName ∧ r.nonTimeColumnNames = names ∧
      r.mNumCols = 1 + names.length ∧
      H5TimeSeriesReader.readAttribStr (getFieldName 0) r.mFileId = .ok kTimeStr ∧
      ∀ j, j < names.length →
        H5TimeSeriesReader.readAttribStr (getFieldName (j + 1)) r.mFileId
          = .ok (names.getD j []) := by
  have hcT : cstr tableName = tableName := cstr_of_not_mem hT.1
  have hcN : ∀ n ∈ names, cstr n = n := fun n hn => cstr_of_not_mem (hN n hn).1
  obtain ⟨h0, r, h1, -, h3, -, h5, h6, -, -, -, h10, h11⟩ :=
    @H5TimeSeriesReader.ctor_written fs fileName tableName names [] hc
      (by rw [hcT]; exact hT.2) (fun n hn => by rw [hcN n hn]; exact (hN n hn).2)
      (fun r hr => by simp at hr)
  have hattr : ∀ key, r.mFileId.attrs key
      = (writeTable fs fileName tableName names []).1.attr (cstr fileName) key := by
    intro key; simp [FileSystem.attr, h10]
  refine ⟨h0, r, h1, by rw [H5TimeSeriesReader.tableName, h3, hcT], ?_, h5, ?_, ?_⟩
  · simp only [H5TimeSeriesReader.nonTimeColumnNames, h6, List.map_map]
    calc List.map ((fun column => column.mName) ∘ fun n => Column.ctor (cstr n)) names
        = List.map id names := by
          apply List.map_congr_left
          intro n hn
          simp [Column.ctor, hcN n hn]
      _ = names := List.map_id names
  · have := H5TimeSeriesReader.readAttribStr_strncpy r.mFileId
      (by rw [hattr]; exact h11.timeField) (by decide)
    rw [cstr_kTimeStr] at this
    exact this
  · intro j hj
    have hmem : names.getD j [] ∈ names := by
      rw [List.getD_eq_getElem _ _ hj]; exact List.getElem_mem hj
    have := H5TimeSeriesReader.readAttribStr_strncpy r.mFileId
      (by rw [hattr]; exact h11.fields j hj)
      (by rw [hcN _ hmem]; exact (hN _ hmem).2)
    rw [hcN _ hmem] at this
    exact this

/-- C10 at the table of the example program. -/
theorem schema_round_trip_witness :
    creatable exNames ∧ (NUL ∉ exTable ∧ exTable.length < kMaxStr) ∧
    (∀ n ∈ exNames, NUL ∉ n ∧ n.length < kMaxStr) ∧
    ∃ r, H5TimeSeriesReader.ctor (writeTable (fun _ => none) exFile exTable exNames []).1 exFile
        = .ok r ∧ r.tableName = exTable ∧ r.nonTimeColumnNames = exNames :=
  ⟨by decide, by decide, by decide,
    (schema_round_trip (fun _ => none) exFile exTable exNames (by decide) (by decide)
      (by decide)).2.imp (fun _ h => ⟨h.1, h.2.1, h.2.2.1⟩)⟩

set_option maxRecDepth 100000 in
/-- C10 as stated fails, for table names: the claim bounds the column names only.  A
table name with a NUL character is cut at the NUL by `c_str()`: the table `a NUL b`
with the value column `x1` (pairwise distinct, shorter than 1024) is created and
finalised, the reader opens, and `tableName()` returns `a`.  A table name of 1024
characters is stored without its terminating NUL, and the constructor of the reader
runs past the buffer it is read to. -/
theorem schema_round_trip_counterexample :
    (["x1".toList].Nodup ∧ (∀ n ∈ ["x1".toList], n.length < 1024) ∧
      (writeTable (fun _ => none) exFile ['a', NUL, 'b'] ["x1".toList] []).2 = none ∧
      (match H5TimeSeriesReader.ctor
          (writeTable (fun _ => none) exFile ['a', NUL, 'b'] ["x1".toList] []).1 exFile with
        | .ok r => some r.tableName
        | .error _ => none) = some ['a'] ∧
      ['a'] ≠ ['a', NUL, 'b']) ∧
    ((writeTable (fun _ => none) exFile (List.replicate 1024 'T') ["x1".toList] []).2 = none ∧
      (H5TimeSeriesReader.ctor
        (writeTable (fun _ => none) exFile (List.replicate 1024 'T') ["x1".toList] []).1
        exFile).toBool = false) := by
  refine ⟨⟨by decide, by decide, by decide, by decide, by decide⟩, ⟨by decide, by decide⟩⟩

/-! ## The example table read -/

theorem exReader_ctor : H5TimeSeriesReader.ctor exFs exFile = .ok exReader := rfl

theorem exReader_consistent : exReader.Consistent := by
  obtain ⟨-, r, h1, h2, -⟩ :=
    @H5TimeSeriesReader.ctor_written (fun _ => none) exFile exTable exNames exRows
      (by decide) (by decide) (by decide) (by decide)
  have h3 : H5TimeSeriesReader.ctor exFs exFile = .ok r := h1
  rw [exReader_ctor] at h3
  simp only [Except.ok.injEq] at h3
  rw [h3]; exact h2

/-- C3 at the reader of the example table, which has three rows: the read at index 2
returns true, the read at index 3 returns false and changes nothing. -/
theorem readRow_returns_witness :
    (2 < exReader.numRows ∧ exReader.Consistent) ∧ 3 ≥ exReader.numRows ∧
    (exReader.readRow 2 0 []).ret = .ok true ∧
    ((exReader.readRow 3 7 [8]).ret = .ok false ∧ (exReader.readRow 3 7 [8]).time = 7 ∧
      (exReader.readRow 3 7 [8]).nonTimeValues = [8] ∧ (exReader.readRow 3 7 [8]).r = exReader) :=
  ⟨⟨by decide, exReader_consistent⟩, by decide,
    (readRow_returns exReader 2 0 []).2.1 (by decide) exReader_consistent,
    (readRow_returns exReader 3 7 [8]).1 (by decide)⟩

/-- C4 at the example of the spec: after `subscribe(["x1", "x3"])` on the new reader of
the example table, `readRow(0, ...)` on a `values` that held one entry yields the
entries of `x1` and `x3` for row 0, in that order. -/
theorem readRow_values_witness :
    (exReader.subscribe ["x1".toList, "x3".toList]).r.Consistent ∧
    0 < (exReader.subscribe ["x1".toList, "x3".toList]).r.numRows ∧
    ((exReader.subscribe ["x1".toList, "x3".toList]).r.readRow 0 0 [99]).nonTimeValues.length
      = 2 ∧
    ((exReader.subscribe ["x1".toList, "x3".toList]).r.readRow 0 0 [99]).nonTimeValues.map some
      = [some 12, some 1234] :=
  have hc : (exReader.subscribe ["x1".toList, "x3".toList]).r.Consistent :=
    (H5TimeSeriesReader.Consistent.subscribe ["x1".toList, "x3".toList] exReader_consistent
      (by decide)).2.1
  ⟨hc, by decide,
    (readRow_values (exReader.subscribe ["x1".toList, "x3".toList]).r hc 0 (by decide)
      0 [99]).1,
    (readRow_values (exReader.subscribe ["x1".toList, "x3".toList]).r hc 0 (by decide)
      0 [99]).2.1.trans (by decide)⟩

/-- C7: `subscribe` of a consistent reader on a list in which some name is `time` or the
name of no declared value column, `bad` being the first such name: it throws
`BadSubscription`, and the reader it leaves (subscription list and opened handles) is
exactly the reader that `subscribe` on the names before `bad` leaves, which throws
nothing.  In particular, for every reader, `subscribe(["time"])` and
`subscribe([name])` with `name` the name of no declared column throw
`BadSubscription` and leave the reader as it was. -/
theorem subscribe_invalid_name (r : H5TimeSeriesReader) (hr : r.Consistent)
    (pre post : List Str) (bad : Str)
    (hpre : ∀ n ∈ pre, n ≠ kTimeStr ∧ n ∈ r.nonTimeColumnNames)
    (hbad : bad = kTimeStr ∨ bad ∉ r.nonTimeColumnNames) :
    (r.subscribe (pre ++ bad :: post)).exn = some Exn.BadSubscription ∧
    (r.subscribe (pre ++ bad :: post)).r = (r.subscribe pre).r ∧
    (r.subscribe pre).exn = none ∧
    (∀ r2 : H5TimeSeriesReader, r2.subscribe [kTimeStr] = ⟨r2, some Exn.BadSubscription⟩) ∧
    (∀ (r2 : H5TimeSeriesReader) (name : Str), name ∉ r2.nonTimeColumnNames →
      r2.subscribe [name] = ⟨r2, some Exn.BadSubscription⟩) := by
  have h := H5TimeSeriesReader.Consistent.subscribe_invalid pre bad post hr hpre hbad
  refine ⟨by rw [h], by rw [h], (H5TimeSeriesReader.Consistent.subscribe pre hr hpre).1, ?_, ?_⟩
  · intro r2
    exact H5TimeSeriesReader.subscribe_bad r2 [] (Or.inl rfl)
  · intro r2 name hname
    exact H5TimeSeriesReader.subscribe_bad r2 [] (Or.inr hname)

/-- C7 at the reader of the example table, with the wrong column name of the example
program (example.cpp:63) after one valid name. -/
theorem subscribe_invalid_name_witness :
    exReader.Consistent ∧
    (∀ n ∈ ["x1".toList], n ≠ kTimeStr ∧ n ∈ exReader.nonTimeColumnNames) ∧
    ("aaa".toList = kTimeStr ∨ "aaa".toList ∉ exReader.nonTimeColumnNames) ∧
    (exReader.subscribe (["x1".toList] ++ "aaa".toList :: ["x2".toList])).exn
      = some Exn.BadSubscription ∧
    (exReader.subscribe (["x1".toList] ++ "aaa".toList :: ["x2".toList])).r
      = (exReader.subscribe ["x1".toList]).r :=
  have h := subscribe_invalid_name exReader exReader_consistent ["x1".toList] ["x2".toList]
    "aaa".toList (by decide) (by decide)
  ⟨exReader_consistent, by decide, by decide, h.1, h.2.1⟩

/-! ## `reset(fileName, tableName, names)` and the constructor -/

/-- A `reset()` that goes through on a writer that was open for writing leaves the fields
cleared. -/
theorem H5TimeSeriesWriter.reset_cleared (fs : FileSystem) (w : H5TimeSeriesWriter)
    (hflag : w.mFlushFlag = true) (hok : (H5TimeSeriesWriter.reset fs w).exn = none) :
    (H5TimeSeriesWriter.reset fs w).w.mDset = [] ∧
    (H5TimeSeriesWriter.reset fs w).w.mData = [] ∧
    (H5TimeSeriesWriter.reset fs w).w.mChunkOffset = 0 ∧
    (H5TimeSeriesWriter.reset fs w).w.mChunkBegin = 0 ∧
    (H5TimeSeriesWriter.reset fs w).w.mNumRows = 0 := by
  revert hok
  simp only [H5TimeSeriesWriter.reset, hflag, Bool.true_eq_false, if_false]
  split
  · simp
  · split
    · simp
    · split_ifs
      · split <;> simp
      · simp

/-- On a writer whose `reset()` goes through and leaves the fields cleared (a writer that
was open for writing, or one that was finalised before), `reset(fileName, tableName,
names)` does what the three-argument constructor does on the backend after the
`reset()`: it throws what the constructor throws, leaves the backend the constructor
leaves, and when nothing is thrown the writer is the writer the constructor gives, up to
the slots of `mTimeData`, which are not written before they are read. -/
theorem H5TimeSeriesWriter.resetFile_eq_ctor (fs : FileSystem) (w : H5TimeSeriesWriter)
    (fileName tableName : Str) (names : List Str)
    (hok : (H5TimeSeriesWriter.reset fs w).exn = none)
    (hclear : (H5TimeSeriesWriter.reset fs w).w.mDset = [] ∧
      (H5TimeSeriesWriter.reset fs w).w.mData = [] ∧
      (H5TimeSeriesWriter.reset fs w).w.mChunkOffset = 0 ∧
      (H5TimeSeriesWriter.reset fs w).w.mChunkBegin = 0 ∧
      (H5TimeSeriesWriter.reset fs w).w.mNumRows = 0) :
    (H5TimeSeriesWriter.resetFile fs w fileName tableName names).fs
      = (H5TimeSeriesWriter.ctor (H5TimeSeriesWriter.reset fs w).fs fileName tableName names).1 ∧
    (∀ wc, (H5TimeSeriesWriter.ctor (H5TimeSeriesWriter.reset fs w).fs fileName tableName
        names).2 = .ok wc →
      (H5TimeSeriesWriter.resetFile fs w fileName tableName names).exn = none ∧
      (H5TimeSeriesWriter.resetFile fs w fileName tableName names).w
        = { wc with mTimeData := (H5TimeSeriesWriter.reset fs w).w.mTimeData }) ∧
    (∀ e, (H5TimeSeriesWriter.ctor (H5TimeSeriesWriter.reset fs w).fs fileName tableName
        names).2 = .error e →
      (H5TimeSeriesWriter.resetFile fs w fileName tableName names).exn = some e) := by
  cases hres : H5TimeSeriesWriter.reset fs w with
  | mk fs1 w1 e1 =>
    rw [hres] at hok hclear
    simp only at hok hclear
    subst hok
    obtain ⟨c1, c2, c3, c4, c5⟩ := hclear
    obtain ⟨d, md, td, off, beg, nr, nc, fid, flag⟩ := w1
    simp only at c1 c2 c3 c4 c5
    subst c1 c2 c3 c4 c5
    cases hcalls : H5TimeSeriesWriter.openFileCalls fs1 fileName tableName names with
    | mk fs2 rest =>
      obtain ⟨dsets, exn⟩ := rest
      cases exn with
      | none =>
        simp [H5TimeSeriesWriter.resetFile, hres, H5TimeSeriesWriter.ctor,
          H5TimeSeriesWriter.openFile, hcalls, resizeChunks]
      | some e =>
        simp [H5TimeSeriesWriter.resetFile, hres, H5TimeSeriesWriter.ctor,
          H5TimeSeriesWriter.openFile, hcalls, resizeChunks]

/-- C9 at a default-constructed writer.  The default constructor initialises `mFlushFlag`
only; with the cursor fields at 7, 2048 and 9, `reset(fileName, tableName, names)`
for the table of the example program throws nothing and marks the writer open for
writing, but `reset()` has returned before it cleared the cursor: the offset is 7,
the chunk begin 2048 and the row count 9, where the three-argument constructor gives
a writer with all three at 0. -/
theorem resetFile_defaultCtor_cursor :
    (H5TimeSeriesWriter.resetFile (fun _ => none) (H5TimeSeriesWriter.defaultCtor 7 2048 9 3)
      exFile exTable exNames).exn = none ∧
    (H5TimeSeriesWriter.resetFile (fun _ => none) (H5TimeSeriesWriter.defaultCtor 7 2048 9 3)
      exFile exTable exNames).w
      = { exWriter with mChunkOffset := 7, mChunkBegin := 2048, mNumRows := 9 } ∧
    (H5TimeSeriesWriter.ctor (fun _ => none) exFile exTable exNames).2 = .ok exWriter ∧
    exWriter.mChunkOffset = 0 ∧ exWriter.mChunkBegin = 0 ∧ exWriter.mNumRows = 0 :=
  ⟨rfl, rfl, rfl, rfl, rfl, rfl⟩

/-! ## Field names, continued -/

theorem digitChar_isDigit (k : Nat) (hk : k < 10) : (Nat.digitChar k).isDigit = true := by
  interval_cases k <;> rfl

theorem toDigitsCore_isDigit (fuel : Nat) : ∀ (n : Nat) (ds : List Char),
    (∀ c ∈ ds, c.isDigit = true) →
    ∀ c ∈ Nat.toDigitsCore 10 fuel n ds, c.isDigit = true := by
  induction fuel with
  | zero => intro n ds h c hc; exact h c (by simpa [Nat.toDigitsCore] using hc)
  | succ fuel ih =>
    intro n ds h c hc
    have hd := digitChar_isDigit (n % 10) (Nat.mod_lt _ (by decide))
    have hds : ∀ c ∈ Nat.digitChar (n % 10) :: ds, c.isDigit = true := by
      intro c2 hc2
      rcases List.mem_cons.mp hc2 with h2 | h2
      · rw [h2]; exact hd
      · exact h c2 h2
    unfold Nat.toDigitsCore at hc
    simp only at hc
    split_ifs at hc
    · exact hds c hc
    · exact ih _ _ hds c hc

/-- C14: the key of the field name of ordinal `i` is `FIELD_`, then the decimal
representation of `i` (digits only, which denote `i`), then `_NAME`; ordinal 0 has the
key `FIELD_0_NAME`; and the keys of two different ordinals differ, so that no two
columns share a metadata key. -/
theorem getFieldName_format (i j : Nat) :
    getFieldName i = "FIELD_".toList ++ (Nat.repr i).toList ++ "_NAME".toList ∧
    (∀ c ∈ (Nat.repr i).toList, c.isDigit = true) ∧
    (Nat.repr i).toList.foldl (fun a c => 10 * a + (c.toNat - 48)) 0 = i ∧
    getFieldName 0 = "FIELD_0_NAME".toList ∧
    (i ≠ j → getFieldName i ≠ getFieldName j) := by
  refine ⟨rfl, ?_, ?_, by decide, ?_⟩
  · intro c hc
    exact toDigitsCore_isDigit (i + 1) i [] (by simp) c hc
  · have := toDigitsCore_decode (i + 1) i [] (by omega)
    simpa using this
  · intro hne h
    exact hne (getFieldName_injective h)

/-- C14 at the ordinals 1 and 10. -/
theorem getFieldName_format_witness :
    (1 : Nat) ≠ 10 ∧ getFieldName 1 = "FIELD_1_NAME".toList ∧
    getFieldName 10 = "FIELD_10_NAME".toList ∧ getFieldName 1 ≠ getFieldName 10 :=
  ⟨by decide, by decide, by decide, (getFieldName_format 1 10).2.2.2.2 (by decide)⟩

/-! ## The read window, continued -/

/-- C17: refill clamping.  For a dataset of extent `L` and a refill index at most `L`, the
number of elements `readColumn` asks for with the size `kBufferSize` is
`min(kBufferSize, L - index)`; the hyperslab `[index, index + count)` lies within the
extent; and what is read to the start of the buffer are exactly those `count` elements
of the dataset, the rest of the buffer being kept. -/
theorem readColumn_clamped (ds : DataSet) (ptr : List Scalar) (index : Nat)
    (h : index ≤ ds.data.length) :
    readCount ds.data.length index kBufferSize = min kBufferSize (ds.data.length - index) ∧
    index + readCount ds.data.length index kBufferSize ≤ ds.data.length ∧
    Column.readColumn (some ds) ptr index kBufferSize
      = .ok ((ds.data.drop index).take (min kBufferSize (ds.data.length - index))
          ++ ptr.drop (min kBufferSize (ds.data.length - index))) ∧
    ((ds.data.drop index).take (min kBufferSize (ds.data.length - index))).length
      = min kBufferSize (ds.data.length - index) := by
  have hcount : readCount ds.data.length index kBufferSize
      = min kBufferSize (ds.data.length - index) := by
    unfold readCount
    split_ifs with h1
    · rw [Nat.min_eq_right (by omega)]
    · rw [Nat.min_eq_left (by omega)]
  have hnot : ¬ index > ds.data.length := by omega
  refine ⟨hcount, by rw [hcount]; omega, ?_, ?_⟩
  · simp only [Column.readColumn, hnot, if_false, hcount]
  · rw [List.length_take, List.length_drop]
    omega

/-- C17 at a dataset of three elements and the index 1: two elements are asked for. -/
theorem readColumn_clamped_witness :
    1 ≤ (⟨PredType.NATIVE_DOUBLE, [5, 6, 7]⟩ : DataSet).data.length ∧
    readCount (⟨PredType.NATIVE_DOUBLE, [5, 6, 7]⟩ : DataSet).data.length 1 kBufferSize
      = min kBufferSize ((⟨PredType.NATIVE_DOUBLE, [5, 6, 7]⟩ : DataSet).data.length - 1) ∧
    readCount 3 1 kBufferSize = 2 :=
  ⟨by decide, (readColumn_clamped ⟨PredType.NATIVE_DOUBLE, [5, 6, 7]⟩ [] 1 (by decide)).1,
    by decide⟩

theorem Column.getValues_spec (ds : DataSet) (indices : List Nat) :
    ∀ (c : Column), c.mDset = some ds → c.Window ds → (∀ i ∈ indices, i < ds.data.length) →
      c.getValues indices = indices.map (fun i => Except.ok (ds.data.getD i 0)) := by
  induction indices with
  | nil => intro c _ _ _; rfl
  | cons i rest ih =>
    intro c hd hw hidx
    obtain ⟨c2, v, g1, g2, g3, -, g5⟩ := Column.getValue_spec hd hw (hidx i (by simp))
    have hv : ds.data.getD i 0 = v := by
      rw [List.getD_eq_getElem?_getD, ← List.get?_eq_getElem?, g2]; rfl
    simp only [Column.getValues, g1, List.map_cons, hv, List.cons.injEq, true_and]
    exact ih c2 g3 g5 (fun k hk => hidx k (by simp [hk]))

/-- C15: read-window transparency.  On a newly constructed column window over a dataset
of length `L`, for every finite sequence of indices below `L`, in any order (increasing,
decreasing, repeated), every `getValue(index)` returns the element of the dataset at
`index`: no slot that is stale or was never filled is returned. -/
theorem read_window_transparent (name : Str) (ds : DataSet) (indices : List Nat)
    (h : ∀ i ∈ indices, i < ds.data.length) :
    ((Column.ctor name).setDset ds).getValues indices
      = indices.map (fun i => Except.ok (ds.data.getD i 0)) := by
  exact Column.getValues_spec ds indices _ rfl (Or.inl rfl) h

/-- C15 at a dataset of three elements, read at the indices 2, 0, 2, 1. -/
theorem read_window_transparent_witness :
    (∀ i ∈ [2, 0, 2, 1], i < (⟨PredType.NATIVE_DOUBLE, [5, 6, 7]⟩ : DataSet).data.length) ∧
    ((Column.ctor "x1".toList).setDset ⟨PredType.NATIVE_DOUBLE, [5, 6, 7]⟩).getValues [2, 0, 2, 1]
      = [.ok 7, .ok 5, .ok 7, .ok 6] :=
  ⟨by decide,
    (read_window_transparent "x1".toList ⟨PredType.NATIVE_DOUBLE, [5, 6, 7]⟩ [2, 0, 2, 1]
      (by decide)).trans rfl⟩

/-! ## String attributes at the bound -/

/-- A string of exactly `kMaxStr` characters without NUL fills the buffer of the string
`writeAttrib`, which then has no terminating NUL: the string `readAttrib` runs past the
buffer it reads the attribute to. -/
theorem H5TimeSeriesReader.readAttribStr_full (file : H5File) {key value : Str}
    (h : file.attrs key = some (Attr.str (strncpy value kMaxStr)))
    (hnul : NUL ∉ value) (hlen : value.length = kMaxStr) :
    H5TimeSeriesReader.readAttribStr key file = .error Exn.Undefined := by
  have hbuf : strncpy value kMaxStr = value := by
    unfold strncpy
    rw [cstr_of_not_mem hnul, List.take_of_length_le (le_of_eq hlen), hlen]
    simp
  have htake : (strncpy value kMaxStr).take kMaxStr = value := by
    rw [hbuf, List.take_of_length_le (le_of_eq hlen)]
  have hcontains : value.contains NUL = false := by
    simpa using hnul
  simp only [H5TimeSeriesReader.readAttribStr, h, htake, hcontains]
  rfl

/-- C19: the string attribute written and read back, up to the bound `kMaxStr` = 1024.
For every string without a NUL character, written by the string `writeAttrib`
under a key not in use of an open file: the write goes through; when the string is
shorter than 1024 characters, the string `readAttrib` of that key returns exactly that
string; when it has exactly 1024 characters, the buffer holds no terminating NUL and
the string `readAttrib` runs past it (undefined behaviour) instead of returning the
string. -/
theorem writeAttrib_readAttrib_string (fs : FileSystem) (file key value : Str)
    (hopen : (fs file).isSome) (hfree : fs.attr file key = none) (hnul : NUL ∉ value) :
    (H5TimeSeriesWriter.writeAttribStr fs key value (some file)).2 = none ∧
    ∃ f, (H5TimeSeriesWriter.writeAttribStr fs key value (some file)).1 file = some f ∧
      (value.length < kMaxStr → H5TimeSeriesReader.readAttribStr key f = .ok value) ∧
      (value.length = kMaxStr →
        H5TimeSeriesReader.readAttribStr key f = .error Exn.Undefined) := by
  obtain ⟨a1, a2, -⟩ :=
    FileSystem.createAttribute_ok (v := Attr.str (strncpy value kMaxStr)) hopen hfree
  refine ⟨a1, ?_⟩
  unfold H5TimeSeriesWriter.writeAttribStr
  cases hf : (fs.createAttribute (some file) key (Attr.str (strncpy value kMaxStr))).1 file with
  | none => simp [FileSystem.attr, hf] at a2
  | some f =>
    have hattr : f.attrs key = some (Attr.str (strncpy value kMaxStr)) := by
      simpa [FileSystem.attr, hf] using a2
    refine ⟨f, rfl, ?_, ?_⟩
    · intro hlt
      have := H5TimeSeriesReader.readAttribStr_strncpy f hattr
        (by rw [cstr_of_not_mem hnul]; exact hlt)
      rw [cstr_of_not_mem hnul] at this
      exact this
    · intro heq
      exact H5TimeSeriesReader.readAttribStr_full f hattr hnul heq

set_option maxRecDepth 100000 in
/-- C19 at the bound: the string of 1024 characters `x`, written as the table name of
a new file, is not read back (the read is undefined behaviour); the string of 1023
characters is. -/
theorem writeAttrib_readAttrib_string_witness :
    ((FileSystem.createFile (fun _ => none) exFile) exFile).isSome ∧
    (FileSystem.createFile (fun _ => none) exFile).attr exFile kTableNameStr = none ∧
    NUL ∉ List.replicate 1024 'x' ∧ (List.replicate 1024 'x').length = kMaxStr ∧
    (List.replicate 1023 'x').length < kMaxStr ∧
    (∃ f, (H5TimeSeriesWriter.writeAttribStr (FileSystem.createFile (fun _ => none) exFile)
        kTableNameStr (List.replicate 1024 'x') (some exFile)).1 exFile = some f ∧
      H5TimeSeriesReader.readAttribStr kTableNameStr f = .error Exn.Undefined) ∧
    (∃ f, (H5TimeSeriesWriter.writeAttribStr (FileSystem.createFile (fun _ => none) exFile)
        kTableNameStr (List.replicate 1023 'x') (some exFile)).1 exFile = some f ∧
      H5TimeSeriesReader.readAttribStr kTableNameStr f = .ok (List.replicate 1023 'x')) :=
  ⟨by decide, by decide, by decide, by decide, by decide,
    (writeAttrib_readAttrib_string (FileSystem.createFile (fun _ => none) exFile) exFile
      kTableNameStr (List.replicate 1024 'x') (by decide) (by decide)
      (by decide)).2.imp (fun _ h => ⟨h.1, h.2.2 (by decide)⟩),
    (writeAttrib_readAttrib_string (FileSystem.createFile (fun _ => none) exFile) exFile
      kTableNameStr (List.replicate 1023 'x') (by decide) (by decide)
      (by decide)).2.imp (fun _ h => ⟨h.1, h.2.1 (by decide)⟩)⟩

/-! ## The names of all columns of a table -/

/-- The names of the columns of a table the three-argument constructor gives a writer
for are pairwise distinct as C strings, the time column included. -/
theorem H5TimeSeriesWriter.columns_distinct_of_ctor {fs : FileSystem}
    {fileName tableName : Str} {names : List Str} {w : H5TimeSeriesWriter}
    (h : (H5TimeSeriesWriter.ctor fs fileName tableName names).2 = .ok w) :
    (kTimeStr :: names.map cstr).Nodup := by
  obtain ⟨h1, h2, -⟩ := H5TimeSeriesWriter.creatable_of_ctor h
  exact List.nodup_cons.mpr ⟨h2, h1⟩

/-- C13: the schema invariant.  For every table the three-argument constructor creates
(it returns a writer: neither `DuplicateColumn` nor any other exception was raised), the
names of all its columns, `time` at ordinal 0 together with the value columns of the
caller at the ordinals 1 to N, are pairwise distinct, as the strings the caller gave and
as the C strings under which they are stored and which name the datasets; the file
holds exactly these names as the field names of the ordinals 0 to N.  And whenever the
constructor does not throw `DuplicateColumn`, whether the table is created or not,
the value-column names are pairwise distinct. -/
theorem schema_names_distinct (fs : FileSystem) (fileName tableName : Str)
    (names : List Str) (w : H5TimeSeriesWriter)
    (hctor : (H5TimeSeriesWriter.ctor fs fileName tableName names).2 = .ok w) :
    (kTimeStr :: names).Nodup ∧ (kTimeStr :: names.map cstr).Nodup ∧
    HoldsSchema (H5TimeSeriesWriter.ctor fs fileName tableName names).1 (cstr fileName)
      tableName names ∧
    (∀ (fs2 : FileSystem) (fileName2 tableName2 : Str) (names2 : List Str),
      (H5TimeSeriesWriter.ctor fs2 fileName2 tableName2 names2).2 ≠ .error Exn.DuplicateColumn →
      names2.Nodup) := by
  have hc := H5TimeSeriesWriter.creatable_of_ctor hctor
  have h1 := hc.1
  have h2 := hc.2.1
  obtain ⟨-, -, -, hschema⟩ := H5TimeSeriesWriter.ctor_spec fs fileName tableName hc
  refine ⟨List.nodup_cons.mpr ⟨?_, creatable_nodup hc⟩, List.nodup_cons.mpr ⟨h2, h1⟩,
    hschema, ?_⟩
  · intro hmem
    apply h2
    have := List.mem_map_of_mem cstr hmem
    rwa [cstr_kTimeStr] at this
  · intro fs2 fileName2 tableName2 names2 hne
    by_contra hdup
    apply hne
    simp [H5TimeSeriesWriter.ctor, H5TimeSeriesWriter.openFile,
      H5TimeSeriesWriter.openFileCalls_of_dup fs2 fileName2 tableName2 hdup]

/-- C13 at the example table: `time`, `x1`, ..., `x5` are pairwise distinct. -/
theorem schema_names_distinct_witness :
    (H5TimeSeriesWriter.ctor (fun _ => none) exFile exTable exNames).2 = .ok exWriter ∧
    (kTimeStr :: exNames).Nodup ∧ (kTimeStr :: exNames.map cstr).Nodup :=
  ⟨rfl, (schema_names_distinct (fun _ => none) exFile exTable exNames exWriter rfl).1,
    (schema_names_distinct (fun _ => none) exFile exTable exNames exWriter rfl).2.1⟩

/-! ## The cursor and the extents of a writer -/

/-- Every state reached from the state `Writing` by calls of `appendRow`, with any
number of values each, is a state `Writing`, of the rows that were accepted. -/
theorem H5TimeSeriesWriter.Writing.appendCalls {file : Str} {names : List Str}
    (hc : creatable names) (calls : List (Scalar × List Scalar)) :
    ∀ {fs : FileSystem} {w : H5TimeSeriesWriter} {rows : List (Scalar × List Scalar)},
      H5TimeSeriesWriter.Writing fs w file names rows →
      ∃ rows2, H5TimeSeriesWriter.Writing (H5TimeSeriesWriter.appendCalls fs w calls).1
        (H5TimeSeriesWriter.appendCalls fs w calls).2 file names rows2 := by
  induction calls with
  | nil => intro fs w rows W; exact ⟨rows, W⟩
  | cons call rest ih =>
    intro fs w rows W
    by_cases hlen : call.2.length = names.length
    · exact ih (W.appendRow hc call.1 hlen).2.1
    · have hne : call.2.length ≠ w.mNumCols - 1 := by rw [W.numCols]; omega
      have hstep : H5TimeSeriesWriter.appendRow fs w call.1 call.2 = ⟨fs, w, some Exn.BadWrite⟩ := by
        simp [H5TimeSeriesWriter.appendRow, W.flag, hne]
      simp only [H5TimeSeriesWriter.appendCalls, hstep]
      exact ih W

/-- In the state `Writing` every dataset of the table has the extent `mChunkBegin`. -/
theorem H5TimeSeriesWriter.Writing.extents {fs : FileSystem} {w : H5TimeSeriesWriter}
    {file : Str} {names : List Str} {rows : List (Scalar × List Scalar)}
    (W : H5TimeSeriesWriter.Writing fs w file names rows) :
    ∀ h ∈ w.mDset, ∃ ds, fs.dset h = some ds ∧ ds.data.length = w.mChunkBegin := by
  have hbegin : w.mChunkBegin ≤ rows.length := by have := W.cursor; omega
  intro h hmem
  rw [W.dsets] at hmem
  rcases List.mem_cons.mp hmem with h0 | h1
  · subst h0
    exact ⟨_, W.stored.time, by simp [timesOf_length]; omega⟩
  · obtain ⟨j, hget⟩ := List.mem_iff_get?.mp h1
    have hj : j < names.length := by
      obtain ⟨hlt, -⟩ := List.get?_eq_some.mp hget
      simpa [valueHandles] using hlt
    rw [valueHandles_get file names j hj] at hget
    simp only [Option.some.injEq] at hget
    subst hget
    exact ⟨_, W.stored.value j hj, by simp [columnOf_length]; omega⟩

/-- The loop over the value columns, each of extent `row`: every call of
`appendChunkToColumn` finds the extent `row`. -/
theorem H5TimeSeriesWriter.appendChunksExtents_spec (row ch_size : Nat) (hch : 1 ≤ ch_size) :
    ∀ (ds : List DataSetId) (bs : List (List Scalar)) (fs : FileSystem),
      ds.Nodup → bs.length = ds.length →
      (∀ d ∈ ds, ∃ x, fs.dset d = some x ∧ x.data.length = row) →
      H5TimeSeriesWriter.appendChunksExtents row ch_size fs ds bs ds.length
        = List.replicate ds.length (some row) := by
  intro ds
  induction ds with
  | nil => intro bs fs _ _ _; rfl
  | cons d ds ih =>
    intro bs fs hnd hlen hex
    cases bs with
    | nil => simp at hlen
    | cons b bs =>
      obtain ⟨x, hx, hxlen⟩ := hex d (by simp)
      obtain ⟨a1, -, a3⟩ := H5TimeSeriesWriter.appendChunkToColumn_spec b hx hxlen hch
      have hd : d ∉ ds := (List.nodup_cons.mp hnd).1
      cases hstep : H5TimeSeriesWriter.appendChunkToColumn fs d row b ch_size with
      | mk fs1 e1 =>
        rw [hstep] at a1 a3
        simp only at a1 a3
        subst a1
        simp only [List.length_cons, H5TimeSeriesWriter.appendChunksExtents, hstep, hx,
          Option.map_some', hxlen, List.replicate_succ, List.cons.injEq, true_and]
        apply ih bs fs1 (List.nodup_cons.mp hnd).2 (by simpa using hlen)
        intro d2 hd2
        obtain ⟨y, hy, hylen⟩ := hex d2 (by simp [hd2])
        refine ⟨y, ?_, hylen⟩
        rw [a3 d2 (by intro h; rw [h] at hd2; exact hd hd2)]
        exact hy

/-- One flush of a writer of the table `names` whose datasets all have the extent
`mChunkBegin`: every call of `appendChunkToColumn` finds the extent `mChunkBegin`, which
is the `row` it is passed. -/
theorem H5TimeSeriesWriter.flushChunkExtents_spec {fs : FileSystem} (w : H5TimeSeriesWriter)
    {file : Str} {names : List Str} (ch_size : Nat)
    (hc : creatable names) (hds : w.mDset = ⟨file, kTimeStr⟩ :: valueHandles file names)
    (hlen : w.mData.length = names.length) (hch : 1 ≤ ch_size)
    (hext : ∀ h ∈ w.mDset, ∃ ds, fs.dset h = some ds ∧ ds.data.length = w.mChunkBegin) :
    H5TimeSeriesWriter.flushChunkExtents fs w ch_size names.length
      = List.replicate w.mDset.length (some w.mChunkBegin) := by
  have hnotin := time_not_mem_valueHandles file hc
  have hvl : (valueHandles file names).length = names.length := by simp [valueHandles]
  obtain ⟨x, hx, hxlen⟩ := hext ⟨file, kTimeStr⟩ (by rw [hds]; simp)
  obtain ⟨a1, -, a3⟩ := H5TimeSeriesWriter.appendChunkToColumn_spec w.mTimeData hx hxlen hch
  cases hstep : H5TimeSeriesWriter.appendChunkToColumn fs ⟨file, kTimeStr⟩ w.mChunkBegin
      w.mTimeData ch_size with
  | mk fs1 e1 =>
    rw [hstep] at a1 a3
    simp only at a1 a3
    subst a1
    have key := H5TimeSeriesWriter.appendChunksExtents_spec w.mChunkBegin ch_size hch
      (valueHandles file names) w.mData fs1 (valueHandles_nodup file hc) (by rw [hlen, hvl])
      (by
        intro d hd
        obtain ⟨y, hy, hylen⟩ := hext d (by rw [hds]; simp [hd])
        refine ⟨y, ?_, hylen⟩
        rw [a3 d (by intro h; rw [h] at hd; exact hnotin hd)]
        exact hy)
    rw [hvl] at key
    simp only [H5TimeSeriesWriter.flushChunkExtents, hds, hstep, hx, Option.map_some', hxlen,
      key, List.length_cons, hvl, List.replicate_succ]

/-- The states reached from the three-argument constructor by calls of `appendRow` are
states `Writing` of a creatable table. -/
theorem H5TimeSeriesWriter.reached {fs : FileSystem} {fileName tableName : Str}
    {names : List Str} {w0 : H5TimeSeriesWriter}
    (hctor : (H5TimeSeriesWriter.ctor fs fileName tableName names).2 = .ok w0)
    (calls : List (Scalar × List Scalar)) :
    creatable names ∧
    ∃ rows, H5TimeSeriesWriter.Writing
      (H5TimeSeriesWriter.appendCalls (H5TimeSeriesWriter.ctor fs fileName tableName names).1
        w0 calls).1
      (H5TimeSeriesWriter.appendCalls (H5TimeSeriesWriter.ctor fs fileName tableName names).1
        w0 calls).2 (cstr fileName) names rows := by
  have hc := H5TimeSeriesWriter.creatable_of_ctor hctor
  obtain ⟨w, hw, W, -⟩ := H5TimeSeriesWriter.ctor_spec fs fileName tableName hc
  rw [hctor] at hw
  simp only [Except.ok.injEq] at hw
  subst hw
  exact ⟨hc, H5TimeSeriesWriter.Writing.appendCalls hc calls W⟩

/-- C16: the cursor of the writer.  In every state reached from the three-argument
constructor by any sequence of `appendRow` calls (with any number of values each), the
row count is `mChunkBegin + mChunkOffset`, `mChunkOffset` is below `kChunkSize` = 1024
and `mChunkBegin` is a multiple of `kChunkSize`.  A further `appendRow` with one value
per value column throws nothing and counts one row more; when it fills the buffer
(`mChunkOffset + 1 = kChunkSize`) it sets `mChunkOffset` to 0 and advances
`mChunkBegin` by exactly `kChunkSize`; otherwise it advances `mChunkOffset` by one and
leaves `mChunkBegin`. -/
theorem writer_cursor_invariant (fs : FileSystem) (fileName tableName : Str)
    (names : List Str) (w0 : H5TimeSeriesWriter)
    (hctor : (H5TimeSeriesWriter.ctor fs fileName tableName names).2 = .ok w0)
    (calls : List (Scalar × List Scalar)) (fs1 : FileSystem) (w1 : H5TimeSeriesWriter)
    (hreach : H5TimeSeriesWriter.appendCalls
      (H5TimeSeriesWriter.ctor fs fileName tableName names).1 w0 calls = (fs1, w1)) :
    (w1.mNumRows = w1.mChunkBegin + w1.mChunkOffset ∧ w1.mChunkOffset < kChunkSize ∧
      kChunkSize ∣ w1.mChunkBegin) ∧
    ∀ (time : Scalar) (vs : List Scalar), vs.length = names.length →
      (H5TimeSeriesWriter.appendRow fs1 w1 time vs).exn = none ∧
      (H5TimeSeriesWriter.appendRow fs1 w1 time vs).w.mNumRows = w1.mNumRows + 1 ∧
      (w1.mChunkOffset + 1 = kChunkSize →
        (H5TimeSeriesWriter.appendRow fs1 w1 time vs).w.mChunkOffset = 0 ∧
        (H5TimeSeriesWriter.appendRow fs1 w1 time vs).w.mChunkBegin
          = w1.mChunkBegin + kChunkSize) ∧
      (w1.mChunkOffset + 1 ≠ kChunkSize →
        (H5TimeSeriesWriter.appendRow fs1 w1 time vs).w.mChunkOffset = w1.mChunkOffset + 1 ∧
        (H5TimeSeriesWriter.appendRow fs1 w1 time vs).w.mChunkBegin = w1.mChunkBegin) := by
  obtain ⟨hc, rows, W⟩ := H5TimeSeriesWriter.reached hctor calls
  rw [hreach] at W
  simp only at W
  have c1 := W.numRows
  have c2 := W.cursor
  have c3 := W.offset
  have c4 := W.chunkBegin
  simp only [kChunkSize] at c3 c4 ⊢
  refine ⟨⟨by omega, c3, c4⟩, ?_⟩
  intro time vs hvs
  obtain ⟨a1, W2, -⟩ := W.appendRow hc time hvs
  have d1 := W2.numRows
  have d2 := W2.cursor
  have d3 := W2.offset
  have d4 := W2.chunkBegin
  simp only [kChunkSize, List.length_append, List.length_singleton] at d1 d2 d3 d4
  refine ⟨a1, by omega, ?_, ?_⟩
  · intro hfull; omega
  · intro hnot; omega

/-- C16 at the example table: after the three rows of the example and one call with a
wrong number of values, the cursor is at offset 3 of the chunk that begins at 0. -/
theorem writer_cursor_invariant_witness :
    (H5TimeSeriesWriter.ctor (fun _ => none) exFile exTable exNames).2 = .ok exWriter ∧
    (H5TimeSeriesWriter.appendCalls
      (H5TimeSeriesWriter.ctor (fun _ => none) exFile exTable exNames).1 exWriter
      (exRows ++ [(3, [1, 2])])).2.mChunkOffset = 3 ∧
    ((H5TimeSeriesWriter.appendCalls
      (H5TimeSeriesWriter.ctor (fun _ => none) exFile exTable exNames).1 exWriter
      (exRows ++ [(3, [1, 2])])).2.mNumRows
      = (H5TimeSeriesWriter.appendCalls
          (H5TimeSeriesWriter.ctor (fun _ => none) exFile exTable exNames).1 exWriter
          (exRows ++ [(3, [1, 2])])).2.mChunkBegin
        + (H5TimeSeriesWriter.appendCalls
          (H5TimeSeriesWriter.ctor (fun _ => none) exFile exTable exNames).1 exWriter
          (exRows ++ [(3, [1, 2])])).2.mChunkOffset ∧
      (H5TimeSeriesWriter.appendCalls
        (H5TimeSeriesWriter.ctor (fun _ => none) exFile exTable exNames).1 exWriter
        (exRows ++ [(3, [1, 2])])).2.mChunkOffset < kChunkSize ∧
      kChunkSize ∣ (H5TimeSeriesWriter.appendCalls
        (H5TimeSeriesWriter.ctor (fun _ => none) exFile exTable exNames).1 exWriter
        (exRows ++ [(3, [1, 2])])).2.mChunkBegin) :=
  ⟨rfl, by decide,
    (writer_cursor_invariant (fun _ => none) exFile exTable exNames exWriter rfl
      (exRows ++ [(3, [1, 2])]) _ _ rfl).1⟩

/-- One call of `appendChunkToColumn` on a dataset whose extent is the `row` it is
passed, with `ch_size` at least 1 and a buffer of at least `ch_size` elements: the
extend branch is taken, the dataset is extended to exactly `row + ch_size`, the
assertion `currsize > row + ch_size - 1` holds, nothing is thrown, and the dataset is
left with the extent `row + ch_size`. -/
theorem H5TimeSeriesWriter.appendChunkToColumn_extent {fs : FileSystem} {column : DataSetId}
    {ds : DataSet} {row : Nat} (ptr : List Scalar) {ch_size : Nat}
    (hd : fs.dset column = some ds) (hrow : ds.data.length = row) (hch : 1 ≤ ch_size)
    (hptr : ch_size ≤ ptr.length) :
    ds.data.length ≤ row + ch_size - 1 ∧
    (ds.extend (ds.data.length + ch_size)).data.length = row + ch_size ∧
    (ds.extend (ds.data.length + ch_size)).data.length > row + ch_size - 1 ∧
    (H5TimeSeriesWriter.appendChunkToColumn fs column row ptr ch_size).2 = none ∧
    ∃ ds2, (H5TimeSeriesWriter.appendChunkToColumn fs column row ptr ch_size).1.dset column
      = some ds2 ∧ ds2.data.length = row + ch_size := by
  obtain ⟨a1, a2, -⟩ := H5TimeSeriesWriter.appendChunkToColumn_spec ptr hd hrow hch
  have hext : (ds.extend (ds.data.length + ch_size)).data.length = row + ch_size := by
    simp [DataSet.extend, hrow]
  refine ⟨by omega, hext, by omega, a1, _, a2, ?_⟩
  simp only [List.length_append, List.length_take, hrow]
  omega

/-- C20: the extents of the datasets of a writer.  In every state reached from the
three-argument constructor by any sequence of `appendRow` calls, every dataset of the
table has the extent `mChunkBegin`.  Hence every call of `appendChunkToColumn` made by
the flush of a further `appendRow` (with `ch_size = kChunkSize`) and by the flush of
`reset()` (with `ch_size = mChunkOffset`, not zero) has `ch_size` at least 1 and finds
the extent equal to the `row` it is passed; such a call takes the extend branch,
extends the dataset to exactly `row + ch_size`, satisfies the assertion and throws
nothing.  After the flush of `appendRow` every dataset has the extent
`mChunkBegin + kChunkSize`; after `reset()`, which throws nothing, every dataset has
the extent that was written as the attribute `NROWS`, the row count. -/
theorem extent_invariant (fs : FileSystem) (fileName tableName : Str)
    (names : List Str) (w0 : H5TimeSeriesWriter)
    (hctor : (H5TimeSeriesWriter.ctor fs fileName tableName names).2 = .ok w0)
    (calls : List (Scalar × List Scalar)) (fs1 : FileSystem) (w1 : H5TimeSeriesWriter)
    (hreach : H5TimeSeriesWriter.appendCalls
      (H5TimeSeriesWriter.ctor fs fileName tableName names).1 w0 calls = (fs1, w1)) :
    (∀ h ∈ w1.mDset, ∃ ds, fs1.dset h = some ds ∧ ds.data.length = w1.mChunkBegin) ∧
    (∀ (time : Scalar) (vs : List Scalar), vs.length = names.length →
      w1.mChunkOffset + 1 = kChunkSize →
      1 ≤ kChunkSize ∧
      H5TimeSeriesWriter.flushChunkExtents fs1 (w1.storeRow time vs) kChunkSize vs.length
        = List.replicate w1.mDset.length (some (w1.storeRow time vs).mChunkBegin) ∧
      (∀ b ∈ (w1.storeRow time vs).mTimeData :: (w1.storeRow time vs).mData,
        kChunkSize ≤ b.length) ∧
      ∀ h ∈ w1.mDset, ∃ ds,
        (H5TimeSeriesWriter.appendRow fs1 w1 time vs).fs.dset h = some ds ∧
        ds.data.length = w1.mChunkBegin + kChunkSize) ∧
    (w1.mChunkOffset ≠ 0 →
      1 ≤ w1.mChunkOffset ∧
      H5TimeSeriesWriter.flushChunkExtents
          (H5TimeSeriesWriter.writeAttribHsize
            (H5TimeSeriesWriter.writeAttribHsize fs1 NROWS_STR w1.mNumRows w1.mFileId).1
            kNcolumnsStr w1.mNumCols w1.mFileId).1
          w1 w1.mChunkOffset (w1.mNumCols - 1)
        = List.replicate w1.mDset.length (some w1.mChunkBegin) ∧
      (∀ b ∈ w1.mTimeData :: w1.mData, w1.mChunkOffset ≤ b.length)) ∧
    (∀ (fsx : FileSystem) (column : DataSetId) (ds : DataSet) (row : Nat) (ptr : List Scalar)
        (ch_size : Nat), fsx.dset column = some ds → ds.data.length = row → 1 ≤ ch_size →
        ch_size ≤ ptr.length →
      ds.data.length ≤ row + ch_size - 1 ∧
      (ds.extend (ds.data.length + ch_size)).data.length = row + ch_size ∧
      (ds.extend (ds.data.length + ch_size)).data.length > row + ch_size - 1 ∧
      (H5TimeSeriesWriter.appendChunkToColumn fsx column row ptr ch_size).2 = none ∧
      ∃ ds2, (H5TimeSeriesWriter.appendChunkToColumn fsx column row ptr ch_size).1.dset column
        = some ds2 ∧ ds2.data.length = row + ch_size) ∧
    ((H5TimeSeriesWriter.reset fs1 w1).exn = none ∧
      (H5TimeSeriesWriter.reset fs1 w1).fs.attr (cstr fileName) NROWS_STR
        = some (Attr.hsize w1.mNumRows) ∧
      ∀ h ∈ w1.mDset, ∃ ds, (H5TimeSeriesWriter.reset fs1 w1).fs.dset h = some ds ∧
        ds.data.length = w1.mNumRows) := by
  obtain ⟨hc, rows, W⟩ := H5TimeSeriesWriter.reached hctor calls
  rw [hreach] at W
  simp only at W
  have hbufs : ∀ b ∈ w1.mData, b.length = kChunkSize := by
    intro b hb
    obtain ⟨j, hj⟩ := List.mem_iff_get?.mp hb
    exact (W.dataBuf j b hj).1
  refine ⟨W.extents, ?_, ?_, ?_, ?_⟩
  · intro time vs hvs hfull
    obtain ⟨a1, W2, -⟩ := W.appendRow hc time hvs
    have hlen2 : (w1.storeRow time vs).mData.length = names.length := by
      show (H5TimeSeriesWriter.storeValues w1.mData w1.mChunkOffset vs).length = names.length
      rw [H5TimeSeriesWriter.storeValues_length _ _ _ (by rw [hvs, W.dataLen]), W.dataLen]
    refine ⟨by decide, ?_, ?_, ?_⟩
    · rw [hvs]
      exact H5TimeSeriesWriter.flushChunkExtents_spec (w1.storeRow time vs) kChunkSize hc
        W.dsets hlen2 (by decide) W.extents
    · intro b hb
      rcases List.mem_cons.mp hb with h0 | h1
      · rw [h0]
        show kChunkSize ≤ (w1.mTimeData.set w1.mChunkOffset time).length
        rw [List.length_set, W.timeLen]
      · obtain ⟨j, hj⟩ := List.mem_iff_get?.mp h1
        obtain ⟨b0, hb0, hbeq⟩ := H5TimeSeriesWriter.storeValues_get w1.mChunkOffset w1.mData vs
          j b (by rw [hvs, W.dataLen]) hj
        rw [hbeq, List.length_set, (W.dataBuf j b0 hb0).1]
    · have hd : (H5TimeSeriesWriter.appendRow fs1 w1 time vs).w.mDset = w1.mDset := by
        rw [W2.dsets, W.dsets]
      have d2 := W2.cursor
      have d3 := W2.offset
      have d4 := W2.chunkBegin
      have c2 := W.cursor
      have c4 := W.chunkBegin
      have hb : (H5TimeSeriesWriter.appendRow fs1 w1 time vs).w.mChunkBegin
          = w1.mChunkBegin + kChunkSize := by
        simp only [kChunkSize, List.length_append, List.length_singleton] at d2 d3 d4 c2 c4 hfull ⊢
        omega
      intro h hmem
      obtain ⟨ds, e1, e2⟩ := W2.extents h (by rw [hd]; exact hmem)
      exact ⟨ds, e1, by rw [e2, hb]⟩
  · intro hoff
    have hkey : kNcolumnsStr ≠ NROWS_STR := by decide
    obtain ⟨-, -, a3, a4, a5⟩ :=
      FileSystem.createAttribute_ok (v := Attr.hsize w1.mNumRows) W.isOpen W.noRows
    obtain ⟨-, -, -, b4, -⟩ :=
      @FileSystem.createAttribute_ok
        (fs1.createAttribute (some (cstr fileName)) NROWS_STR (Attr.hsize w1.mNumRows)).1
        (cstr fileName) kNcolumnsStr (Attr.hsize w1.mNumCols)
        (by rw [a5]; exact W.isOpen)
        (by rw [a3 (cstr fileName) kNcolumnsStr (by simp [hkey])]; exact W.noCols)
    refine ⟨by omega, ?_, ?_⟩
    · have hn : w1.mNumCols - 1 = names.length := by rw [W.numCols]; omega
      rw [hn]
      apply H5TimeSeriesWriter.flushChunkExtents_spec w1 w1.mChunkOffset hc W.dsets W.dataLen
        (by omega)
      intro h hmem
      obtain ⟨ds, e1, e2⟩ := W.extents h hmem
      refine ⟨ds, ?_, e2⟩
      simp only [H5TimeSeriesWriter.writeAttribHsize, W.fileId]
      rw [b4, a4]
      exact e1
    · have c3 := W.offset
      intro b hb
      rcases List.mem_cons.mp hb with h0 | h1
      · rw [h0, W.timeLen]; omega
      · rw [hbufs b h1]; omega
  · intro fsx column ds row ptr ch_size hd hrow hch hptr
    exact H5TimeSeriesWriter.appendChunkToColumn_extent ptr hd hrow hch hptr
  · obtain ⟨r1, r2, r3, -⟩ := W.reset hc
    refine ⟨r1, by rw [r3, W.numRows], ?_⟩
    intro h hmem
    rw [W.dsets] at hmem
    rcases List.mem_cons.mp hmem with h0 | h1
    · subst h0
      exact ⟨_, r2.time, by simp [timesOf_length, W.numRows]⟩
    · obtain ⟨j, hget⟩ := List.mem_iff_get?.mp h1
      have hj : j < names.length := by
        obtain ⟨hlt, -⟩ := List.get?_eq_some.mp hget
        simpa [valueHandles] using hlt
      rw [valueHandles_get (cstr fileName) names j hj] at hget
      simp only [Option.some.injEq] at hget
      subst hget
      exact ⟨_, r2.value j hj, by simp [columnOf_length, W.numRows]⟩

/-- C20 at the example table with its three rows appended: the chunk begins at 0, every
dataset is empty, the flush of `reset()` finds the extent 0 in each of the six datasets,
and after `reset()` every dataset has the extent 3, the row count. -/
theorem extent_invariant_witness :
    (H5TimeSeriesWriter.ctor (fun _ => none) exFile exTable exNames).2 = .ok exWriter ∧
    exWritten.2.mChunkBegin = 0 ∧ exWritten.2.mChunkOffset = 3 ∧ exWritten.2.mNumRows = 3 ∧
    (∀ h ∈ exWritten.2.mDset, ∃ ds, exWritten.1.dset h = some ds ∧
      ds.data.length = exWritten.2.mChunkBegin) ∧
    ((H5TimeSeriesWriter.reset exWritten.1 exWritten.2).exn = none ∧
      (H5TimeSeriesWriter.reset exWritten.1 exWritten.2).fs.attr (cstr exFile) NROWS_STR
        = some (Attr.hsize exWritten.2.mNumRows) ∧
      ∀ h ∈ exWritten.2.mDset, ∃ ds,
        (H5TimeSeriesWriter.reset exWritten.1 exWritten.2).fs.dset h = some ds ∧
        ds.data.length = exWritten.2.mNumRows) :=
  have h := extent_invariant (fun _ => none) exFile exTable exNames exWriter rfl exRows
    exWritten.1 exWritten.2 rfl
  ⟨rfl, by decide, by decide, by decide, h.1, h.2.2.2.2⟩

/-! ## The subscription list -/

/-- What `doSubscr` keeps, for every reader and every ordinal: the names of the declared
columns, the ordinals that were subscribed, and the state of the subscription list;
when it throws nothing the ordinal is subscribed, and when it throws the reader is as
it was. -/
theorem H5TimeSeriesReader.doSubscr_frame (r : H5TimeSeriesReader) (i : Nat) :
    (r.doSubscr i).r.nonTimeColumnNames = r.nonTimeColumnNames ∧
    (∀ k ∈ r.mSubscrList, k ∈ (r.doSubscr i).r.mSubscrList) ∧
    ((r.doSubscr i).exn = none → i ∈ (r.doSubscr i).r.mSubscrList) ∧
    (∀ e, (r.doSubscr i).exn = some e → (r.doSubscr i).r = r) ∧
    (r.SubscrOk → (r.doSubscr i).r.SubscrOk) := by
  by_cases hmem : i ∈ r.mSubscrList
  · rw [H5TimeSeriesReader.doSubscr_of_mem hmem]
    exact ⟨rfl, fun k hk => hk, fun _ => hmem, fun _ _ => rfl, fun h => h⟩
  · unfold H5TimeSeriesReader.doSubscr
    simp only [hmem, if_false]
    cases hget : r.mColumn.get? i with
    | none => exact ⟨rfl, fun k hk => hk, by simp, fun _ _ => rfl, fun h => h⟩
    | some c =>
      simp only
      cases hopen : r.mFileId.openDataSet c.mName with
      | error e => exact ⟨rfl, fun k hk => hk, by simp, fun _ _ => rfl, fun h => h⟩
      | ok ds =>
        have hnames : (r.mColumn.set i (c.setDset ds)).map (fun column => column.mName)
            = r.mColumn.map (fun column => column.mName) := by
          rw [List.map_set]
          exact set_of_get? _ i _ (by rw [List.get?_eq_getElem?, List.getElem?_map, ← List.get?_eq_getElem?, hget]; rfl)
        have hi : i < r.mColumn.length := (List.get?_eq_some.mp hget).1
        refine ⟨hnames, fun k hk => by simp [hk], fun _ => by simp, by simp, ?_⟩
        rintro ⟨h1, h2⟩
        refine ⟨?_, ?_⟩
        · show (r.mSubscrList ++ [i]).Nodup
          rw [List.nodup_append]
          exact ⟨h1, List.nodup_singleton i, by
            intro a ha hb
            rw [List.mem_singleton] at hb
            subst hb
            exact hmem ha⟩
        · intro k hk
          have hk2 : k ∈ r.mSubscrList ++ [i] := hk
          show k < ((r.mColumn.set i (c.setDset ds)).map (fun column => column.mName)).length
          rw [hnames]
          rcases List.mem_append.mp hk2 with h | h
          · exact h2 k h
          · rw [List.mem_singleton] at h
            subst h
            simpa using hi

/-- What `subscribe` keeps, for every reader and every list of names. -/
theorem H5TimeSeriesReader.subscribe_frame (names : List Str) :
    ∀ (r : H5TimeSeriesReader),
      (r.subscribe names).r.nonTimeColumnNames = r.nonTimeColumnNames ∧
      (∀ k ∈ r.mSubscrList, k ∈ (r.subscribe names).r.mSubscrList) ∧
      (r.SubscrOk → (r.subscribe names).r.SubscrOk) := by
  induction names with
  | nil => intro r; exact ⟨rfl, fun k hk => hk, fun h => h⟩
  | cons n rest ih =>
    intro r
    unfold H5TimeSeriesReader.subscribe
    by_cases ht : n = kTimeStr
    · simp only [ht, if_true]
      exact ⟨trivial, fun k hk => hk, fun h => h⟩
    · simp only [ht, if_false]
      by_cases hidx : r.mColumn.findIdx (fun c => decide (n = c.mName)) = r.mColumn.length
      · simp only [hidx, if_true]
        exact ⟨trivial, fun k hk => hk, fun h => h⟩
      · simp only [hidx, if_false]
        obtain ⟨a1, a2, -, -, a5⟩ :=
          H5TimeSeriesReader.doSubscr_frame r (r.mColumn.findIdx (fun c => decide (n = c.mName)))
        cases hstep : r.doSubscr (r.mColumn.findIdx (fun c => decide (n = c.mName))) with
        | mk r1 e1 =>
          rw [hstep] at a1 a2 a5
          simp only at a1 a2 a5
          cases e1 with
          | some e => exact ⟨a1, a2, a5⟩
          | none =>
            obtain ⟨b1, b2, b3⟩ := ih r1
            exact ⟨b1.trans a1, fun k hk => b2 k (a2 k hk), fun h => b3 (a5 h)⟩

/-- What the loop of `subscribeAll` keeps. -/
theorem H5TimeSeriesReader.subscribeFrom_frame (n : Nat) :
    ∀ (r : H5TimeSeriesReader) (i : Nat),
      (r.subscribeFrom i n).r.nonTimeColumnNames = r.nonTimeColumnNames ∧
      (r.SubscrOk → (r.subscribeFrom i n).r.SubscrOk) := by
  induction n with
  | zero => intro r i; exact ⟨rfl, fun h => h⟩
  | succ n ih =>
    intro r i
    unfold H5TimeSeriesReader.subscribeFrom
    obtain ⟨a1, -, -, -, a5⟩ := H5TimeSeriesReader.doSubscr_frame r i
    cases hstep : r.doSubscr i with
    | mk r1 e1 =>
      rw [hstep] at a1 a5
      simp only at a1 a5
      cases e1 with
      | some e => exact ⟨a1, a5⟩
      | none =>
        obtain ⟨b1, b3⟩ := ih r1 (i + 1)
        exact ⟨b1.trans a1, fun h => b3 (a5 h)⟩

/-- The loop of `readRow` keeps the number of columns. -/
theorem H5TimeSeriesReader.readValues_length (index : Nat) (list : List Nat) :
    ∀ (cols : List Column) (vals : List Scalar),
      (H5TimeSeriesReader.readValues index cols list vals).1.1.length = cols.length := by
  induction list with
  | nil => intro cols vals; rfl
  | cons i rest ih =>
    intro cols vals
    unfold H5TimeSeriesReader.readValues
    cases hget : cols.get? i with
    | none => rfl
    | some c =>
      simp only
      cases hv : c.getValue index with
      | mk c1 res =>
        cases res with
        | error e => simp
        | ok v =>
          simp only
          rw [ih]; simp

/-- The member `readRow` keeps the subscription list and the number of columns. -/
theorem H5TimeSeriesReader.readRow_frame (r : H5TimeSeriesReader) (index : Nat) (time : Scalar)
    (nonTimeValues : List Scalar) :
    (r.readRow index time nonTimeValues).r.mSubscrList = r.mSubscrList ∧
    (r.readRow index time nonTimeValues).r.mColumn.length = r.mColumn.length := by
  unfold H5TimeSeriesReader.readRow
  by_cases hge : index ≥ r.mNumRows
  · simp only [hge, if_true]; exact ⟨trivial, trivial⟩
  · simp only [hge, if_false]
    cases ht : r.mTimeColumn.getValue index with
    | mk tc res =>
      cases res with
      | error e => exact ⟨rfl, rfl⟩
      | ok t =>
        simp only
        have hlen := H5TimeSeriesReader.readValues_length index r.mSubscrList r.mColumn []
        cases hv : H5TimeSeriesReader.readValues index r.mColumn r.mSubscrList [] with
        | mk cv e =>
          obtain ⟨cols, vals⟩ := cv
          rw [hv] at hlen
          cases e with
          | some e => exact ⟨rfl, hlen⟩
          | none => exact ⟨rfl, hlen⟩

/-- Every state a reader can reach has a subscription list without repeats that holds
only positions of declared value columns. -/
theorem H5TimeSeriesReader.Reachable.subscrOk {fs : FileSystem} {r : H5TimeSeriesReader}
    (h : H5TimeSeriesReader.Reachable fs r) : r.SubscrOk := by
  induction h with
  | opened fileName r hctor =>
    have hlist : r.mSubscrList = [] := by
      revert hctor
      unfold H5TimeSeriesReader.ctor
      cases fs (cstr fileName) with
      | none => simp
      | some file =>
        simp only
        cases H5TimeSeriesReader.readAttribStr kTableNameStr file with
        | error e => simp
        | ok tn =>
          simp only
          cases H5TimeSeriesReader.readAttribHsize NROWS_STR file with
          | error e => simp
          | ok nr =>
            simp only
            cases H5TimeSeriesReader.readAttribHsize kNcolumnsStr file with
            | error e => simp
            | ok nc =>
              simp only
              cases H5TimeSeriesReader.readAttribStr (getFieldName 0) file with
              | error e => simp
              | ok name =>
                simp only
                split_ifs
                · simp
                · cases file.openDataSet name with
                  | error e => simp
                  | ok ds =>
                    simp only
                    cases H5TimeSeriesReader.readColumns file 1 (nc - 1) [] with
                    | error e => simp
                    | ok cols =>
                      simp only [Except.ok.injEq]
                      intro h; rw [← h]
    exact ⟨by rw [hlist]; exact List.nodup_nil, by rw [hlist]; simp⟩
  | subscribed r names _ ih => exact (H5TimeSeriesReader.subscribe_frame names r).2.2 ih
  | subscribedAll r _ ih =>
    exact (H5TimeSeriesReader.subscribeFrom_frame r.mColumn.length r 0).2 ih
  | read r index time vals _ ih =>
    obtain ⟨a1, a2⟩ := H5TimeSeriesReader.readRow_frame r index time vals
    refine ⟨by rw [a1]; exact ih.1, ?_⟩
    intro i hi
    rw [a1] at hi
    have := ih.2 i hi
    simpa [H5TimeSeriesReader.nonTimeColumnNames, a2] using this

theorem findIdx_names (n : Str) : ∀ (cols cols2 : List Column),
    cols.map (fun column => column.mName) = cols2.map (fun column => column.mName) →
    cols.findIdx (fun c => decide (n = c.mName)) = cols2.findIdx (fun c => decide (n = c.mName)) := by
  intro cols
  induction cols with
  | nil =>
    intro cols2 h
    cases cols2 with
    | nil => rfl
    | cons c2 t2 => simp at h
  | cons c t ih =>
    intro cols2 h
    cases cols2 with
    | nil => simp at h
    | cons c2 t2 =>
      simp only [List.map_cons, List.cons.injEq] at h
      rw [List.findIdx_cons, List.findIdx_cons, h.1, ih t2 h.2]

/-- Readers with the same declared names give every name the same ordinal. -/
theorem H5TimeSeriesReader.ordinals_names {r r2 : H5TimeSeriesReader}
    (h : r2.nonTimeColumnNames = r.nonTimeColumnNames) (n : Str) :
    r2.mColumn.findIdx (fun c => decide (n = c.mName))
      = r.mColumn.findIdx (fun c => decide (n = c.mName)) ∧
    r2.mColumn.length = r.mColumn.length := by
  refine ⟨findIdx_names n _ _ h, ?_⟩
  have := congrArg List.length h
  simpa [H5TimeSeriesReader.nonTimeColumnNames] using this

/-- The member `subscribe` called again with the list it was just called with: the reader
is left as the first call left it, and the second call throws what the first threw. -/
theorem H5TimeSeriesReader.subscribe_again (names : List Str) :
    ∀ (r : H5TimeSeriesReader), (r.subscribe names).r.subscribe names = r.subscribe names := by
  induction names with
  | nil => intro r; rfl
  | cons n rest ih =>
    intro r
    by_cases ht : n = kTimeStr
    · have hres : r.subscribe (n :: rest) = ⟨r, some Exn.BadSubscription⟩ := by
        simp [H5TimeSeriesReader.subscribe, ht]
      rw [hres]
      exact hres
    · by_cases hidx : r.mColumn.findIdx (fun c => decide (n = c.mName)) = r.mColumn.length
      · have hres : r.subscribe (n :: rest) = ⟨r, some Exn.BadSubscription⟩ := by
          simp [H5TimeSeriesReader.subscribe, ht, hidx]
        rw [hres]
        exact hres
      · obtain ⟨a1, -, a3, a4, -⟩ :=
          H5TimeSeriesReader.doSubscr_frame r (r.mColumn.findIdx (fun c => decide (n = c.mName)))
        cases hstep : r.doSubscr (r.mColumn.findIdx (fun c => decide (n = c.mName))) with
        | mk r1 e1 =>
          rw [hstep] at a1 a3 a4
          simp only at a1 a3 a4
          cases e1 with
          | some e =>
            have hr1 : r1 = r := a4 e rfl
            subst hr1
            have hres : r1.subscribe (n :: rest) = ⟨r1, some e⟩ := by
              simp [H5TimeSeriesReader.subscribe, ht, hidx, hstep]
            rw [hres]
            exact hres
          | none =>
            have hres : r.subscribe (n :: rest) = r1.subscribe rest := by
              simp [H5TimeSeriesReader.subscribe, ht, hidx, hstep]
            rw [hres]
            obtain ⟨b1, b2, -⟩ := H5TimeSeriesReader.subscribe_frame rest r1
            obtain ⟨c1, c2⟩ := H5TimeSeriesReader.ordinals_names (b1.trans a1) n
            have hmem : r.mColumn.findIdx (fun c => decide (n = c.mName))
                ∈ (r1.subscribe rest).r.mSubscrList := b2 _ (a3 rfl)
            have hdo := H5TimeSeriesReader.doSubscr_of_mem hmem
            have h2 : (r1.subscribe rest).r.subscribe (n :: rest)
                = (r1.subscribe rest).r.subscribe rest := by
              simp [H5TimeSeriesReader.subscribe, ht, c1, c2, hidx, hdo]
            rw [h2]
            exact ih r1

/-- C11: `subscribe` is idempotent.  For every reader: `doSubscr` at an ordinal of the
subscription list leaves the reader as it is (no handle is opened, the list is
unchanged), and so does `subscribe` of the name of a declared column whose ordinal is in
the list; for every list of names, `subscribe(xs)` after `subscribe(xs)` leaves the
reader that the first call left, and for names of declared value columns on a
consistent reader neither call throws.  In every state a reader can reach, the
subscription list holds no ordinal twice and only ordinals of declared value
columns. -/
theorem subscribe_idempotent (r : H5TimeSeriesReader) (xs : List Str) :
    (∀ i ∈ r.mSubscrList, r.doSubscr i = ⟨r, none⟩) ∧
    (∀ name, name ≠ kTimeStr → name ∈ r.nonTimeColumnNames →
      r.mColumn.findIdx (fun c => decide (name = c.mName)) ∈ r.mSubscrList →
      r.subscribe [name] = ⟨r, none⟩) ∧
    (r.subscribe xs).r.subscribe xs = r.subscribe xs ∧
    (r.Consistent → (∀ n ∈ xs, n ≠ kTimeStr ∧ n ∈ r.nonTimeColumnNames) →
      (r.subscribe xs).exn = none ∧
      (r.subscribe xs).r.subscribe xs = ⟨(r.subscribe xs).r, none⟩) ∧
    (∀ fs, H5TimeSeriesReader.Reachable fs r →
      r.mSubscrList.Nodup ∧ ∀ i ∈ r.mSubscrList, i < r.nonTimeColumnNames.length) := by
  refine ⟨fun i hi => H5TimeSeriesReader.doSubscr_of_mem hi, ?_,
    H5TimeSeriesReader.subscribe_again xs r, ?_, fun fs h => h.subscrOk⟩
  · intro name ht hname hmem
    have hlt := (H5TimeSeriesReader.findIdx_lt_iff r name).mpr hname
    simp [H5TimeSeriesReader.subscribe, ht, Nat.ne_of_lt hlt,
      H5TimeSeriesReader.doSubscr_of_mem hmem]
  · intro hr hx
    have h1 := (H5TimeSeriesReader.Consistent.subscribe xs hr hx).1
    refine ⟨h1, ?_⟩
    rw [H5TimeSeriesReader.subscribe_again xs r]
    cases hres : r.subscribe xs with
    | mk r1 e1 =>
      rw [hres] at h1
      simp only at h1
      rw [h1]

/-- C11 at the reader of the example table: `subscribe(["x1", "x3"])` twice leaves the
subscription list of one call, the ordinals 0 and 2. -/
theorem subscribe_idempotent_witness :
    H5TimeSeriesReader.Reachable exFs exReader ∧
    (exReader.subscribe ["x1".toList, "x3".toList]).r.mSubscrList = [0, 2] ∧
    ((exReader.subscribe ["x1".toList, "x3".toList]).r.subscribe
      ["x1".toList, "x3".toList]).r.mSubscrList = [0, 2] ∧
    ((exReader.subscribe ["x1".toList, "x3".toList]).r.subscribe ["x1".toList, "x3".toList])
      = exReader.subscribe ["x1".toList, "x3".toList] :=
  ⟨H5TimeSeriesReader.Reachable.opened exFile exReader exReader_ctor, by decide, by decide,
    (subscribe_idempotent exReader ["x1".toList, "x3".toList]).2.2.1⟩

/-! ## The order of the names of `subscribe` -/

theorem mem_foldl_subscrAdd (ords : List Nat) : ∀ (l : List Nat) (k : Nat),
    k ∈ ords.foldl subscrAdd l ↔ k ∈ l ∨ k ∈ ords := by
  induction ords with
  | nil => intro l k; simp
  | cons i t ih =>
    intro l k
    rw [List.foldl_cons, ih]
    unfold subscrAdd
    by_cases hi : i ∈ l
    · simp only [hi, if_true, List.mem_cons]
      constructor
      · rintro (h | h)
        · exact Or.inl h
        · exact Or.inr (Or.inr h)
      · rintro (h | h | h)
        · exact Or.inl h
        · exact Or.inl (h ▸ hi)
        · exact Or.inr h
    · simp only [hi, if_false, List.mem_append, List.mem_singleton, List.mem_cons]
      tauto

theorem nodup_foldl_subscrAdd (ords : List Nat) : ∀ (l : List Nat),
    l.Nodup → (ords.foldl subscrAdd l).Nodup := by
  induction ords with
  | nil => intro l h; exact h
  | cons i t ih =>
    intro l h
    rw [List.foldl_cons]
    apply ih
    unfold subscrAdd
    by_cases hi : i ∈ l
    · simpa [hi] using h
    · simp only [hi, if_false]
      rw [List.nodup_append]
      exact ⟨h, List.nodup_singleton i, by
        intro a ha hb
        rw [List.mem_singleton] at hb
        subst hb
        exact hi ha⟩

/-- The state `doSubscr` leaves when it throws nothing: the ordinal is added to the
subscription list unless the list holds it, in which case nothing changes; otherwise the
handle of that column is set; every other field of the reader is as it was. -/
theorem H5TimeSeriesReader.doSubscr_state (r : H5TimeSeriesReader) (i : Nat)
    (h : (r.doSubscr i).exn = none) :
    (r.doSubscr i).r.mSubscrList = subscrAdd r.mSubscrList i ∧
    (∀ k, (r.doSubscr i).r.mColumn.get? k
      = (r.mColumn.get? k).map
          (fun c => if k = i ∧ k ∉ r.mSubscrList then r.withDset c else c)) ∧
    (r.doSubscr i).r
      = { r with mColumn := (r.doSubscr i).r.mColumn,
                 mSubscrList := (r.doSubscr i).r.mSubscrList } := by
  by_cases hmem : i ∈ r.mSubscrList
  · rw [H5TimeSeriesReader.doSubscr_of_mem hmem]
    refine ⟨by simp [subscrAdd, hmem], ?_, rfl⟩
    intro k
    cases hk : r.mColumn.get? k with
    | none => rfl
    | some c =>
      have : ¬ (k = i ∧ k ∉ r.mSubscrList) := fun hh => hh.2 (hh.1 ▸ hmem)
      simp [this]
  · revert h
    unfold H5TimeSeriesReader.doSubscr
    simp only [hmem, if_false]
    cases hget : r.mColumn.get? i with
    | none => simp
    | some c =>
      simp only
      cases hopen : r.mFileId.openDataSet c.mName with
      | error e => simp
      | ok ds =>
        intro _
        refine ⟨by simp [subscrAdd, hmem], ?_, rfl⟩
        intro k
        show (r.mColumn.set i (c.setDset ds)).get? k = _
        by_cases hki : k = i
        · subst hki
          have hlt : k < r.mColumn.length := (List.get?_eq_some.mp hget).1
          rw [hget]
          simp only [List.get?_eq_getElem?, List.getElem?_set_self hlt, Option.map_some',
            hmem, not_false_eq_true, and_self, if_true, H5TimeSeriesReader.withDset, hopen]
        · have hne : i ≠ k := fun hh => hki hh.symm
          simp only [List.get?_eq_getElem?, List.getElem?_set_ne hne]
          cases r.mColumn[k]? with
          | none => rfl
          | some c2 => simp [hki]

/-- The state `subscribe` leaves when it throws nothing.  The subscription list is the
list the reader had, with the ordinal of each name added at the end, in the order of
the names, unless the list holds it; the columns whose handle is set anew are those of
the ordinals of the names that were not subscribed; every other field of the reader is
as it was. -/
theorem H5TimeSeriesReader.subscribe_state (names : List Str) :
    ∀ (r : H5TimeSeriesReader), (r.subscribe names).exn = none →
      (r.subscribe names).r.mSubscrList = (r.ordinals names).foldl subscrAdd r.mSubscrList ∧
      (∀ k, (r.subscribe names).r.mColumn.get? k
        = (r.mColumn.get? k).map
            (fun c => if k ∈ r.ordinals names ∧ k ∉ r.mSubscrList then r.withDset c else c)) ∧
      (r.subscribe names).r
        = { r with mColumn := (r.subscribe names).r.mColumn,
                   mSubscrList := (r.subscribe names).r.mSubscrList } := by
  induction names with
  | nil =>
    intro r _
    refine ⟨rfl, ?_, rfl⟩
    intro k
    show r.mColumn.get? k = (r.mColumn.get? k).map _
    generalize r.mColumn.get? k = o
    cases o with
    | none => rfl
    | some c => simp [H5TimeSeriesReader.ordinals]
  | cons n rest ih =>
    intro r h
    by_cases ht : n = kTimeStr
    · simp [H5TimeSeriesReader.subscribe, ht] at h
    · by_cases hidx : r.mColumn.findIdx (fun c => decide (n = c.mName)) = r.mColumn.length
      · simp [H5TimeSeriesReader.subscribe, ht, hidx] at h
      · obtain ⟨n1, -, -, -, -⟩ :=
          H5TimeSeriesReader.doSubscr_frame r (r.mColumn.findIdx (fun c => decide (n = c.mName)))
        have hs := H5TimeSeriesReader.doSubscr_state r
          (r.mColumn.findIdx (fun c => decide (n = c.mName)))
        cases hstep : r.doSubscr (r.mColumn.findIdx (fun c => decide (n = c.mName))) with
        | mk r1 e1 =>
          rw [hstep] at hs n1
          simp only at hs n1
          cases e1 with
          | some e => simp [H5TimeSeriesReader.subscribe, ht, hidx, hstep] at h
          | none =>
            obtain ⟨s1, s2, s3⟩ := hs rfl
            have hres : r.subscribe (n :: rest) = r1.subscribe rest := by
              simp [H5TimeSeriesReader.subscribe, ht, hidx, hstep]
            rw [hres] at h ⊢
            obtain ⟨t1, t2, t3⟩ := ih r1 h
            have hords : r1.ordinals rest = r.ordinals rest := by
              unfold H5TimeSeriesReader.ordinals
              apply List.map_congr_left
              intro m _
              exact (H5TimeSeriesReader.ordinals_names n1 m).1
            have hfile : r1.mFileId = r.mFileId := by rw [s3]
            have hwith : ∀ c, r1.withDset c = r.withDset c := by
              intro c; simp only [H5TimeSeriesReader.withDset, hfile]
            have hcons : r.ordinals (n :: rest)
                = r.mColumn.findIdx (fun c => decide (n = c.mName)) :: r.ordinals rest := rfl
            refine ⟨?_, ?_, ?_⟩
            · rw [t1, hords, s1, hcons, List.foldl_cons]
            · intro k
              rw [t2 k, s2 k, hords, s1, hcons]
              cases r.mColumn.get? k with
              | none => rfl
              | some c =>
                simp only [Option.map_some', Option.some.injEq, List.mem_cons, hwith]
                by_cases hk : k = r.mColumn.findIdx (fun c => decide (n = c.mName))
                · by_cases hm : k ∈ r.mSubscrList
                  · have hm2 : k ∈ subscrAdd r.mSubscrList
                        (r.mColumn.findIdx (fun c => decide (n = c.mName))) := by
                      unfold subscrAdd; split_ifs
                      · exact hm
                      · exact List.mem_append_left _ hm
                    simp [hm, hm2]
                  · have hm2 : k ∈ subscrAdd r.mSubscrList
                        (r.mColumn.findIdx (fun c => decide (n = c.mName))) := by
                      unfold subscrAdd; split_ifs with h3
                      · exact hk ▸ h3
                      · exact List.mem_append_right _ (by simp [hk])
                    rw [← hk] at hm2 ⊢
                    simp [hm, hm2]
                · have hm2 : k ∈ subscrAdd r.mSubscrList
                      (r.mColumn.findIdx (fun c => decide (n = c.mName))) ↔ k ∈ r.mSubscrList := by
                    unfold subscrAdd; split_ifs
                    · rfl
                    · simp [hk]
                  simp [hk, hm2]
            · rw [t3, s3]

/-- C12 (amended): the order of the names of `subscribe`.  For every consistent reader
whose subscription list has no repeats and every two lists of names of declared value
columns that are permutations of one another: neither `subscribe` throws; the two
readers have the same opened dataset handles (the same columns) and the same
subscribed ordinals, and the two subscription lists are permutations of one another;
the readers differ in nothing but the order of the subscription list, which is, for
each, the list the reader had followed by the ordinals not yet subscribed in the order
in which the names come. -/
theorem subscribe_perm (r : H5TimeSeriesReader) (hr : r.Consistent)
    (hnd : r.mSubscrList.Nodup) (xs ys : List Str) (hperm : xs.Perm ys)
    (hx : ∀ n ∈ xs, n ≠ kTimeStr ∧ n ∈ r.nonTimeColumnNames) :
    (r.subscribe xs).exn = none ∧ (r.subscribe ys).exn = none ∧
    (r.subscribe xs).r.mSubscrList.Perm (r.subscribe ys).r.mSubscrList ∧
    (r.subscribe xs).r.mColumn = (r.subscribe ys).r.mColumn ∧
    (r.subscribe ys).r
      = { (r.subscribe xs).r with mSubscrList := (r.subscribe ys).r.mSubscrList } ∧
    (r.subscribe xs).r.mSubscrList = (r.ordinals xs).foldl subscrAdd r.mSubscrList ∧
    (r.subscribe ys).r.mSubscrList = (r.ordinals ys).foldl subscrAdd r.mSubscrList := by
  have hy : ∀ n ∈ ys, n ≠ kTimeStr ∧ n ∈ r.nonTimeColumnNames :=
    fun n hn => hx n (hperm.mem_iff.mpr hn)
  have ex := (H5TimeSeriesReader.Consistent.subscribe xs hr hx).1
  have ey := (H5TimeSeriesReader.Consistent.subscribe ys hr hy).1
  obtain ⟨x1, x2, x3⟩ := H5TimeSeriesReader.subscribe_state xs r ex
  obtain ⟨y1, y2, y3⟩ := H5TimeSeriesReader.subscribe_state ys r ey
  have hords : ∀ k, k ∈ r.ordinals xs ↔ k ∈ r.ordinals ys := by
    intro k
    exact (hperm.map _).mem_iff
  have hcols : (r.subscribe xs).r.mColumn = (r.subscribe ys).r.mColumn := by
    apply List.ext_get?
    intro k
    rw [x2 k, y2 k]
    simp only [hords k]
  refine ⟨ex, ey, ?_, hcols, ?_, x1, y1⟩
  · rw [List.perm_ext_iff_of_nodup (by rw [x1]; exact nodup_foldl_subscrAdd _ _ hnd)
      (by rw [y1]; exact nodup_foldl_subscrAdd _ _ hnd)]
    intro k
    rw [x1, y1, mem_foldl_subscrAdd, mem_foldl_subscrAdd, hords k]
  · rw [y3, x3, hcols]

/-- C12 (amended) at the reader of the example table, for the names `x1`, `x3` and
`x3`, `x1`. -/
theorem subscribe_perm_witness :
    exReader.Consistent ∧ exReader.mSubscrList.Nodup ∧
    ["x1".toList, "x3".toList].Perm ["x3".toList, "x1".toList] ∧
    (∀ n ∈ ["x1".toList, "x3".toList], n ≠ kTimeStr ∧ n ∈ exReader.nonTimeColumnNames) ∧
    (exReader.subscribe ["x1".toList, "x3".toList]).r.mSubscrList.Perm
      (exReader.subscribe ["x3".toList, "x1".toList]).r.mSubscrList ∧
    (exReader.subscribe ["x1".toList, "x3".toList]).r.mColumn
      = (exReader.subscribe ["x3".toList, "x1".toList]).r.mColumn :=
  have h := subscribe_perm exReader exReader_consistent (by decide)
    ["x1".toList, "x3".toList] ["x3".toList, "x1".toList] (by decide) (by decide)
  ⟨exReader_consistent, by decide, by decide, by decide, h.2.2.1, h.2.2.2.1⟩

/-- C12 as stated fails: the subscription list that `readRow` iterates depends on the
order of the names.  On the new reader of the example table, `subscribe(["x1", "x3"])`
leaves the list `[0, 2]` and `subscribe(["x3", "x1"])` leaves the list `[2, 0]`, and
`readRow(0, ...)` yields the values `12, 1234` after the first and `1234, 12` after the
second. -/
theorem subscribe_perm_counterexample :
    ["x1".toList, "x3".toList].Perm ["x3".toList, "x1".toList] ∧
    (∀ n ∈ ["x1".toList, "x3".toList], n ≠ kTimeStr ∧ n ∈ exReader.nonTimeColumnNames) ∧
    (exReader.subscribe ["x1".toList, "x3".toList]).exn = none ∧
    (exReader.subscribe ["x3".toList, "x1".toList]).exn = none ∧
    (exReader.subscribe ["x1".toList, "x3".toList]).r.mSubscrList = [0, 2] ∧
    (exReader.subscribe ["x3".toList, "x1".toList]).r.mSubscrList = [2, 0] ∧
    (exReader.subscribe ["x1".toList, "x3".toList]).r.mSubscrList
      ≠ (exReader.subscribe ["x3".toList, "x1".toList]).r.mSubscrList ∧
    ((exReader.subscribe ["x1".toList, "x3".toList]).r.readRow 0 0 []).nonTimeValues
      = [12, 1234] ∧
    ((exReader.subscribe ["x3".toList, "x1".toList]).r.readRow 0 0 []).nonTimeValues
      = [1234, 12] := by
  refine ⟨by decide, by decide, by decide, by decide, by decide, by decide, by decide,
    by decide, by decide⟩

/-! ## The backend reads of sequential calls -/

/-- A `getValue` that does not refill is served from the buffer: the column is left as it
is, no backend read is made, and the value is the slot `index - mLastIndex`. -/
theorem Column.getValue_of_not_refills (c : Column) (index : Nat)
    (h : c.refills index = false) :
    c.getValue index = (c, c.elem (index - c.mLastIndex)) := by
  unfold Column.refills at h
  unfold Column.getValue
  by_cases hempty : c.mData.isEmpty = true
  · simp [hempty] at h
  · simp only [hempty, Bool.false_eq_true, if_false] at h ⊢
    have hcond : ¬ (c.mLastIndex + kBufferSize ≤ index ∨ index < c.mLastIndex) := by
      simpa using h
    simp only [hcond, if_false]

/-- A `getValue` that refills goes through `updateBuffer(index)`, that is one
`readColumn` of `kBufferSize` elements from the start index `index`. -/
theorem Column.getValue_of_refills (c : Column) (index : Nat) (h : c.refills index = true) :
    c.getValue index =
      match Column.updateBuffer
        (if c.mData.isEmpty then
          { c with mData := List.replicate kBufferSize 0, mLastIndex := index + 1 }
         else c) index with
      | (c2, some e) => (c2, .error e)
      | (c2, none) => (c2, c2.elem (index - c2.mLastIndex)) := by
  unfold Column.refills at h
  unfold Column.getValue
  have hcond := of_decide_eq_true h
  simp only [if_pos hcond]

/-- The window after a `getValue` at an index within the extent: the buffer has
`kBufferSize` slots, and the window starts at the index when the call refilled and where
it started otherwise.  The first call on a column always refills. -/
theorem Column.getValue_cursor {c : Column} {ds : DataSet} {index : Nat}
    (hd : c.mDset = some ds) (hlen : c.mData = [] ∨ c.mData.length = kBufferSize)
    (hi : index < ds.data.length) :
    (c.getValue index).1.mDset = some ds ∧
    (c.getValue index).1.mData.length = kBufferSize ∧
    (c.getValue index).1.mLastIndex = (if c.refills index then index else c.mLastIndex) ∧
    (c.mData = [] → c.refills index = true) := by
  by_cases hr : c.refills index = true
  · have hc1 : (if c.mData.isEmpty then
          { c with mData := List.replicate kBufferSize 0, mLastIndex := index + 1 }
         else c).mDset = some ds := by
      split_ifs <;> exact hd
    have hl1 : (if c.mData.isEmpty then
          { c with mData := List.replicate kBufferSize 0, mLastIndex := index + 1 }
         else c).mData.length = kBufferSize := by
      split_ifs with hempty
      · simp
      · rcases hlen with h | h
        · simp [h] at hempty
        · exact h
    obtain ⟨c2, e1, e2, -, e4, e5, -⟩ := Column.updateBuffer_spec hc1 hl1 hi
    rw [Column.getValue_of_refills c index hr, e1]
    simp only [hr, if_true]
    exact ⟨e2, e5, e4, fun _ => trivial⟩
  · have hr2 : c.refills index = false := by simpa using hr
    rw [Column.getValue_of_not_refills c index hr2]
    simp only [hr2, Bool.false_eq_true, if_false]
    have hne : c.mData ≠ [] := by
      intro hempty
      simp [Column.refills, hempty] at hr2
    refine ⟨hd, ?_, trivial, fun h => absurd h hne⟩
    rcases hlen with h | h
    · exact absurd h hne
    · exact h

/-- Sequential calls from `k` on, on a window that starts at a multiple of `kBufferSize`
below `k` and reaches `k` or ends just before it: the backend reads are made at the
multiples of `kBufferSize` among the indices. -/
theorem Column.backendReads_range (ds : DataSet) (m : Nat) :
    ∀ (c : Column) (k : Nat), c.mDset = some ds → c.mData.length = kBufferSize →
      c.mLastIndex % kBufferSize = 0 → c.mLastIndex < k → k ≤ c.mLastIndex + kBufferSize →
      k + m ≤ ds.data.length →
      c.backendReads (List.range' k m) = (List.range' k m).filter (fun i => i % kBufferSize = 0) := by
  induction m with
  | zero => intro c k _ _ _ _ _ _; rfl
  | succ m ih =>
    intro c k hd hlen hmod hlt hle hL
    obtain ⟨g1, g2, g3, -⟩ := Column.getValue_cursor hd (Or.inr hlen)
      (show k < ds.data.length by omega)
    have hne : c.mData.isEmpty = false := by
      cases hm : c.mData with
      | nil => rw [hm] at hlen; simp [kBufferSize] at hlen
      | cons x xs => rfl
    have href : c.refills k = decide (k % kBufferSize = 0) := by
      unfold Column.refills
      simp only [hne, Bool.false_eq_true, if_false]
      simp only [kBufferSize] at hmod hle ⊢
      rw [decide_eq_decide]
      omega
    rw [List.range'_succ, Column.backendReads, List.filter_cons]
    have hrec := ih (c.getValue k).1 (k + 1) g1 g2
      (by
        rw [g3, href]
        by_cases h0 : k % kBufferSize = 0
        · simp [h0]
        · simp [h0, hmod])
      (by
        rw [g3]
        split_ifs <;> omega)
      (by
        rw [g3, href]
        simp only [decide_eq_true_eq, kBufferSize] at hmod hle ⊢
        split_ifs <;> omega)
      (by omega)
    rw [hrec, href]
    by_cases h0 : k % kBufferSize = 0
    · simp [h0]
    · simp [h0]

theorem filter_range_multiples (n : Nat) :
    (List.range n).filter (fun i => i % kBufferSize = 0)
      = (List.range ((n + kBufferSize - 1) / kBufferSize)).map (fun k => k * kBufferSize) := by
  induction n with
  | zero => simp [kBufferSize]
  | succ n ih =>
    rw [List.range_succ, List.filter_append, ih]
    by_cases h0 : n % kBufferSize = 0
    · have h1 : (n + 1 + kBufferSize - 1) / kBufferSize
          = (n + kBufferSize - 1) / kBufferSize + 1 := by
        simp only [kBufferSize] at h0 ⊢; omega
      have h2 : (n + kBufferSize - 1) / kBufferSize * kBufferSize = n := by
        simp only [kBufferSize] at h0 ⊢; omega
      rw [h1, List.range_succ, List.map_append]
      simp [h0, h2]
    · have h1 : (n + 1 + kBufferSize - 1) / kBufferSize = (n + kBufferSize - 1) / kBufferSize := by
        simp only [kBufferSize] at h0 ⊢; omega
      rw [h1]
      simp [h0]

/-- C18: sequential amortisation.  On a newly constructed column window over a dataset
of length `L`, the calls `getValue(0)`, ..., `getValue(n - 1)` with `n` at most `L`
issue their backend reads at the start indices `0`, `kBufferSize`, `2 * kBufferSize`,
..., one for each multiple of `kBufferSize` = 4096 below `n`: exactly
`ceil(n / kBufferSize)` reads.  Every call returns the element of the dataset at its
index, and a call that issues no backend read is served from the buffer and leaves the
window as it is. -/
theorem sequential_reads (name : Str) (ds : DataSet) (n : Nat) (hn : n ≤ ds.data.length) :
    ((Column.ctor name).setDset ds).backendReads (List.range n)
      = (List.range ((n + kBufferSize - 1) / kBufferSize)).map (fun k => k * kBufferSize) ∧
    (((Column.ctor name).setDset ds).backendReads (List.range n)).length
      = (n + kBufferSize - 1) / kBufferSize ∧
    ((Column.ctor name).setDset ds).getValues (List.range n)
      = (List.range n).map (fun i => Except.ok (ds.data.getD i 0)) ∧
    (∀ (c : Column) (index : Nat), c.refills index = false →
      c.getValue index = (c, c.elem (index - c.mLastIndex))) := by
  have hreads : ((Column.ctor name).setDset ds).backendReads (List.range n)
      = (List.range ((n + kBufferSize - 1) / kBufferSize)).map (fun k => k * kBufferSize) := by
    rw [← filter_range_multiples]
    cases n with
    | zero => rfl
    | succ m =>
      obtain ⟨g1, g2, g3, g4⟩ := @Column.getValue_cursor ((Column.ctor name).setDset ds) ds 0
        rfl (Or.inl rfl) (by omega)
      have href := g4 rfl
      rw [href] at g3
      simp only [if_true] at g3
      rw [List.range_eq_range', List.range'_succ, Column.backendReads, List.filter_cons, href]
      rw [Column.backendReads_range ds m _ 1 g1 g2 (by rw [g3]; rfl) (by rw [g3]; omega)
        (by rw [g3]; simp [kBufferSize]) (by omega)]
      simp
  refine ⟨hreads, by rw [hreads]; simp, ?_, Column.getValue_of_not_refills⟩
  exact Column.getValues_spec ds (List.range n) _ rfl (Or.inl rfl)
    (fun i hi => by have := List.mem_range.mp hi; omega)

/-- C18 at a dataset of 5000 elements: the calls `getValue(0)`, ..., `getValue(4096)`
issue two backend reads, at the start indices 0 and 4096; on a dataset of three
elements the three calls issue one, at 0. -/
theorem sequential_reads_witness :
    4097 ≤ (⟨PredType.NATIVE_DOUBLE, List.replicate 5000 7⟩ : DataSet).data.length ∧
    ((Column.ctor "x1".toList).setDset ⟨PredType.NATIVE_DOUBLE, List.replicate 5000 7⟩).backendReads
      (List.range 4097) = [0, 4096] ∧
    ((Column.ctor "x1".toList).setDset ⟨PredType.NATIVE_DOUBLE, [5, 6, 7]⟩).backendReads
      (List.range 3) = [0] :=
  ⟨by rw [List.length_replicate]; omega,
    (sequential_reads "x1".toList ⟨PredType.NATIVE_DOUBLE, List.replicate 5000 7⟩ 4097
      (by rw [List.length_replicate]; omega)).1.trans (by decide),
    (sequential_reads "x1".toList ⟨PredType.NATIVE_DOUBLE, [5, 6, 7]⟩ 3 (by decide)).1.trans
      (by decide)⟩

end rgr
